import Mathlib

/-!
# Session bookkeeping, package-manager selection and observation hooks

A shallow embedding of `scripts/lib/session-aliases.js`, of the analysis tick and the
summary of `scripts/hooks/start-observer.js`, of `scripts/lib/session-manager.js`, of
`scripts/lib/package-manager.js` and of `shared/scripts/hooks/observe.js`.

Conventions of the embedding.

* A JavaScript object used as a map is the ordered list of its own
  properties; lookups that the source writes as `obj[key]` also see the
  members inherited from `Object.prototype`, exactly as the source does.
* The file system is explicit state.  Every mutating `fs` call that may throw
  has a flag in a fault record; a flagged call throws and leaves the state as
  it was.  Reading a file that exists succeeds.
* `new Date().toISOString()` is a clock reading passed in by the caller.
* The text of the alias file is represented by what `JSON.parse` makes of it.
* A regular expression is a tree run by a backtracking matcher; the built-ins
  `JSON.parse`, `new Date(s)` and `toLowerCase` are parameters where a function of
  the library only passes their results on.
-/

set_option autoImplicit false

namespace SessionAliases

/-! ## JavaScript objects as ordered property lists -/

/-- Decimal digit test. -/
def isDigitChar (c : Char) : Bool := decide (48 ≤ c.toNat) && decide (c.toNat ≤ 57)

/-- Value of a string of decimal digits. -/
def digitsValue (cs : List Char) : Nat := cs.foldl (fun n c => 10 * n + (c.toNat - 48)) 0

/-- The array index a property key denotes, if any: a canonical decimal numeral
below `2^32 - 1`.  Such keys are enumerated first, in ascending order. -/
def arrayIndex? (k : String) : Option Nat :=
  match k.data with
  | [] => none
  | c :: cs =>
    if (c :: cs).all isDigitChar && (c != '0' || cs.isEmpty)
        && decide (digitsValue (c :: cs) < 4294967295) then
      some (digitsValue (c :: cs))
    else none

/-- Own-property enumeration order: `ownBefore k k2` when a newly created key `k`
is enumerated before the existing key `k2` (array indices ascending, then every other
key in creation order). -/
def ownBefore (k k2 : String) : Bool :=
  match arrayIndex? k, arrayIndex? k2 with
  | some i, some j => decide (i < j)
  | some _, none => true
  | none, _ => false

/-- Own property lookup. -/
def getOwn {β : Type} : List (String × β) → String → Option β
  | [], _ => none
  | (k2, v) :: rest, k => if k2 = k then some v else getOwn rest k

/-- Overwrite the value of an existing own property, keeping its position. -/
def replaceOwn {β : Type} : List (String × β) → String → β → List (String × β)
  | [], _, _ => []
  | (k2, v2) :: rest, k, v =>
    if k2 = k then (k2, v) :: rest else (k2, v2) :: replaceOwn rest k v

/-- Create a new own property at its place in the enumeration order. -/
def insertOwn {β : Type} : List (String × β) → String → β → List (String × β)
  | [], k, v => [(k, v)]
  | (k2, v2) :: rest, k, v =>
    if ownBefore k k2 then (k, v) :: (k2, v2) :: rest else (k2, v2) :: insertOwn rest k v

/-- The effect of `CreateDataProperty`: overwrite in place or create. -/
def defineOwn {β : Type} (o : List (String × β)) (k : String) (v : β) : List (String × β) :=
  if (getOwn o k).isSome then replaceOwn o k v else insertOwn o k v

/-- The effect of `delete obj[k]`: only an own property is removed. -/
def deleteOwn {β : Type} (o : List (String × β)) (k : String) : List (String × β) :=
  o.filter (fun e => !decide (e.1 = k))

/-- The effect of `Object.keys`. -/
def objectKeys {β : Type} (o : List (String × β)) : List String := o.map Prod.fst

/-! ## Alias records -/

/-- One alias record `{ sessionPath, createdAt, updatedAt, title }`.  A field that is
`undefined` (or, for `title`, `null`) is `none`. -/
structure AliasInfo where
  sessionPath : Option String
  createdAt : Option String
  updatedAt : Option String
  title : Option String
deriving DecidableEq, Repr

/-- A plain object without any of the four fields. -/
def AliasInfo.empty : AliasInfo :=
  { sessionPath := none, createdAt := none, updatedAt := none, title := none }

/-- A value found under a key of the in-memory `aliases` object: a plain object, a
built-in function inherited from `Object.prototype`, `null`, or any other value a JSON
text can hold that is no plain object: a boolean, a number, a string or an array, kept as
its JSON text together with its truthiness (false for `false`, zero and the empty
string). -/
inductive JsVal where
  | record (info : AliasInfo)
  | func
  | null
  | other (json : String) (truthy : Bool)
deriving DecidableEq, Repr

/-- JavaScript truthiness of a value. -/
def JsVal.truthy : JsVal → Bool
  | .record _ => true
  | .func => true
  | .null => false
  | .other _ t => t

/-- Reading `.sessionPath` on a value other than `null`; only a plain object has such a
property. -/
def JsVal.sessionPath : JsVal → Option String
  | .record r => r.sessionPath
  | _ => none

/-- Reading `.createdAt` on a value other than `null`. -/
def JsVal.createdAt : JsVal → Option String
  | .record r => r.createdAt
  | _ => none

/-- Reading `.title` on a value other than `null`. -/
def JsVal.title : JsVal → Option String
  | .record r => r.title
  | _ => none

/-- The assignment `value.updatedAt = now` on a truthy value; on a built-in function or
an array it leaves nothing that is ever serialised, and on a boolean, a number or a
string it does nothing. -/
def JsVal.withUpdatedAt (now : String) : JsVal → JsVal
  | .record r => .record { r with updatedAt := some now }
  | v => v

/-- The function-valued members of `Object.prototype`. -/
def objectPrototypeFunctions : List String :=
  ["constructor", "__defineGetter__", "__defineSetter__", "hasOwnProperty",
   "__lookupGetter__", "__lookupSetter__", "isPrototypeOf", "propertyIsEnumerable",
   "toString", "valueOf", "toLocaleString"]

/-- What `obj[k]` yields when `obj` has no own property `k`: the `__proto__` accessor
returns `Object.prototype` itself, a plain object with no enumerable property. -/
def inherited (k : String) : Option JsVal :=
  if k = "__proto__" then some (.record AliasInfo.empty)
  else if k ∈ objectPrototypeFunctions then some .func
  else none

/-- The property read `aliases[k]`; `none` is `undefined`. -/
def jsGet (o : List (String × JsVal)) (k : String) : Option JsVal :=
  match getOwn o k with
  | some v => some v
  | none => inherited k

/-- The value of `aliases[k]` when it is truthy, as the tests `!aliases[k]` and
`aliases[k] ? ... : ...` see it; `none` stands for every falsy value. -/
def jsTruthy (o : List (String × JsVal)) (k : String) : Option JsVal :=
  match jsGet o k with
  | some v => if v.truthy then some v else none
  | none => none

/-- The assignment `aliases[k] = v`.  Without an own property `__proto__` the assignment
runs the inherited setter, which changes the prototype and creates no property. -/
def jsSet (o : List (String × JsVal)) (k : String) (v : JsVal) : List (String × JsVal) :=
  if (getOwn o k).isSome then replaceOwn o k v
  else if k = "__proto__" then o
  else insertOwn o k v

/-! ## The alias document and its file -/

/-- The `metadata` member of the document. -/
structure Metadata where
  totalCount : Int
  lastUpdated : String
deriving DecidableEq, Repr

/-- The alias document in memory. -/
structure AliasData where
  version : Option String
  aliases : List (String × JsVal)
  metadata : Option Metadata
deriving DecidableEq, Repr

/-- A value of the `aliases` member as JSON text holds it: an object, kept as the four
members the library reads, each a string or absent; `null`; or any other value, as in
`JsVal`. -/
inductive StoredVal where
  | record (info : AliasInfo)
  | null
  | other (json : String) (truthy : Bool)
deriving DecidableEq, Repr

/-- The value `JSON.parse` builds for a stored value. -/
def StoredVal.toJs : StoredVal → JsVal
  | .record r => .record r
  | .null => .null
  | .other j t => .other j t

/-- The alias document as JSON text holds it, its `aliases` member a plain object with
the members in textual order. -/
structure AliasDoc where
  version : Option String
  aliases : List (String × StoredVal)
  metadata : Option Metadata
deriving DecidableEq, Repr

/-- Content of a file at the alias path: JSON text of an object whose `aliases` member is
a plain object, or any other text for which `loadAliases` gives the default document
(empty, unparseable, or without a truthy `aliases` member of type object).  A text whose
`aliases` member is an array is not represented. -/
inductive FileContent where
  | json (doc : AliasDoc)
  | other (text : String)
deriving DecidableEq, Repr

/-- The alias file with its `.tmp` and `.bak` siblings; `none` is an absent file. -/
structure AliasFS where
  primary : Option FileContent
  tmp : Option FileContent
  bak : Option FileContent
deriving DecidableEq, Repr

/-- Which of the mutating file-system calls of `saveAliases` throw when reached. -/
structure Faults where
  ensureDir : Bool
  backupCopy : Bool
  tmpWrite : Bool
  unlinkPrimary : Bool
  renameTmp : Bool
  unlinkBackup : Bool
  restoreCopy : Bool
  unlinkTmp : Bool
deriving DecidableEq, Repr

/-- No call throws. -/
def Faults.none : Faults :=
  { ensureDir := false, backupCopy := false, tmpWrite := false, unlinkPrimary := false,
    renameTmp := false, unlinkBackup := false, restoreCopy := false, unlinkTmp := false }

/-- None of the calls in the `try` block of `saveAliases` throws. -/
def Faults.saveOk (f : Faults) : Bool :=
  !f.ensureDir && !f.backupCopy && !f.tmpWrite && !f.unlinkPrimary && !f.renameTmp
    && !f.unlinkBackup

/-- The clock readings of one call, one per `new Date()` site. -/
structure Clock where
  loaded : String
  created : String
  updated : String
  saved : String
deriving DecidableEq, Repr

/-- The environment of one call. -/
structure Env where
  faults : Faults
  clock : Clock
deriving DecidableEq, Repr

def ALIAS_VERSION : String := "1.0"

def getDefaultAliases (now : String) : AliasData :=
  { version := some ALIAS_VERSION, aliases := [],
    metadata := some { totalCount := 0, lastUpdated := now } }

/-- The object `JSON.parse` builds from the members of the `aliases` text, one
`CreateDataProperty` per member. -/
def parseObject (entries : List (String × StoredVal)) : List (String × JsVal) :=
  entries.foldl (fun o e => defineOwn o e.1 e.2.toJs) []

/-- The members `JSON.stringify` writes for the `aliases` object: own properties in
order, function-valued ones omitted. -/
def serialiseObject : List (String × JsVal) → List (String × StoredVal)
  | [] => []
  | (k, .record r) :: rest => (k, .record r) :: serialiseObject rest
  | (_, .func) :: rest => serialiseObject rest
  | (k, .null) :: rest => (k, .null) :: serialiseObject rest
  | (k, .other j t) :: rest => (k, .other j t) :: serialiseObject rest

/-- The effect of `JSON.stringify(aliases, null, 2)`. -/
def serialise (d : AliasData) : AliasDoc :=
  { version := d.version, aliases := serialiseObject d.aliases, metadata := d.metadata }

def loadAliases (fs : AliasFS) (now : String) : AliasData :=
  match fs.primary with
  | none => getDefaultAliases now
  | some (.other _) => getDefaultAliases now
  | some (.json doc) =>
    let aliases := parseObject doc.aliases
    { version := if doc.version = none ∨ doc.version = some "" then some ALIAS_VERSION
        else doc.version,
      aliases := aliases,
      metadata := match doc.metadata with
        | some m => some m
        | none => some { totalCount := (aliases.length : Int), lastUpdated := now } }

/-- How a call of `saveAliases` ends. -/
inductive SaveOutcome where
  | saved
  | failed
  | raised
deriving DecidableEq, Repr

/-- The `catch` block of `saveAliases`: restore the backup over the primary path (a
failure of that copy is swallowed), remove the `.tmp` leftover, return `false`.  The
final `unlinkSync` is not guarded, so its failure escapes the call. -/
def saveRecover (faults : Faults) (fs : AliasFS) : SaveOutcome × AliasFS :=
  let fs1 := if fs.bak.isSome && !faults.restoreCopy then { fs with primary := fs.bak } else fs
  if fs1.tmp.isSome then
    if faults.unlinkTmp then (SaveOutcome.raised, fs1)
    else (SaveOutcome.failed, { fs1 with tmp := none })
  else (SaveOutcome.failed, fs1)

def saveAliases (fs : AliasFS) (faults : Faults) (now : String) (aliases : AliasData) :
    SaveOutcome × AliasFS :=
  let content := FileContent.json (serialise
    { aliases with
      metadata := some { totalCount := (aliases.aliases.length : Int), lastUpdated := now } })
  if faults.ensureDir then saveRecover faults fs else
  if fs.primary.isSome && faults.backupCopy then saveRecover faults fs else
  let fs1 := if fs.primary.isSome then { fs with bak := fs.primary } else fs
  if faults.tmpWrite then saveRecover faults fs1 else
  let fs2 := { fs1 with tmp := some content }
  if fs2.primary.isSome && faults.unlinkPrimary then saveRecover faults fs2 else
  let fs3 := { fs2 with primary := none }
  if faults.renameTmp then saveRecover faults fs3 else
  let fs4 := { fs3 with primary := fs3.tmp, tmp := none }
  if fs4.bak.isSome && faults.unlinkBackup then saveRecover faults fs4 else
  (SaveOutcome.saved, { fs4 with bak := none })

/-! ## Alias operations -/

/-- Character class of the alias pattern `[a-zA-Z0-9_-]`. -/
def isAliasChar (c : Char) : Bool :=
  (decide (97 ≤ c.toNat) && decide (c.toNat ≤ 122))
    || (decide (65 ≤ c.toNat) && decide (c.toNat ≤ 90))
    || isDigitChar c || c == '_' || c == '-'

/-- The test `/^[a-zA-Z0-9_-]+$/.test(alias)`. -/
def validAliasName (aliasName : String) : Bool :=
  !aliasName.data.isEmpty && aliasName.data.all isAliasChar

def reserved : List String := ["list", "help", "remove", "delete", "create", "set"]

/-- The effect of `toLowerCase` on the ASCII letters; only applied to names that passed
`validAliasName`. -/
def toLowerCase (s : String) : String := String.mk (s.data.map Char.toLower)

/-- The JavaScript expression `title || null`. -/
def orNull : Option String → Option String
  | some s => if s = "" then none else some s
  | none => none

/-- How a call of an alias operation ends: a `success: true` result, a
`success: false` result with its error text, or an exception escaping the call. -/
inductive Outcome (α : Type) where
  | success (value : α)
  | failure (error : String)
  | raised
deriving DecidableEq, Repr

/-- Whether the call reported `success: true`. -/
def Outcome.isSuccess {α : Type} : Outcome α → Bool
  | .success _ => true
  | _ => false

/-- The record `resolveAlias` returns. -/
structure ResolvedAlias where
  aliasName : String
  sessionPath : Option String
  createdAt : Option String
  title : Option String
deriving DecidableEq, Repr

def resolveAlias (fs : AliasFS) (now : String) (aliasName : String) : Option ResolvedAlias :=
  if !validAliasName aliasName then none
  else
    let data := loadAliases fs now
    match jsTruthy data.aliases aliasName with
    | none => none
    | some aliasData =>
      some { aliasName := aliasName, sessionPath := aliasData.sessionPath,
             createdAt := aliasData.createdAt, title := orNull aliasData.title }

/-- The success result of `setAlias`. -/
structure SetAliasOk where
  isNew : Bool
  aliasName : String
  sessionPath : String
  title : Option String
deriving DecidableEq, Repr

def setAlias (fs : AliasFS) (env : Env) (aliasName : String) (sessionPath : String)
    (title : Option String) : Outcome SetAliasOk × AliasFS :=
  if aliasName.data.isEmpty then (.failure "Alias name cannot be empty", fs)
  else if !validAliasName aliasName then
    (.failure "Alias name must contain only letters, numbers, dashes, and underscores", fs)
  else if reserved.contains (toLowerCase aliasName) then
    (.failure ("\x27" ++ aliasName ++ "\x27 is a reserved alias name"), fs)
  else
    let data := loadAliases fs env.clock.loaded
    let existing := jsTruthy data.aliases aliasName
    let isNew := existing.isNone
    let info : AliasInfo :=
      { sessionPath := some sessionPath,
        createdAt := match existing with
          | some e => e.createdAt
          | none => some env.clock.created,
        updatedAt := some env.clock.updated,
        title := orNull title }
    let data2 := { data with aliases := jsSet data.aliases aliasName (.record info) }
    match saveAliases fs env.faults env.clock.saved data2 with
    | (.saved, fs2) =>
      (.success { isNew := isNew, aliasName := aliasName, sessionPath := sessionPath,
                  title := info.title }, fs2)
    | (.failed, fs2) => (.failure "Failed to save alias", fs2)
    | (.raised, fs2) => (.raised, fs2)

/-- The success result of `deleteAlias`. -/
structure DeleteAliasOk where
  aliasName : String
  deletedSessionPath : Option String
deriving DecidableEq, Repr

def deleteAlias (fs : AliasFS) (env : Env) (aliasName : String) :
    Outcome DeleteAliasOk × AliasFS :=
  let data := loadAliases fs env.clock.loaded
  match jsTruthy data.aliases aliasName with
  | none => (.failure ("Alias \x27" ++ aliasName ++ "\x27 not found"), fs)
  | some deleted =>
    let data2 := { data with aliases := deleteOwn data.aliases aliasName }
    match saveAliases fs env.faults env.clock.saved data2 with
    | (.saved, fs2) =>
      (.success { aliasName := aliasName, deletedSessionPath := deleted.sessionPath }, fs2)
    | (.failed, fs2) => (.failure "Failed to delete alias", fs2)
    | (.raised, fs2) => (.raised, fs2)

/-- The success result of `renameAlias`. -/
structure RenameAliasOk where
  oldAlias : String
  newAlias : String
  sessionPath : Option String
deriving DecidableEq, Repr

def renameAlias (fs : AliasFS) (env : Env) (oldAlias newAlias : String) :
    Outcome RenameAliasOk × AliasFS :=
  let data := loadAliases fs env.clock.loaded
  match jsTruthy data.aliases oldAlias with
  | none => (.failure ("Alias \x27" ++ oldAlias ++ "\x27 not found"), fs)
  | some aliasData =>
    if (jsTruthy data.aliases newAlias).isSome then
      (.failure ("Alias \x27" ++ newAlias ++ "\x27 already exists"), fs)
    else if !validAliasName newAlias then
      (.failure "New alias name must contain only letters, numbers, dashes, and underscores",
        fs)
    else
      let aliases1 := deleteOwn data.aliases oldAlias
      let aliasData2 := aliasData.withUpdatedAt env.clock.updated
      let data2 := { data with aliases := jsSet aliases1 newAlias aliasData2 }
      match saveAliases fs env.faults env.clock.saved data2 with
      | (.saved, fs2) =>
        (.success { oldAlias := oldAlias, newAlias := newAlias,
                    sessionPath := aliasData2.sessionPath }, fs2)
      | (.failed, fs2) => (.failure "Failed to rename alias", fs2)
      | (.raised, fs2) => (.raised, fs2)

/-- The success result of `updateAliasTitle`. -/
structure UpdateTitleOk where
  aliasName : String
  title : Option String
deriving DecidableEq, Repr

/-- The assignments `aliases[alias].title = title` and `.updatedAt = now`: they change the
own record of `alias`; when the value is inherited they change a built-in and no own
property, and on a boolean, a number, a string or an array they change nothing that is
serialised. -/
def assignTitle (o : List (String × JsVal)) (aliasName : String) (title : Option String)
    (now : String) : List (String × JsVal) :=
  match getOwn o aliasName with
  | some (.record r) => replaceOwn o aliasName (.record { r with title := title, updatedAt := some now })
  | _ => o

def updateAliasTitle (fs : AliasFS) (env : Env) (aliasName : String) (title : Option String) :
    Outcome UpdateTitleOk × AliasFS :=
  let data := loadAliases fs env.clock.loaded
  match jsTruthy data.aliases aliasName with
  | none => (.failure ("Alias \x27" ++ aliasName ++ "\x27 not found"), fs)
  | some _ =>
    let data2 := { data with aliases := assignTitle data.aliases aliasName title env.clock.updated }
    match saveAliases fs env.faults env.clock.saved data2 with
    | (.saved, fs2) => (.success { aliasName := aliasName, title := title }, fs2)
    | (.failed, fs2) => (.failure "Failed to update alias title", fs2)
    | (.raised, fs2) => (.raised, fs2)

/-- The result of `cleanupAliases`. -/
structure CleanupResult where
  totalChecked : Nat
  removed : Nat
  removedAliases : List (String × Option String)
deriving DecidableEq, Repr

/-- One iteration of the loop of `cleanupAliases` over the entries snapshot: the state is
the `removed` array and the `aliases` object. -/
def cleanupStep (sessionExists : Option String → Bool)
    (acc : List (String × Option String) × List (String × JsVal)) (entry : String × JsVal) :
    List (String × Option String) × List (String × JsVal) :=
  if !sessionExists entry.2.sessionPath then
    (acc.1 ++ [(entry.1, entry.2.sessionPath)], deleteOwn acc.2 entry.1)
  else acc

/-- The loop of `cleanupAliases` over the entries snapshot.  Reading `info.sessionPath`
raises a `TypeError` when `info` is `null`; `none` is the loop left by that exception. -/
def cleanupLoop (sessionExists : Option String → Bool) :
    List (String × JsVal) → List (String × Option String) × List (String × JsVal) →
      Option (List (String × Option String) × List (String × JsVal))
  | [], acc => some acc
  | entry :: rest, acc =>
    if entry.2 = JsVal.null then none
    else cleanupLoop sessionExists rest (cleanupStep sessionExists acc entry)

/-- The result is `none` when an exception escapes the call: the `TypeError` of the loop,
before anything is saved, or the exception of a failed save.  The boolean that
`saveAliases` returns is discarded. -/
def cleanupAliases (fs : AliasFS) (env : Env) (sessionExists : Option String → Bool) :
    Option CleanupResult × AliasFS :=
  let data := loadAliases fs env.clock.loaded
  match cleanupLoop sessionExists data.aliases ([], data.aliases) with
  | none => (none, fs)
  | some loop =>
    let result : CleanupResult :=
      { totalChecked := (objectKeys loop.2).length + loop.1.length,
        removed := loop.1.length, removedAliases := loop.1 }
    if 0 < loop.1.length then
      match saveAliases fs env.faults env.clock.saved { data with aliases := loop.2 } with
      | (.raised, fs2) => (none, fs2)
      | (_, fs2) => (some result, fs2)
    else (some result, fs)

/-- The aliases of the store, as any operation sees them after loading the file. -/
def storedAliases (fs : AliasFS) : List (String × JsVal) :=
  (loadAliases fs "").aliases

/-! ## Well-formed objects -/

/-- Keys in enumeration order without repetition. -/
def CanonicalKeys (ks : List String) : Prop :=
  ks.Pairwise (fun a b => a ≠ b ∧ ownBefore b a = false)

instance (ks : List String) : Decidable (CanonicalKeys ks) := by
  unfold CanonicalKeys; infer_instance

/-- Every own property holds a plain object, an alias record. -/
def AllRecords (o : List (String × JsVal)) : Prop := ∀ e ∈ o, ∃ r, e.2 = JsVal.record r

/-- No own property holds a function: what `JSON.parse` yields and what the assignments
of the operations keep, unless they assign an inherited built-in. -/
def NoFunction (o : List (String × JsVal)) : Prop := ∀ e ∈ o, e.2 ≠ JsVal.func

instance (o : List (String × JsVal)) : Decidable (NoFunction o) := by
  unfold NoFunction; infer_instance

/-- No own property holds `null`. -/
def NoNull (o : List (String × JsVal)) : Prop := ∀ e ∈ o, e.2 ≠ JsVal.null

instance (o : List (String × JsVal)) : Decidable (NoNull o) := by
  unfold NoNull; infer_instance

/-- The object whose properties are the members of a JSON text, in the same order. -/
def embed (l : List (String × StoredVal)) : List (String × JsVal) :=
  l.map (fun e => (e.1, e.2.toJs))


/-! ## Sample values -/

/-- No alias file yet. -/
def exampleFS : AliasFS := { primary := none, tmp := none, bak := none }

/-- Sample clock readings. -/
def exampleClock : Clock :=
  { loaded := "2025-01-15T10:00:00.000Z", created := "2025-01-15T10:00:00.001Z",
    updated := "2025-01-15T10:00:00.002Z", saved := "2025-01-15T10:00:00.003Z" }

/-- An environment in which no file-system call throws. -/
def exampleEnv : Env := { faults := Faults.none, clock := exampleClock }

/-- An environment in which writing the temporary file throws, as on a full disk. -/
def exampleFullDiskEnv : Env :=
  { faults := { Faults.none with tmpWrite := true }, clock := exampleClock }

/-- A sample alias record for a session path. -/
def exampleInfo (path : String) : AliasInfo :=
  { sessionPath := some path, createdAt := some "2025-01-14T09:00:00.000Z",
    updatedAt := some "2025-01-14T09:00:00.000Z", title := some "Sprint" }

/-- A sample document with two aliases and a stale `totalCount`. -/
def exampleDoc : AliasDoc :=
  { version := some "1.0",
    aliases := [("work", StoredVal.record (exampleInfo "/sessions/a.tmp")),
                ("gone", StoredVal.record (exampleInfo "/sessions/b.tmp"))],
    metadata := some { totalCount := 7, lastUpdated := "2025-01-14T09:00:00.000Z" } }

/-- A store holding the sample document. -/
def exampleStore : AliasFS :=
  { primary := some (FileContent.json exampleDoc), tmp := none, bak := none }


/-- A sample in-memory document with a stale `totalCount`. -/
def exampleData : AliasData :=
  { version := some "1.0",
    aliases := [("7", JsVal.record (exampleInfo "/sessions/a.tmp")),
                ("work", JsVal.record (exampleInfo "/sessions/b.tmp"))],
    metadata := some { totalCount := 40, lastUpdated := "2025-01-14T09:00:00.000Z" } }

/-- A sample predicate: only one session file still exists. -/
def exampleExists (path : Option String) : Bool := path == some "/sessions/a.tmp"

/-- A store whose file holds `null` under the alias `broken`, next to a record. -/
def exampleNullStore : AliasFS :=
  { primary := some (FileContent.json
      { version := some "1.0",
        aliases := [("work", StoredVal.record (exampleInfo "/sessions/a.tmp")),
                    ("broken", StoredVal.null)],
        metadata := some { totalCount := 2, lastUpdated := "2025-01-14T09:00:00.000Z" } }),
    tmp := none, bak := none }

end SessionAliases

namespace Observer

/-! ## The analysis tick of the observer -/

def MIN_OBSERVATIONS : Nat := 20

/-- The characters `String.prototype.trim` strips: white space and line terminators. -/
def isJsWhiteSpace (c : Char) : Bool :=
  let n := c.toNat
  n == 9 || n == 10 || n == 11 || n == 12 || n == 13 || n == 32 || n == 160 || n == 5760
    || (decide (8192 ≤ n) && decide (n ≤ 8202)) || n == 8232 || n == 8233 || n == 8239
    || n == 8287 || n == 12288 || n == 65279

/-- The effect of `trim()`. -/
def trimChars (cs : List Char) : List Char :=
  ((cs.dropWhile isJsWhiteSpace).reverse.dropWhile isJsWhiteSpace).reverse

/-- The effect of `split('\n')`. -/
def splitNewline : List Char → List (List Char)
  | [] => [[]]
  | c :: cs =>
    if c = '\n' then [] :: splitNewline cs
    else
      match splitNewline cs with
      | [] => [[c]]
      | l :: ls => (c :: l) :: ls

/-- The records of a log text: `content.trim().split('\n').filter(Boolean)`. -/
def observationLines (content : String) : List (List Char) :=
  (splitNewline (trimChars content.data)).filter (fun l => !l.isEmpty)

/-- The files the tick reads and writes; `none` is an absent file or directory, and a
directory is the list of its entries with their contents. -/
structure ObserverFS where
  observations : Option String
  promptFile : Option String
  instincts : Option (List (String × String))
  archive : Option (List (String × String))
  summary : Option String
  logLines : List String
deriving DecidableEq, Repr

/-- Which of the mutating file-system calls of the tick throw when reached. -/
structure ObserverFaults where
  instinctsMkdir : Bool
  writePrompt : Bool
  archiveMkdir : Bool
  archiveRename : Bool
  summaryWrite : Bool
deriving DecidableEq, Repr

/-- No call throws. -/
def ObserverFaults.none : ObserverFaults :=
  { instinctsMkdir := false, writePrompt := false, archiveMkdir := false,
    archiveRename := false, summaryWrite := false }

/-- How the `spawnSync` call ends: a result object with its exit status (`none` for
`null`: killed on timeout, by a signal, or never started), or an exception. -/
inductive SpawnResult where
  | completed (status : Option Int) (stdout stderr : String)
  | threw (message : String)
deriving DecidableEq, Repr

/-- What the external tool does when the tick runs it: how the call ends and the state in
which a completed run leaves the instincts directory.  The tool is taken to write nowhere
else. -/
structure ToolRun where
  result : SpawnResult
  instinctsAfter : Option (List (String × String))
deriving DecidableEq, Repr

/-- The environment of one tick: faults, paths, the clock reading, and the text of the
summary document as a function of the instinct files (`none` when no file yields an
instinct with an id, in which case nothing is written). -/
structure TickEnv where
  faults : ObserverFaults
  now : String
  observationsFile : String
  instinctsDir : String
  summaryFile : String
  render : List (String × String) → Option String

/-- The function `log`: one line appended to the observer's own log file. -/
def log (fs : ObserverFS) (now msg : String) : ObserverFS :=
  { fs with logLines := fs.logLines ++ ["[" ++ now ++ "] " ++ msg ++ "\n"] }

def getObservationCount (fs : ObserverFS) : Nat :=
  match fs.observations with
  | none => 0
  | some content => (observationLines content).length

/-- The instruction document of `writePromptFile`. -/
def promptContent (observationsFile instinctsDir : String) : String :=
  String.intercalate "\n"
    [ "# Instinct Extraction Task", "",
      "You are an instinct extractor for a Continuous Learning system.", "",
      "## Step 1: Read Observations", "",
      "Read the observations file: " ++ observationsFile, "",
      "## Step 2: Analyze Patterns", "",
      "Look for these patterns (need 3+ occurrences each):",
      "1. **Repeated workflows** - same tool sequences used multiple times",
      "2. **Tool preferences** - consistently chosen tools for certain tasks",
      "3. **Error resolutions** - errors followed by fixes",
      "4. **User corrections** - when the user corrects a previous action", "",
      "## Step 3: Create Instinct Files", "",
      "For each clear pattern, create a .yaml file in " ++ instinctsDir ++ "/", "",
      "Filename: `<kebab-case-id>.yaml`", "",
      "Content format:",
      "```",
      "---",
      "id: <kebab-case-id>",
      "trigger: \"<when this pattern applies>\"",
      "confidence: <0.3-0.85 based on frequency>",
      "domain: \"<code-style|workflow|testing|git|debugging>\"",
      "source: session-observation",
      "observed_count: <number>",
      "last_observed: <date>",
      "---", "",
      "# <Title>", "",
      "## Action",
      "<What to do when trigger fires>", "",
      "## Evidence",
      "- <Summary of observations>",
      "```", "",
      "## Rules",
      "- Only create instincts for patterns with 3+ occurrences",
      "- Be specific: narrow triggers > broad ones",
      "- Never include actual code content, only patterns",
      "- If an instinct already exists, update its confidence instead of duplicating",
      "- Maximum 5 new instincts per run",
      "- If no clear patterns found, say so — do not force instincts",
      "" ]

/-- The test `f.endsWith('.yaml')`. -/
def isYaml (name : String) : Bool := ".yaml".data.isSuffixOf name.data

/-- The `.yaml` entries of a directory listing. -/
def yamlFiles (entries : List (String × String)) : List (String × String) :=
  entries.filter (fun e => isYaml e.1)

/-- The name `processed-<ts>.jsonl`, where `ts` is the clock reading with every `:` and
`.` replaced by `-`. -/
def archiveName (now : String) : String :=
  "processed-" ++ String.mk (now.data.map (fun c => if c = ':' ∨ c = '.' then '-' else c))
    ++ ".jsonl"

/-- A file placed under a name in a directory, replacing an entry of that name. -/
def putFile (entries : List (String × String)) (name content : String) :
    List (String × String) :=
  entries.filter (fun e => !decide (e.1 = name)) ++ [(name, content)]

/-- The content of the entry of a directory under a name. -/
def getFile (entries : List (String × String)) (name : String) : Option String :=
  (entries.find? (fun e => decide (e.1 = name))).map Prod.snd

def archiveObservations (env : TickEnv) (fs : ObserverFS) : ObserverFS :=
  match fs.observations with
  | none => fs
  | some content =>
    if fs.archive.isNone && env.faults.archiveMkdir then
      log fs env.now "Archive error: mkdir failed"
    else
      let fs1 := { fs with archive := some (fs.archive.getD []) }
      if env.faults.archiveRename then log fs1 env.now "Archive error: rename failed"
      else
        let dest := archiveName env.now
        log { fs1 with observations := none,
                       archive := some (putFile (fs.archive.getD []) dest content) }
          env.now ("Archived observations to " ++ dest)

/-- The result is `none` when writing the summary throws. -/
def generateInstinctsMd (env : TickEnv) (fs : ObserverFS) : Option ObserverFS :=
  match fs.instincts with
  | none => some fs
  | some entries =>
    let files := yamlFiles entries
    if files.length = 0 then some fs
    else
      match env.render files with
      | none => some fs
      | some text =>
        if env.faults.summaryWrite then none
        else some (log { fs with summary := some text } env.now
          ("Generated instincts summary: " ++ env.summaryFile))

/-- How a tick ends: what `runAnalysis` returned (`none` when an exception escaped it),
whether the external tool was run, and the files afterwards. -/
structure TickResult where
  returned : Option Bool
  toolInvoked : Bool
  fs : ObserverFS

/-- The branch `result.status === 0` of `runAnalysis`, entered with the files as the tool
left them: archive and regenerate the summary when the instincts directory holds a
`.yaml` file, keep the log otherwise.  An exception of `generateInstinctsMd` is caught by
the enclosing `try`. -/
def analysisSucceeded (env : TickEnv) (stdout : String) (fs4 : ObserverFS) : TickResult :=
  let fs5 := log fs4 env.now "Analysis completed successfully"
  let fs6 := if stdout = "" then fs5
    else log fs5 env.now ("Output: " ++ String.mk (stdout.data.take 500))
  match fs6.instincts with
  | none => { returned := some true, toolInvoked := true, fs := fs6 }
  | some entries =>
    let instincts := yamlFiles entries
    if 0 < instincts.length then
      let fs7 := archiveObservations env fs6
      match generateInstinctsMd env fs7 with
      | none =>
        { returned := some false, toolInvoked := true,
          fs := log fs7 env.now "Analysis error: cannot write the summary" }
      | some fs8 =>
        { returned := some true, toolInvoked := true,
          fs := log fs8 env.now ("Found " ++ toString instincts.length
            ++ " instinct(s) after analysis") }
    else
      { returned := some true, toolInvoked := true,
        fs := log fs6 env.now "No instincts created — keeping observations for next run" }

/-- The result is `none` when creating the directory or writing the file throws. -/
def writePromptFile (env : TickEnv) (fs : ObserverFS) : Option ObserverFS :=
  if env.faults.writePrompt then none
  else some { fs with promptFile := some (promptContent env.observationsFile env.instinctsDir) }

/-- The `try` block of `runAnalysis` with its `catch`: write the prompt file, run the
tool, and act on how the call ended. -/
def analysisAttempt (env : TickEnv) (tool : ToolRun) (fs2 : ObserverFS) : TickResult :=
  match writePromptFile env fs2 with
  | none =>
    { returned := some false, toolInvoked := false,
      fs := log fs2 env.now "Analysis error: cannot write the prompt file" }
  | some fs3 =>
    match tool.result with
    | .threw message =>
      { returned := some false, toolInvoked := true,
        fs := log fs3 env.now ("Analysis error: " ++ message) }
    | .completed status stdout stderr =>
      let fs4 := { fs3 with instincts := tool.instinctsAfter }
      if status = some 0 then analysisSucceeded env stdout fs4
      else
        { returned := some false, toolInvoked := true,
          fs := log fs4 env.now ("Analysis failed (exit "
            ++ (match status with | some n => toString n | none => "null") ++ "): "
            ++ String.mk (stderr.data.take 300)) }

def runAnalysis (env : TickEnv) (tool : ToolRun) (fs : ObserverFS) : TickResult :=
  let count := getObservationCount fs
  if count < MIN_OBSERVATIONS then
    { returned := some false, toolInvoked := false,
      fs := log fs env.now ("Not enough observations (" ++ toString count ++ "/"
        ++ toString MIN_OBSERVATIONS ++ "), skipping analysis") }
  else
    let fs1 := log fs env.now ("Analyzing " ++ toString count ++ " observations...")
    if fs1.instincts.isNone && env.faults.instinctsMkdir then
      { returned := none, toolInvoked := false, fs := fs1 }
    else
      analysisAttempt env tool { fs1 with instincts := some (fs1.instincts.getD []) }

/-! ## Sample values -/

/-- A log of `n` newline-terminated records. -/
def exampleLog (n : Nat) : String := String.mk (List.flatten (List.replicate n "obs\n".data))

/-- A tick environment in which no file-system call throws. -/
def exampleTickEnv : TickEnv :=
  { faults := ObserverFaults.none, now := "2025-01-15T10:00:00.000Z",
    observationsFile := "/home/u/.claude/homunculus/observations.jsonl",
    instinctsDir := "/home/u/.claude/homunculus/instincts/personal",
    summaryFile := "/repo/.claude/instincts.md",
    render := fun files => if files.isEmpty then none else some "# Learned Instincts" }

/-- Files with a log of `n` records and one instinct learned earlier. -/
def exampleObserverFS (n : Nat) : ObserverFS :=
  { observations := some (exampleLog n), promptFile := none,
    instincts := some [("prefer-grep.yaml", "---\nid: prefer-grep\n---\n")],
    archive := none, summary := none, logLines := [] }

/-- A run that exits 0 and creates no instinct file. -/
def exampleToolIdle : ToolRun :=
  { result := SpawnResult.completed (some 0) "No clear patterns found." "",
    instinctsAfter := some [("prefer-grep.yaml", "---\nid: prefer-grep\n---\n")] }

/-- A run killed on timeout: the exit status is `null`. -/
def exampleToolTimeout : ToolRun :=
  { result := SpawnResult.completed none "" "",
    instinctsAfter := some [("prefer-grep.yaml", "---\nid: prefer-grep\n---\n")] }


/-- A run that exits 0 and creates one new instinct file. -/
def exampleToolLearns : ToolRun :=
  { result := SpawnResult.completed (some 0) "Created 1 instinct." "",
    instinctsAfter := some [("prefer-grep.yaml", "---\nid: prefer-grep\n---\n"),
                            ("run-tests.yaml", "---\nid: run-tests\n---\n")] }

end Observer

namespace SessionManager

/-! ## Session files: `scripts/lib/session-manager.js` -/

/-- The regular-expression class `\d` (without the `u` flag): an ASCII digit. -/
def isDigit (c : Char) : Bool := decide (48 ≤ c.toNat) && decide (c.toNat ≤ 57)

/-- The class `[a-z0-9]`. -/
def isIdChar (c : Char) : Bool :=
  (decide (97 ≤ c.toNat) && decide (c.toNat ≤ 122)) || isDigit c

/-- The prefix `^(\d{4}-\d{2}-\d{2})` of `SESSION_FILENAME_REGEX`: the captured date and
the rest of the name. -/
def matchDate : List Char → Option (List Char × List Char)
  | y1 :: y2 :: y3 :: y4 :: s1 :: m1 :: m2 :: s2 :: d1 :: d2 :: rest =>
    if isDigit y1 && isDigit y2 && isDigit y3 && isDigit y4 && s1 == '-'
        && isDigit m1 && isDigit m2 && s2 == '-' && isDigit d1 && isDigit d2 then
      some ([y1, y2, y3, y4, s1, m1, m2, s2, d1, d2], rest)
    else none
  | _ => none

/-- The literal tail `-session\.tmp$` of the pattern. -/
def sessionSuffix : List Char := "-session.tmp".data

/-- The record `parseSessionFilename` returns.  Its `datetime` member is `new Date(date)`,
a function of `date`, and is not carried. -/
structure ParsedFilename where
  filename : String
  shortId : String
  date : String
deriving DecidableEq, Repr

/-- The match of `SESSION_FILENAME_REGEX`, with `match[2] || 'no-id'`.  After the date the
optional group `(?:-([a-z0-9]{8,}))?` is tried first; since the character that must follow
the id is `-`, outside the class, only the maximal run of class characters can be the id.
When the group cannot take part, the name must end right after the date. -/
def parseSessionFilename (filename : String) : Option ParsedFilename :=
  match matchDate filename.data with
  | none => none
  | some (date, rest) =>
    match rest with
    | '-' :: tail =>
      if decide (8 ≤ (tail.takeWhile isIdChar).length)
          && decide (tail.dropWhile isIdChar = sessionSuffix) then
        some { filename := filename, shortId := String.mk (tail.takeWhile isIdChar),
               date := String.mk date }
      else if rest = sessionSuffix then
        some { filename := filename, shortId := "no-id", date := String.mk date }
      else none
    | _ => none

/-- A date string of the form `DDDD-DD-DD`, every `D` a digit. -/
def isDateString (d : String) : Bool :=
  match d.data with
  | [y1, y2, y3, y4, s1, m1, m2, s2, d1, d2] =>
    isDigit y1 && isDigit y2 && isDigit y3 && isDigit y4 && s1 == '-'
      && isDigit m1 && isDigit m2 && s2 == '-' && isDigit d1 && isDigit d2
  | _ => false

/-- A short id: 8 or more characters, each from `[a-z0-9]`. -/
def isShortId (s : String) : Bool := decide (8 ≤ s.data.length) && s.data.all isIdChar

/-- One entry of `fs.readdirSync(sessionsDir, { withFileTypes: true })` together with what
`fs.statSync` reports for it; times are in milliseconds. -/
structure DirEntry where
  name : String
  isFile : Bool
  size : Nat
  mtime : Int
  birthtime : Int
deriving DecidableEq, Repr

/-- The test `name.endsWith('.tmp')`. -/
def endsWithTmp (name : String) : Bool := ".tmp".data.isSuffixOf name.data

/-- The method `String.prototype.includes`. -/
def includes (s sub : String) : Bool := s.data.tails.any (fun t => sub.data.isPrefixOf t)

/-- The method `String.prototype.startsWith`. -/
def startsWith (s pre : String) : Bool := pre.data.isPrefixOf s.data

/-- The truthiness of an optional string option (`date`, `search`): `null` and the empty
string are falsy. -/
def truthy : Option String → Option String
  | some v => if v = "" then none else some v
  | none => none

/-- One element of the `sessions` array of `getAllSessions`. -/
structure SessionInfo where
  filename : String
  shortId : String
  date : String
  sessionPath : String
  hasContent : Bool
  size : Nat
  modifiedTime : Int
  createdTime : Int
deriving DecidableEq, Repr

/-- The body of the loop of `getAllSessions` for one entry: `none` where the source
`continue`s, the pushed element otherwise. -/
def sessionOfEntry (sessionsDir : String) (date search : Option String) (entry : DirEntry) :
    Option SessionInfo :=
  if !entry.isFile || !endsWithTmp entry.name then none
  else
    match parseSessionFilename entry.name with
    | none => none
    | some metadata =>
      if (match truthy date with | some d => decide (metadata.date ≠ d) | none => false) then none
      else if (match truthy search with
               | some q => !includes metadata.shortId q
               | none => false) then none
      else
        some { filename := metadata.filename, shortId := metadata.shortId,
               date := metadata.date, sessionPath := sessionsDir ++ "/" ++ entry.name,
               hasContent := decide (0 < entry.size), size := entry.size,
               modifiedTime := entry.mtime, createdTime := entry.birthtime }

/-- The comparator `(a, b) => b.modifiedTime - a.modifiedTime` is not positive: `a` may
stay before `b`. -/
def newerFirst (a b : SessionInfo) : Prop := b.modifiedTime ≤ a.modifiedTime

instance : DecidableRel newerFirst := fun a b => by unfold newerFirst; infer_instance

/-- The result of `getAllSessions`. -/
structure SessionPage where
  sessions : List SessionInfo
  total : Nat
  offset : Nat
  limit : Nat
  hasMore : Bool
deriving DecidableEq, Repr

/-- The directory is `none` when it does not exist.  `Array.prototype.sort` is stable, as
insertion sort is; `slice(offset, offset + limit)` drops `offset` elements and keeps
`limit`. -/
def getAllSessions (sessionsDir : String) (dir : Option (List DirEntry)) (limit offset : Nat)
    (date search : Option String) : SessionPage :=
  match dir with
  | none => { sessions := [], total := 0, offset := offset, limit := limit, hasMore := false }
  | some entries =>
    let sessions := (entries.filterMap (sessionOfEntry sessionsDir date search)).insertionSort
      newerFirst
    { sessions := (sessions.drop offset).take limit, total := sessions.length,
      offset := offset, limit := limit, hasMore := decide (offset + limit < sessions.length) }

/-- The record `getSessionById` returns when called without `includeContent`. -/
structure SessionDetail where
  filename : String
  shortId : String
  date : String
  sessionPath : String
  size : Nat
  modifiedTime : Int
  createdTime : Int
deriving DecidableEq, Repr

/-- The loop of `getSessionById` over the directory entries. -/
def getSessionByIdLoop (sessionsDir sessionId : String) : List DirEntry → Option SessionDetail
  | [] => none
  | entry :: rest =>
    if !entry.isFile || !endsWithTmp entry.name then getSessionByIdLoop sessionsDir sessionId rest
    else
      match parseSessionFilename entry.name with
      | none => getSessionByIdLoop sessionsDir sessionId rest
      | some metadata =>
        let shortIdMatch := decide (metadata.shortId ≠ "no-id")
          && startsWith metadata.shortId sessionId
        let filenameMatch := decide (entry.name = sessionId)
          || decide (entry.name = sessionId ++ ".tmp")
        let noIdMatch := decide (metadata.shortId = "no-id")
          && decide (entry.name = sessionId ++ "-session.tmp")
        if !shortIdMatch && !filenameMatch && !noIdMatch then
          getSessionByIdLoop sessionsDir sessionId rest
        else
          some { filename := metadata.filename, shortId := metadata.shortId,
                 date := metadata.date, sessionPath := sessionsDir ++ "/" ++ entry.name,
                 size := entry.size, modifiedTime := entry.mtime,
                 createdTime := entry.birthtime }

def getSessionById (sessionsDir : String) (dir : Option (List DirEntry)) (sessionId : String) :
    Option SessionDetail :=
  match dir with
  | none => none
  | some entries => getSessionByIdLoop sessionsDir sessionId entries

/-- A file whose name parses as a session filename and passes the date and short-id
filters of a listing. -/
def passesFilters (date search : Option String) (entry : DirEntry) : Bool :=
  entry.isFile &&
    (match parseSessionFilename entry.name with
     | none => false
     | some m =>
       (match truthy date with | some d => decide (m.date = d) | none => true)
         && (match truthy search with | some q => includes m.shortId q | none => true))

/-- The three ways an entry is selected by an id: its short id, other than `no-id`, starts
with the id; its filename is the id, or the id with `.tmp`; it has no id and its filename
is the id with `-session.tmp`. -/
def matchesId (sessionId : String) (entry : DirEntry) : Bool :=
  entry.isFile &&
    (match parseSessionFilename entry.name with
     | none => false
     | some m =>
       (decide (m.shortId ≠ "no-id") && startsWith m.shortId sessionId)
         || decide (entry.name = sessionId) || decide (entry.name = sessionId ++ ".tmp")
         || (decide (m.shortId = "no-id") && decide (entry.name = sessionId ++ "-session.tmp")))

/-- The record built for a selected entry: the parts of its parsed name with its path and
what `fs.statSync` reports. -/
def detailOfEntry (sessionsDir : String) (entry : DirEntry) : Option SessionDetail :=
  (parseSessionFilename entry.name).map (fun m =>
    { filename := m.filename, shortId := m.shortId, date := m.date,
      sessionPath := sessionsDir ++ "/" ++ entry.name, size := entry.size,
      modifiedTime := entry.mtime, createdTime := entry.birthtime })

/-! ## Sample values -/

/-- A sessions directory: three session files, a stray file and a sub-directory. -/
def exampleDir : List DirEntry :=
  [ { name := "2025-01-15-ab12cd34-session.tmp", isFile := true, size := 120, mtime := 3000,
      birthtime := 1000 },
    { name := "notes.txt", isFile := true, size := 10, mtime := 9000, birthtime := 1000 },
    { name := "2025-01-16-session.tmp", isFile := true, size := 0, mtime := 5000,
      birthtime := 4000 },
    { name := "2025-01-14-zz99yy88-session.tmp", isFile := true, size := 80, mtime := 5000,
      birthtime := 2000 },
    { name := "archive", isFile := false, size := 0, mtime := 100, birthtime := 100 } ]

end SessionManager

namespace PackageManager

/-! ## Package-manager selection: `scripts/lib/package-manager.js` -/

/-- One entry of `PACKAGE_MANAGERS`. -/
structure Profile where
  name : String
  lockFile : String
  installCmd : String
  runCmd : String
  execCmd : String
  testCmd : String
  buildCmd : String
  devCmd : String
deriving DecidableEq, Repr

def npmProfile : Profile :=
  { name := "npm", lockFile := "package-lock.json", installCmd := "npm install",
    runCmd := "npm run", execCmd := "npx", testCmd := "npm test",
    buildCmd := "npm run build", devCmd := "npm run dev" }

def pnpmProfile : Profile :=
  { name := "pnpm", lockFile := "pnpm-lock.yaml", installCmd := "pnpm install",
    runCmd := "pnpm", execCmd := "pnpm dlx", testCmd := "pnpm test",
    buildCmd := "pnpm build", devCmd := "pnpm dev" }

def yarnProfile : Profile :=
  { name := "yarn", lockFile := "yarn.lock", installCmd := "yarn", runCmd := "yarn",
    execCmd := "yarn dlx", testCmd := "yarn test", buildCmd := "yarn build",
    devCmd := "yarn dev" }

def bunProfile : Profile :=
  { name := "bun", lockFile := "bun.lockb", installCmd := "bun install",
    runCmd := "bun run", execCmd := "bunx", testCmd := "bun test",
    buildCmd := "bun run build", devCmd := "bun run dev" }

/-- The own properties of the object literal, in order. -/
def PACKAGE_MANAGERS : List (String × Profile) :=
  [("npm", npmProfile), ("pnpm", pnpmProfile), ("yarn", yarnProfile), ("bun", bunProfile)]

def DETECTION_PRIORITY : List String := ["pnpm", "bun", "yarn", "npm"]

/-- What `PACKAGE_MANAGERS[key]` can yield: one of the four profiles, or a member the
object literal inherits from `Object.prototype`, none of whose command fields is defined. -/
inductive TableValue where
  | profile (p : Profile)
  | inherited
deriving DecidableEq, Repr

/-- The property read `PACKAGE_MANAGERS[key]`; `none` is `undefined`, and every value
found is truthy. -/
def tableGet (key : String) : Option TableValue :=
  match SessionAliases.getOwn PACKAGE_MANAGERS key with
  | some p => some (TableValue.profile p)
  | none =>
    if key = "__proto__" ∨ key ∈ SessionAliases.objectPrototypeFunctions then
      some TableValue.inherited
    else none

/-- A JSON file as the resolver reads it: nothing to parse (`readFile` gave `null` or the
empty string), text on which `JSON.parse` throws or whose value is `null`, or a parsed
value seen through its `packageManager` member (`none` when the member is absent or
falsy; only string values are considered). -/
inductive ConfigFile where
  | absent
  | malformed
  | json (packageManager : Option String)
deriving DecidableEq, Repr

/-- The truthy `packageManager` member of a parsed file. -/
def ConfigFile.packageManager : ConfigFile → Option String
  | .json (some v) => if v = "" then none else some v
  | _ => none

/-- What a call of `getPackageManager` reads. -/
structure PmEnv where
  envPm : Option String
  projectConfig : ConfigFile
  packageJson : ConfigFile
  lockFileExists : String → Bool
  globalConfig : ConfigFile
  which : String → Bool
  fallbackOrder : List String

/-- The result `{ name, config, source }`. -/
structure PmResult where
  name : String
  config : TableValue
  source : String
deriving DecidableEq, Repr

def detectFromLockFile (lockFileExists : String → Bool) : Option String :=
  DETECTION_PRIORITY.find? (fun pmName =>
    match SessionAliases.getOwn PACKAGE_MANAGERS pmName with
    | some p => lockFileExists p.lockFile
    | none => false)

/-- The expression `pkg.packageManager.split('@')[0]`. -/
def beforeAt (v : String) : String := String.mk (v.data.takeWhile (fun c => c != '@'))

def detectFromPackageJson (packageJson : ConfigFile) : Option String :=
  match packageJson.packageManager with
  | some v => if (tableGet (beforeAt v)).isSome then some (beforeAt v) else none
  | none => none

/-- The test `/^[a-zA-Z0-9_.-]+$/` of `commandExists`. -/
def validCommandName (cmd : String) : Bool :=
  !cmd.data.isEmpty && cmd.data.all (fun c => SessionAliases.isAliasChar c || c == '.')

/-- The function `commandExists` of the utility library: the name test, then the exit
status of `which` (or `where`). -/
def commandExists (which : String → Bool) (cmd : String) : Bool :=
  validCommandName cmd && which cmd

def getAvailablePackageManagers (which : String → Bool) : List String :=
  (SessionAliases.objectKeys PACKAGE_MANAGERS).filter (commandExists which)

/-- The `config` member for a name known to be a key of the table. -/
def configOf (name : String) : TableValue := (tableGet name).getD TableValue.inherited

/-- The test `v && PACKAGE_MANAGERS[v]` on a name read from a source: the name and the
table value when both are truthy. -/
def namedTool (v : Option String) : Option (String × TableValue) :=
  match v with
  | none => none
  | some n => if n = "" then none else (tableGet n).map (fun c => (n, c))

def getPackageManager (env : PmEnv) : PmResult :=
  match namedTool env.envPm with
  | some (n, c) => { name := n, config := c, source := "environment" }
  | none =>
    match namedTool env.projectConfig.packageManager with
    | some (n, c) => { name := n, config := c, source := "project-config" }
    | none =>
      match detectFromPackageJson env.packageJson with
      | some n => { name := n, config := configOf n, source := "package.json" }
      | none =>
        match detectFromLockFile env.lockFileExists with
        | some n => { name := n, config := configOf n, source := "lock-file" }
        | none =>
          match namedTool env.globalConfig.packageManager with
          | some (n, c) => { name := n, config := c, source := "global-config" }
          | none =>
            match env.fallbackOrder.find?
                (fun pmName => (getAvailablePackageManagers env.which).contains pmName) with
            | some n => { name := n, config := configOf n, source := "fallback" }
            | none => { name := "npm", config := TableValue.profile npmProfile,
                        source := "default" }

/-- Reading a command field of `pm.config`; `none` is `undefined`. -/
def TableValue.field (f : Profile → String) : TableValue → Option String
  | .profile p => some (f p)
  | .inherited => none

/-- A value interpolated into a template string. -/
def interpolate : Option String → String
  | some s => s
  | none => "undefined"

def getRunCommand (env : PmEnv) (script : String) : Option String :=
  let pm := getPackageManager env
  if script = "install" then pm.config.field Profile.installCmd
  else if script = "test" then pm.config.field Profile.testCmd
  else if script = "build" then pm.config.field Profile.buildCmd
  else if script = "dev" then pm.config.field Profile.devCmd
  else some (interpolate (pm.config.field Profile.runCmd) ++ " " ++ script)

def getExecCommand (env : PmEnv) (binary args : String) : String :=
  let pm := getPackageManager env
  interpolate (pm.config.field Profile.execCmd) ++ " " ++ binary
    ++ (if args = "" then "" else " " ++ args)

/-- A known tool: one of the four keys of the table. -/
def isKnownTool (n : String) : Bool := (SessionAliases.getOwn PACKAGE_MANAGERS n).isSome

/-- A name from a source, kept when it is a known tool. -/
def knownTool (v : Option String) : Option String :=
  match v with
  | some n => if isKnownTool n then some n else none
  | none => none

/-- The ordered sources of the specification, each with the known tool it names, if any,
and its tag. -/
def orderedSources (env : PmEnv) : List (Option String × String) :=
  [ (knownTool env.envPm, "environment"),
    (knownTool env.projectConfig.packageManager, "project-config"),
    (knownTool (env.packageJson.packageManager.map beforeAt), "package.json"),
    (detectFromLockFile env.lockFileExists, "lock-file"),
    (knownTool env.globalConfig.packageManager, "global-config"),
    (env.fallbackOrder.find?
        (fun pmName => (getAvailablePackageManagers env.which).contains pmName), "fallback") ]

/-- First match wins: the name and tag of the earliest source that names a known tool,
`npm` with tag `default` when none does. -/
def firstKnownSource (env : PmEnv) : String × String :=
  match (orderedSources env).find? (fun s => s.1.isSome) with
  | some (some n, tag) => (n, tag)
  | _ => ("npm", "default")

/-- A name that is no known tool but that the table inherits from `Object.prototype`. -/
def isInheritedName (n : String) : Bool :=
  !isKnownTool n && (tableGet n).isSome

/-- No name read from the environment or from a JSON source is an inherited name. -/
def noInheritedName (env : PmEnv) : Bool :=
  !(env.envPm.any isInheritedName) && !(env.projectConfig.packageManager.any isInheritedName)
    && !((env.packageJson.packageManager.map beforeAt).any isInheritedName)
    && !(env.globalConfig.packageManager.any isInheritedName)

/-! ## Sample values -/

/-- A project with a pnpm lock file and nothing else configured. -/
def examplePmEnv (envPm : Option String) : PmEnv :=
  { envPm := envPm, projectConfig := ConfigFile.absent, packageJson := ConfigFile.absent,
    lockFileExists := fun f => f == "pnpm-lock.yaml", globalConfig := ConfigFile.absent,
    which := fun c => c == "npm", fallbackOrder := DETECTION_PRIORITY }

end PackageManager

namespace ObserveHook

/-! ## The observation hook: `scripts/hooks/observe.js` -/

/-- A value `JSON.parse` yields.  A number is kept as the text `String` writes for it; the
members of an object are its own properties in enumeration order. -/
inductive Json where
  | null
  | bool (b : Bool)
  | num (text : String)
  | str (s : String)
  | arr (items : List Json)
  | obj (members : List (String × Json))

/-- JavaScript truthiness of a parsed value. -/
def Json.truthy : Json → Bool
  | .null => false
  | .bool b => b
  | .num t => !(t == "0")
  | .str s => !s.data.isEmpty
  | .arr _ => true
  | .obj _ => true

/-- The property read `input[k]` for the names the hook reads, on a value other than
`null`; `none` is `undefined`. -/
def Json.member (input : Json) (k : String) : Option Json :=
  match input with
  | .obj members => SessionAliases.getOwn members k
  | _ => none

/-- The chain `input[k1] || input[k2] || fallback`. -/
def firstTruthy (input : Json) (k1 k2 : String) (fallback : Json) : Json :=
  match input.member k1 with
  | some v => if v.truthy then v else
    match input.member k2 with
    | some w => if w.truthy then w else fallback
    | none => fallback
  | none =>
    match input.member k2 with
    | some w => if w.truthy then w else fallback
    | none => fallback

/-- The UTF-16 code units of a text: the elements of a JavaScript string. -/
def utf16 (cs : List Char) : List Nat :=
  cs.flatMap (fun c =>
    if c.toNat < 65536 then [c.toNat]
    else [55296 + (c.toNat - 65536) / 1024, 56320 + (c.toNat - 65536) % 1024])

/-- One lowercase hexadecimal digit. -/
def hexDigit (n : Nat) : Char :=
  if n < 10 then Char.ofNat (48 + n) else Char.ofNat (87 + n)

/-- The escape `\uXXXX` of a code unit. -/
def unicodeEscape (u : Nat) : List Char :=
  ['\\', 'u', hexDigit (u / 4096 % 16), hexDigit (u / 256 % 16), hexDigit (u / 16 % 16),
   hexDigit (u % 16)]

/-- The body of the string literal `JSON.stringify` writes for a JavaScript string: the
two-character escapes, `\uXXXX` for other control characters and for lone surrogates,
every other code point as it is. -/
def quoteUnits : List Nat → List Char
  | [] => []
  | [u] =>
    if u = 34 then ['\\', '"'] else if u = 92 then ['\\', '\\']
    else if u = 8 then ['\\', 'b'] else if u = 12 then ['\\', 'f']
    else if u = 10 then ['\\', 'n'] else if u = 13 then ['\\', 'r']
    else if u = 9 then ['\\', 't']
    else if u < 32 ∨ (55296 ≤ u ∧ u ≤ 57343) then unicodeEscape u
    else [Char.ofNat u]
  | u :: v :: rest =>
    if 55296 ≤ u ∧ u ≤ 56319 ∧ 56320 ≤ v ∧ v ≤ 57343 then
      Char.ofNat (65536 + (u - 55296) * 1024 + (v - 56320)) :: quoteUnits rest
    else
      (if u = 34 then ['\\', '"'] else if u = 92 then ['\\', '\\']
       else if u = 8 then ['\\', 'b'] else if u = 12 then ['\\', 'f']
       else if u = 10 then ['\\', 'n'] else if u = 13 then ['\\', 'r']
       else if u = 9 then ['\\', 't']
       else if u < 32 ∨ (55296 ≤ u ∧ u ≤ 57343) then unicodeEscape u
       else [Char.ofNat u]) ++ quoteUnits (v :: rest)

/-- The string literal for a JavaScript string. -/
def quote (units : List Nat) : List Char := '"' :: quoteUnits units ++ ['"']

mutual
/-- The effect of `JSON.stringify` on a parsed value, without indentation. -/
def stringify : Json → List Char
  | .null => "null".data
  | .bool b => if b then "true".data else "false".data
  | .num t => if t = "Infinity" ∨ t = "-Infinity" ∨ t = "NaN" then "null".data else t.data
  | .str s => quote (utf16 s.data)
  | .arr items => '[' :: stringifyItems items ++ [']']
  | .obj members => '\x7b' :: stringifyMembers members ++ ['\x7d']
/-- The elements of an array, separated by commas. -/
def stringifyItems : List Json → List Char
  | [] => []
  | [j] => stringify j
  | j :: rest => stringify j ++ ',' :: stringifyItems rest
/-- The members of an object, separated by commas. -/
def stringifyMembers : List (String × Json) → List Char
  | [] => []
  | [(k, j)] => quote (utf16 k.data) ++ ':' :: stringify j
  | (k, j) :: rest => quote (utf16 k.data) ++ ':' :: stringify j ++ ',' :: stringifyMembers rest
end

/-- The conversion `String(val)` for a value that is not an object. -/
def jsString : Json → List Char
  | .null => "null".data
  | .bool b => if b then "true".data else "false".data
  | .num t => t.data
  | .str s => s.data
  | v => stringify v

/-- The test `typeof val === 'object'`. -/
def isObjectType : Json → Bool
  | .null => true
  | .arr _ => true
  | .obj _ => true
  | _ => false

/-- The local function `truncate` with its default `max = 5000`: the result is a
JavaScript string, cut by code units. -/
def truncate (val : Json) : List Nat :=
  let str := utf16 (if isObjectType val then stringify val else jsString val)
  if str.length > 5000 then str.take 5000 else str

def MAX_FILE_SIZE_MB : Nat := 10

/-- The files the hook reads and writes. -/
structure HookFS where
  disabledFlag : Bool
  configDir : Bool
  observations : Option String
  archive : Option (List (String × String))
deriving DecidableEq, Repr

/-- Which of the file-system calls of the hook throw when reached. -/
structure HookFaults where
  configMkdir : Bool
  stat : Bool
  archiveMkdir : Bool
  archiveRename : Bool
  append : Bool
deriving DecidableEq, Repr

/-- No call throws. -/
def HookFaults.none : HookFaults :=
  { configMkdir := false, stat := false, archiveMkdir := false, archiveRename := false,
    append := false }

/-- The process environment of one run of the hook: `process.argv[2]`, the variable
`CLAUDE_SESSION_ID`, the clock readings for the record and for the archive name, the
faults, and how much of a write standard output takes at once: `none` when it takes
every write whole (a file, a terminal, a pipe with room), `some n` when it is a pipe that
takes `n` characters and queues the rest. -/
structure HookEnv where
  hookArg : Option String
  sessionEnv : Option String
  now : String
  archiveNow : String
  faults : HookFaults
  stdoutRoom : Option Nat
deriving DecidableEq, Repr

/-- How a run ends: what was written to standard output, the exit status, and the files. -/
structure HookResult where
  stdout : String
  exitCode : Nat
  fs : HookFS
deriving DecidableEq, Repr

/-- The expression `process.argv[2] || 'unknown'`. -/
def hookType (env : HookEnv) : String :=
  match env.hookArg with
  | some a => if a = "" then "unknown" else a
  | none => "unknown"

/-- The line appended for a parsed payload other than `null`: `JSON.stringify(observation)`
followed by a newline. -/
def observationLine (env : HookEnv) (input : Json) : String :=
  let toolName := firstTruthy input "tool_name" "tool" (Json.str "unknown")
  let toolInput := firstTruthy input "tool_input" "input" (Json.obj [])
  let toolOutput := firstTruthy input "tool_output" "output" (Json.str "")
  let sessionId :=
    match input.member "session_id" with
    | some v => if v.truthy then v else
      Json.str (match env.sessionEnv with
                | some e => if e = "" then "unknown" else e
                | none => "unknown")
    | none =>
      Json.str (match env.sessionEnv with
                | some e => if e = "" then "unknown" else e
                | none => "unknown")
  let event := if hookType env = "pre" then "tool_start" else "tool_complete"
  String.mk (
    '\x7b' :: "\"timestamp\":".data ++ quote (utf16 env.now.data)
      ++ ",\"event\":".data ++ quote (utf16 event.data)
      ++ ",\"tool\":".data ++ stringify toolName
      ++ ",\"session\":".data ++ stringify sessionId
      ++ (if event = "tool_start" then ",\"input\":".data ++ quote (truncate toolInput)
          else ",\"output\":".data ++ quote (truncate toolOutput))
      ++ ['\x7d', '\n'])

/-- The name `observations-<ts>.jsonl`, where `ts` is the clock reading with every `:` and
`.` replaced by `-`. -/
def rotatedName (now : String) : String :=
  "observations-" ++ String.mk (now.data.map (fun c => if c = ':' ∨ c = '.' then '-' else c))
    ++ ".jsonl"

/-- The block "archive if file too large": the live log is renamed into the archive
directory when its size is at least `MAX_FILE_SIZE_MB` megabytes; every exception inside is
ignored. -/
def rotateIfLarge (env : HookEnv) (fs : HookFS) : HookFS :=
  match fs.observations with
  | none => fs
  | some content =>
    if env.faults.stat then fs
    else if content.utf8ByteSize ≥ MAX_FILE_SIZE_MB * (1024 * 1024) then
      if fs.archive.isNone && env.faults.archiveMkdir then fs
      else
        let fs1 := { fs with archive := some (fs.archive.getD []) }
        if env.faults.archiveRename then fs1
        else
          { fs1 with observations := none,
                     archive := some (Observer.putFile (fs.archive.getD [])
                       (rotatedName env.archiveNow) content) }
    else fs

/-- What the reader of standard output receives of `console.log(data)`.  Every path of the
handler ends in `process.exit(0)`, which ends the process without writing what a pipe has
queued, so only the part standard output took at once arrives. -/
def echoed (env : HookEnv) (data : String) : String :=
  match env.stdoutRoom with
  | none => data ++ "\n"
  | some n => String.mk ((data ++ "\n").data.take n)

/-- The handler of the `end` event of standard input.  The payload is echoed first; every
exception after that is caught by the enclosing `try`, and the process exits with status 0
on every path. -/
def observe (jsonParse : String → Option Json) (env : HookEnv) (data : String) (fs : HookFS) :
    HookResult :=
  let out := echoed env data
  if fs.disabledFlag then { stdout := out, exitCode := 0, fs := fs }
  else if !fs.configDir && env.faults.configMkdir then { stdout := out, exitCode := 0, fs := fs }
  else
    let fs1 := { fs with configDir := true }
    if (Observer.trimChars data.data).isEmpty then { stdout := out, exitCode := 0, fs := fs1 }
    else
      match jsonParse data with
      | none => { stdout := out, exitCode := 0, fs := fs1 }
      | some Json.null => { stdout := out, exitCode := 0, fs := fs1 }
      | some input =>
        let fs2 := rotateIfLarge env fs1
        if env.faults.append then { stdout := out, exitCode := 0, fs := fs2 }
        else
          let appended := (fs2.observations.getD "") ++ observationLine env input
          { stdout := out, exitCode := 0, fs := { fs2 with observations := some appended } }

/-! ## Sample values -/

/-- The hook's files with a short live log. -/
def exampleHookFS : HookFS :=
  { disabledFlag := false, configDir := true, observations := some "earlier\n",
    archive := none }

/-- A `pre` run in which no call throws. -/
def exampleHookEnv : HookEnv :=
  { hookArg := some "pre", sessionEnv := some "sess-42", now := "2025-01-15T10:00:00.000Z",
    archiveNow := "2025-01-15T10:00:00.001Z", faults := HookFaults.none,
    stdoutRoom := none }

/-- The same run with standard output a pipe that takes 146176 characters at once. -/
def examplePipeEnv : HookEnv := { exampleHookEnv with stdoutRoom := some 146176 }

/-- A payload of 1048576 letters `x`, which is no JSON. -/
def exampleLongPayload : String := String.mk (List.replicate 1048576 'x')

/-- A parser that knows one payload. -/
def exampleParse (text : String) : Option Json :=
  if text = "\x7b\"tool_name\":\"Read\",\"tool_input\":\x7b\"file\":\"a.txt\"\x7d\x7d" then
    some (Json.obj [("tool_name", Json.str "Read"),
                    ("tool_input", Json.obj [("file", Json.str "a.txt")])])
  else none

end ObserveHook

namespace Observer

/-! ## The summary document of `generateInstinctsMd`

Confidences are JavaScript numbers.  The embedding keeps the number type abstract: what
`parseFloat` reads, the zero test of `||`, the comparison, the constants `0.5` and `0.7` and
the text of a percentage are the fields of `NumOps`.  `decimalOps` below interprets them on
exact decimal values. -/

/-- The numbers of the summary.  `parseFloat` takes `none` for `undefined` and gives `none`
for `NaN`; `le a b` is `a <= b`; `percent x` is the text of `Math.round(x * 100)`;
`thresholdPercent` is the text of `AUTO_THRESHOLD * 100`. -/
structure NumOps (F : Type) where
  parseFloat : Option String → Option F
  isZero : F → Bool
  le : F → F → Bool
  half : F
  threshold : F
  percent : F → String
  thresholdPercent : String

/-- One element of the `instincts` array: the members the summary reads. -/
structure Instinct (F : Type) where
  id : String
  trigger : Option String
  confidence : F
  body : String
deriving DecidableEq, Repr

/-- The effect of `replace(/^["']|["']$/g, '')`: one quote character removed at the start
and one at the end of what is left. -/
def stripQuotes (cs : List Char) : List Char :=
  let isQuote := fun (c : Char) => c == '"' || c == Char.ofNat 39
  let a := match cs with
    | c :: rest => if isQuote c then rest else cs
    | [] => []
  match a.reverse with
  | c :: rest => if isQuote c then rest.reverse else a
  | [] => []

/-- The state of the loop over the lines of an instinct file. -/
structure FrontState where
  meta : List (String × String)
  body : List Char
  inFrontmatter : Bool
  pastFrontmatter : Bool
deriving DecidableEq, Repr

/-- The assignment `meta[key] = val` on the object literal `meta`: the key `__proto__`
runs the inherited setter, which ignores a string. -/
def setMeta (o : List (String × String)) (key val : String) : List (String × String) :=
  if key = "__proto__" then o else SessionAliases.defineOwn o key val

/-- The body of the loop for one line. -/
def frontStep (st : FrontState) (line : List Char) : FrontState :=
  if trimChars line = "---".data then
    if st.inFrontmatter then { st with inFrontmatter := false, pastFrontmatter := true }
    else { st with inFrontmatter := true }
  else
    let st1 :=
      if st.inFrontmatter && line.contains ':' then
        let key := line.takeWhile (fun c => c != ':')
        let rest := (line.dropWhile (fun c => c != ':')).drop 1
        let val := String.mk (stripQuotes (trimChars rest))
        { st with meta := setMeta st.meta (String.mk (trimChars key)) val }
      else st
    if st1.pastFrontmatter then { st1 with body := st1.body ++ line ++ ['\n'] } else st1

/-- The front matter and body of a file, after the loop over `content.split('\n')`. -/
def readFront (content : String) : FrontState :=
  (splitNewline content.data).foldl frontStep
    { meta := [], body := [], inFrontmatter := false, pastFrontmatter := false }

/-- The expression `parseFloat(meta.confidence) || 0.5`. -/
def confidenceOf {F : Type} (ops : NumOps F) (field : Option String) : F :=
  match ops.parseFloat field with
  | some x => if ops.isZero x then ops.half else x
  | none => ops.half

/-- The instinct pushed for a file, `none` when `meta.id` is falsy. -/
def parseInstinct {F : Type} (ops : NumOps F) (content : String) : Option (Instinct F) :=
  let st := readFront content
  match SessionAliases.getOwn st.meta "id" with
  | none => none
  | some id =>
    if id = "" then none
    else
      some { id := id, trigger := SessionAliases.getOwn st.meta "trigger",
             confidence := confidenceOf ops (SessionAliases.getOwn st.meta "confidence"),
             body := String.mk (trimChars st.body) }

/-- The array `instincts` before sorting. -/
def collectInstincts {F : Type} (ops : NumOps F) (files : List (String × String)) :
    List (Instinct F) :=
  files.filterMap (fun f => parseInstinct ops f.2)

/-- The comparator `(a, b) => b.confidence - a.confidence` is not positive: `a` may stay
before `b`. -/
def moreConfident {F : Type} (ops : NumOps F) (a b : Instinct F) : Prop :=
  ops.le b.confidence a.confidence = true

instance {F : Type} (ops : NumOps F) : DecidableRel (moreConfident ops) :=
  fun a b => by unfold moreConfident; infer_instance

/-- The array `instincts` after `sort`, which is stable. -/
def sortedInstincts {F : Type} (ops : NumOps F) (files : List (String × String)) :
    List (Instinct F) :=
  (collectInstincts ops files).insertionSort (moreConfident ops)

/-- The array `high`: `confidence >= AUTO_THRESHOLD`. -/
def applyThese {F : Type} (ops : NumOps F) (files : List (String × String)) :
    List (Instinct F) :=
  (sortedInstincts ops files).filter (fun i => ops.le ops.threshold i.confidence)

/-- The array `low`: `confidence < AUTO_THRESHOLD`. -/
def considerThese {F : Type} (ops : NumOps F) (files : List (String × String)) :
    List (Instinct F) :=
  (sortedInstincts ops files).filter (fun i => !ops.le ops.threshold i.confidence)

/-- The lazy group `([\s\S]*?)` in front of `(?:\n## |\n$|$)`: the text up to the first
position where a line starting with `## ` begins, or a last newline, or the end. -/
def captureAction : List Char → List Char
  | [] => []
  | c :: rest =>
    if "\n## ".data.isPrefixOf (c :: rest) || (c == '\n' && rest.isEmpty) then []
    else c :: captureAction rest

/-- The part `\s*\n` after the heading: the greedy white space gives back characters until
a newline follows, so the capture starts after the last newline of the white space run;
without a newline in the run there is no match here. -/
def afterHeading (rest : List Char) : Option (List Char) :=
  let run := rest.takeWhile isJsWhiteSpace
  let upto := (run.reverse.dropWhile (fun c => c != '\n')).length
  if upto = 0 then none else some (rest.drop upto)

/-- The first match of `/## Action\s*\n([\s\S]*?)(?:\n## |\n$|$)/` in a body: its
capture, trimmed. -/
def actionOf : List Char → Option (List Char)
  | [] => none
  | c :: rest =>
    if "## Action".data.isPrefixOf (c :: rest) then
      match afterHeading ((c :: rest).drop 9) with
      | some t => some (trimChars (captureAction t))
      | none => actionOf rest
    else actionOf rest

/-- A string that is `undefined` or empty replaced by a default: `trigger || fallback`. -/
def orDefault (v : Option String) (fallback : String) : String :=
  match v with
  | some s => if s = "" then fallback else s
  | none => fallback

/-- The lines pushed for one instinct of `high`. -/
def applyEntry {F : Type} (ops : NumOps F) (inst : Instinct F) : List String :=
  [ "### " ++ inst.id ++ " (" ++ ops.percent inst.confidence ++ "%)",
    "- **Trigger**: " ++ orDefault inst.trigger "unknown" ]
  ++ (match actionOf inst.body.data with
      | some a => ["- **Action**: " ++ String.mk a]
      | none => [])
  ++ [""]

/-- The line pushed for one instinct of `low`. -/
def considerEntry {F : Type} (ops : NumOps F) (inst : Instinct F) : String :=
  "- **" ++ inst.id ++ "** (" ++ ops.percent inst.confidence ++ "%): "
    ++ orDefault inst.trigger ""

/-- The array `lines` for given `high` and `low`; `count` is `instincts.length`. -/
def summaryLines {F : Type} (ops : NumOps F) (now : String) (count : Nat)
    (high low : List (Instinct F)) : List String :=
  [ "# Learned Instincts", "",
    "> Auto-generated by Continuous Learning v2 on " ++ String.mk (now.data.take 10),
    "> " ++ toString count ++ " instinct(s) from session observations", "" ]
  ++ (if 0 < high.length then
        ["## Apply These (confidence >= " ++ ops.thresholdPercent ++ "%)", ""]
          ++ high.flatMap (applyEntry ops)
      else [])
  ++ (if 0 < low.length then
        ["## Consider These (confidence < " ++ ops.thresholdPercent ++ "%)", ""]
          ++ low.map (considerEntry ops) ++ [""]
      else [])

/-- The text `generateInstinctsMd` writes for the `.yaml` files it read, `none` when no
file yields an instinct: the value of `TickEnv.render` in a tick, with the clock reading
of the tick. -/
def instinctsSummary {F : Type} (ops : NumOps F) (now : String)
    (files : List (String × String)) : Option String :=
  if (collectInstincts ops files).length = 0 then none
  else
    some (String.intercalate "\n"
      (summaryLines ops now (collectInstincts ops files).length (applyThese ops files)
        (considerThese ops files)))

/-! ## Numbers as exact decimals -/

/-- A number read from decimal text, kept exact: `fin num scale` is `num / 10 ^ scale`.
The rounding of a value to the nearest double is not part of this interpretation. -/
inductive Dec where
  | negInf
  | fin (num : Int) (scale : Nat)
  | posInf
deriving DecidableEq, Repr

/-- The comparison `a <= b`. -/
def Dec.le : Dec → Dec → Bool
  | .negInf, _ => true
  | .fin _ _, .negInf => false
  | .fin a j, .fin b k => decide (a * 10 ^ k ≤ b * 10 ^ j)
  | .fin _ _, .posInf => true
  | .posInf, .posInf => true
  | .posInf, _ => false

/-- The value of `sign × digits × 10 ^ exponent`. -/
def Dec.ofParts (negative : Bool) (digits : Nat) (exponent : Int) : Dec :=
  let n : Int := if negative then -(digits : Int) else (digits : Int)
  if 0 ≤ exponent then Dec.fin (n * 10 ^ exponent.toNat) 0 else Dec.fin n (-exponent).toNat

/-- The exponent part `[eE][+-]?digits` at the start of a text, 0 when there is none. -/
def exponentPart (cs : List Char) : Int :=
  match cs with
  | e :: rest =>
    if e == 'e' || e == 'E' then
      match rest with
      | '-' :: ds => -((SessionAliases.digitsValue (ds.takeWhile SessionAliases.isDigitChar) : Nat) : Int)
      | '+' :: ds => ((SessionAliases.digitsValue (ds.takeWhile SessionAliases.isDigitChar) : Nat) : Int)
      | ds => ((SessionAliases.digitsValue (ds.takeWhile SessionAliases.isDigitChar) : Nat) : Int)
    else 0
  | [] => 0

/-- The longest prefix that is an unsigned `StrDecimalLiteral`, as a number; `none` when
there is no such prefix. -/
def parseUnsigned (negative : Bool) (cs : List Char) : Option Dec :=
  if "Infinity".data.isPrefixOf cs then some (if negative then Dec.negInf else Dec.posInf)
  else
    let intDigits := cs.takeWhile SessionAliases.isDigitChar
    let r1 := cs.dropWhile SessionAliases.isDigitChar
    let fracDigits := match r1 with
      | '.' :: t => t.takeWhile SessionAliases.isDigitChar
      | _ => []
    let r2 := match r1 with
      | '.' :: t => t.dropWhile SessionAliases.isDigitChar
      | _ => r1
    if (intDigits ++ fracDigits).isEmpty then none
    else
      some (Dec.ofParts negative (SessionAliases.digitsValue (intDigits ++ fracDigits))
        (exponentPart r2 - (fracDigits.length : Int)))

/-- The function `parseFloat` on exact decimals: leading white space is skipped, a sign is
read, then the longest numeric prefix; `undefined` and text without such a prefix give
`NaN`. -/
def parseFloatDec (arg : Option String) : Option Dec :=
  match arg with
  | none => none
  | some s =>
    match s.data.dropWhile isJsWhiteSpace with
    | '-' :: rest => parseUnsigned true rest
    | '+' :: rest => parseUnsigned false rest
    | cs => parseUnsigned false cs

/-- The text of `Math.round(x * 100)` computed on the exact value. -/
def Dec.percent : Dec → String
  | .negInf => "-Infinity"
  | .posInf => "Infinity"
  | .fin n k => toString ((2 * (n * 100) + 10 ^ k) / (2 * 10 ^ k))

/-- The zero test of `||`. -/
def Dec.isZero : Dec → Bool
  | .fin n _ => n == 0
  | _ => false

/-- The number operations on exact decimals, with `0.5`, `0.7` and `70`. -/
def decimalOps : NumOps Dec :=
  { parseFloat := parseFloatDec, isZero := Dec.isZero, le := Dec.le, half := Dec.fin 5 1,
    threshold := Dec.fin 7 1, percent := Dec.percent, thresholdPercent := "70" }

/-! ## Sample instinct files -/

/-- An instinct file with the given front-matter lines. -/
def exampleInstinctFile (id confidence : String) : String :=
  "---\nid: " ++ id ++ "\ntrigger: \"when editing\"\nconfidence: " ++ confidence
    ++ "\n---\n\n# Title\n\n## Action\nUse the tool.\n\n## Evidence\n- seen\n"

/-- Four instinct files and a file without an id. -/
def exampleInstinctFiles : List (String × String) :=
  [ ("a.yaml", exampleInstinctFile "prefer-grep" "0.6"),
    ("b.yaml", exampleInstinctFile "run-tests" "0.9"),
    ("c.yaml", "---\ntrigger: none\n---\nno id here\n"),
    ("d.yaml", exampleInstinctFile "small-commits" "0.7"),
    ("e.yaml", exampleInstinctFile "never-seen" "0") ]

end Observer


namespace SessionAliases

/-! ## Names in any letter case -/

/-- A letter `a` to `z`. -/
def isLowerLetter (c : Char) : Bool := decide (97 ≤ c.toNat) && decide (c.toNat ≤ 122)

/-- A text is the word `w` written in some letter case: position by position it has the
character of `w` or the capital of that character. -/
def inAnyLetterCase : List Char → List Char → Bool
  | [], [] => true
  | c :: cs, d :: ds => (c == d || c == d.toUpper) && inAnyLetterCase cs ds
  | _, _ => false

/-! ## Listing aliases -/

/-- Reading `.updatedAt` on a value other than `null`. -/
def JsVal.updatedAt : JsVal → Option String
  | .record r => r.updatedAt
  | _ => none

/-- One element of the array `listAliases` returns. -/
structure AliasEntry where
  name : String
  sessionPath : Option String
  createdAt : Option String
  updatedAt : Option String
  title : Option String
deriving DecidableEq, Repr

/-- The object the callback of `map` builds from an entry `[name, info]` whose `info` is
not `null`. -/
def entryFields (e : String × JsVal) : AliasEntry :=
  { name := e.1, sessionPath := e.2.sessionPath, createdAt := e.2.createdAt,
    updatedAt := e.2.updatedAt, title := e.2.title }

/-- The callback of `map` on one entry; reading `info.sessionPath` raises a `TypeError`
when `info` is `null`, and `none` is that exception. -/
def entryOf (e : String × JsVal) : Option AliasEntry :=
  if e.2 = JsVal.null then none else some (entryFields e)

/-- The array `Object.entries(data.aliases).map(...)`; `none` when the callback raises. -/
def aliasEntries : List (String × JsVal) → Option (List AliasEntry)
  | [] => some []
  | e :: rest =>
    match entryOf e with
    | none => none
    | some a =>
      match aliasEntries rest with
      | none => none
      | some l => some (a :: l)

/-- The expression `a.updatedAt || a.createdAt`; `none` is `undefined`. -/
def AliasEntry.stamp (a : AliasEntry) : Option String :=
  match a.updatedAt with
  | some s => if s = "" then a.createdAt else some s
  | none => a.createdAt

/-- The time value of `new Date(a.updatedAt || a.createdAt)`, where `dateValue` is the
time value of `new Date(s)` for a string `s`; `none` is `NaN`, the time value of an invalid
date and of `new Date(undefined)`. -/
def AliasEntry.time (dateValue : String → Option Int) (a : AliasEntry) : Option Int :=
  match a.stamp with
  | some s => dateValue s
  | none => none

/-- The comparator `(a, b) => new Date(b...) - new Date(a...)` is not positive: `a` may stay
before `b`.  A difference that is `NaN` counts as zero. -/
def moreRecent (dateValue : String → Option Int) (a b : AliasEntry) : Prop :=
  match a.time dateValue, b.time dateValue with
  | some ta, some tb => tb ≤ ta
  | _, _ => True

instance (dateValue : String → Option Int) : DecidableRel (moreRecent dateValue) :=
  fun a b => by unfold moreRecent; split <;> infer_instance

/-- The filter of `listAliases` for a lowered search string: the lowered name includes it,
or the title is truthy and its lowered form includes it. -/
def searchHit (lower : String → String) (searchLower : String) (a : AliasEntry) : Bool :=
  SessionManager.includes (lower a.name) searchLower
    || (match a.title with
        | some t => !t.data.isEmpty && SessionManager.includes (lower t) searchLower
        | none => false)

/-- The function `listAliases`; `none` when an exception escapes the call.  `dateValue`
is the time value of `new Date(s)` and `lower` is `String.prototype.toLowerCase`.
`Array.prototype.sort` is stable, as insertion sort is; when some date is invalid the
comparator is inconsistent and the order the runtime produces is implementation-defined. -/
def listAliases (fs : AliasFS) (now : String) (dateValue : String → Option Int)
    (lower : String → String) (search : Option String) (limit : Option Int) :
    Option (List AliasEntry) :=
  let data := loadAliases fs now
  match aliasEntries data.aliases with
  | none => none
  | some entries =>
    let sorted := entries.insertionSort (moreRecent dateValue)
    let found :=
      match search with
      | some s => if s = "" then sorted else sorted.filter (searchHit lower (lower s))
      | none => sorted
    match limit with
    | some n => if 0 < n then some (found.take n.toNat) else some found
    | none => some found

/-- Case-insensitive containment as the specification words it: the entry passes when no
search string is given, or when its name or its title contains the search string, letter
case ignored. -/
def passesSearch (lower : String → String) (search : Option String) (a : AliasEntry) : Bool :=
  match search with
  | some s =>
    if s = "" then true
    else SessionManager.includes (lower a.name) (lower s)
      || (match a.title with
          | some t => SessionManager.includes (lower t) (lower s)
          | none => false)
  | none => true

/-- The entry `a` is at least as recent as `b`: both have a valid date and the date of `b`
is not later. -/
def atLeastAsRecent (dateValue : String → Option Int) (a b : AliasEntry) : Prop :=
  ∃ ta tb, a.time dateValue = some ta ∧ b.time dateValue = some tb ∧ tb ≤ ta

/-- The entries of the store, in the order of the store. -/
def storedEntries (fs : AliasFS) : List AliasEntry := (storedAliases fs).map entryFields

/-- The entries of the store that pass the search filter, in the order of the store. -/
def passingEntries (fs : AliasFS) (lower : String → String) (search : Option String) :
    List AliasEntry :=
  (storedEntries fs).filter (passesSearch lower search)

/-- The time values of the sample timestamps, in milliseconds since the epoch. -/
def exampleDateValue (s : String) : Option Int :=
  if s = "2025-01-13T09:00:00.000Z" then some 1736758800000
  else if s = "2025-01-14T09:00:00.000Z" then some 1736845200000
  else if s = "2025-01-15T09:00:00.000Z" then some 1736931600000
  else none

/-- A sample store with three aliases written in the order oldest, newest, middle; the
last has no `updatedAt`. -/
def exampleListStore : AliasFS :=
  { primary := some (FileContent.json
      { version := some "1.0",
        aliases :=
          [("alpha", StoredVal.record
              { sessionPath := some "/sessions/a.tmp",
                createdAt := some "2025-01-13T09:00:00.000Z",
                updatedAt := some "2025-01-13T09:00:00.000Z", title := some "Sprint One" }),
           ("beta", StoredVal.record
              { sessionPath := some "/sessions/b.tmp",
                createdAt := some "2025-01-13T09:00:00.000Z",
                updatedAt := some "2025-01-15T09:00:00.000Z", title := none }),
           ("sprint-two", StoredVal.record
              { sessionPath := some "/sessions/c.tmp",
                createdAt := some "2025-01-14T09:00:00.000Z",
                updatedAt := none, title := some "Review" })],
        metadata := some { totalCount := 3, lastUpdated := "2025-01-15T09:00:00.000Z" } }),
    tmp := none, bak := none }

/-- A sample store with an old alias, an alias without any date, and a new alias, written
in that order. -/
def exampleUndatedStore : AliasFS :=
  { primary := some (FileContent.json
      { version := some "1.0",
        aliases :=
          [("old", StoredVal.record
              { sessionPath := some "/sessions/a.tmp",
                createdAt := some "2025-01-13T09:00:00.000Z",
                updatedAt := some "2025-01-13T09:00:00.000Z", title := none }),
           ("undated", StoredVal.record
              { sessionPath := some "/sessions/b.tmp", createdAt := none,
                updatedAt := none, title := none }),
           ("new", StoredVal.record
              { sessionPath := some "/sessions/c.tmp",
                createdAt := some "2025-01-15T09:00:00.000Z",
                updatedAt := some "2025-01-15T09:00:00.000Z", title := none })],
        metadata := some { totalCount := 3, lastUpdated := "2025-01-15T09:00:00.000Z" } }),
    tmp := none, bak := none }

end SessionAliases

namespace ObserveHook

/-! ## Stored values and well-formed numbers -/

/-- The text of a value before it is cut, as the specification words it: the JSON
serialisation of an object (or array), the string form of any other value. -/
def fieldText : Json → List Char
  | .arr items => stringify (.arr items)
  | .obj members => stringify (.obj members)
  | v => jsString v

/-- A number text made of the characters `String` writes for a finite number. -/
def isNumberText (t : String) : Bool :=
  t.data.all (fun c => SessionAliases.isDigitChar c || c == '-' || c == '+' || c == '.'
    || c == 'e')

mutual
/-- Every number inside the value is kept as such a text. -/
def Json.numbersWritten : Json → Bool
  | .num t => isNumberText t
  | .arr items => numbersWrittenItems items
  | .obj members => numbersWrittenMembers members
  | _ => true
/-- The same for the elements of an array. -/
def numbersWrittenItems : List Json → Bool
  | [] => true
  | j :: rest => j.numbersWritten && numbersWrittenItems rest
/-- The same for the members of an object. -/
def numbersWrittenMembers : List (String × Json) → Bool
  | [] => true
  | (_, j) :: rest => j.numbersWritten && numbersWrittenMembers rest
end

/-- The payload the sample reader knows. -/
def examplePayload : String :=
  "\x7b\"tool_name\":\"Read\",\"tool_input\":\x7b\"file\":\"a.txt\"\x7d\x7d"

/-- The value the sample reader yields for the sample payload. -/
def exampleInput : Json :=
  Json.obj [("tool_name", Json.str "Read"), ("tool_input", Json.obj [("file", Json.str "a.txt")])]

/-- The hook's files with a live log of 10485761 bytes, one more than 10 MB. -/
def exampleLargeFS : HookFS :=
  { disabledFlag := false, configDir := true,
    observations := some (String.mk (List.replicate 10485761 'a')), archive := none }

end ObserveHook

namespace SessionManager

/-! ## Regular expressions of `parseSessionMetadata`

The patterns of the function are kept as syntax trees and run by a backtracking matcher
that lists, for a pattern and a position, the ways the pattern can match there in the
order in which the runtime tries them.  The first element is the match the runtime
reports. -/

/-- The syntax of the patterns used: a character of a class, a literal text, sequence,
alternative `a|b`, greedy `r*`, lazy `r*?`, a capture group, a lookahead `(?=r)`, and the
anchor `$` without and with the `m` flag. -/
inductive Re where
  | chr (p : Char → Bool)
  | lit (text : List Char)
  | seq (a b : Re)
  | alt (a b : Re)
  | star (r : Re)
  | lazyStar (r : Re)
  | group (r : Re)
  | look (r : Re)
  | eoi
  | eol

/-- A state of the matcher: the text of the capture group, if it has taken part, and the
text not yet consumed. -/
structure MState where
  cap : Option (List Char)
  rest : List Char
deriving DecidableEq, Repr

/-- The line terminators, which `.` does not match and before which `$` matches under the
`m` flag. -/
def isLineTerminator (c : Char) : Bool :=
  c.toNat == 10 || c.toNat == 13 || c.toNat == 8232 || c.toNat == 8233

/-- The iterations of a greedy `*`: one more iteration first, then none.  An iteration
that consumes nothing is not taken, so as many units of fuel as there are characters
left are enough. -/
def starLoop (step : MState → List MState) : Nat → MState → List MState
  | 0, st => [st]
  | fuel + 1, st =>
    ((step st).filter (fun st2 => decide (st2.rest.length < st.rest.length))).flatMap
        (starLoop step fuel) ++ [st]

/-- The iterations of a lazy `*?`: none first, then one more. -/
def lazyLoop (step : MState → List MState) : Nat → MState → List MState
  | 0, st => [st]
  | fuel + 1, st =>
    st :: ((step st).filter (fun st2 => decide (st2.rest.length < st.rest.length))).flatMap
        (lazyLoop step fuel)

/-- The ways a pattern matches at a state, in the order of backtracking. -/
def Re.ends : Re → MState → List MState
  | .chr p, st =>
    match st.rest with
    | c :: cs => if p c then [{ st with rest := cs }] else []
    | [] => []
  | .lit text, st =>
    if text.isPrefixOf st.rest then [{ st with rest := st.rest.drop text.length }] else []
  | .seq a b, st => (a.ends st).flatMap b.ends
  | .alt a b, st => a.ends st ++ b.ends st
  | .star r, st => starLoop r.ends st.rest.length st
  | .lazyStar r, st => lazyLoop r.ends st.rest.length st
  | .group r, st =>
    (r.ends st).map (fun st2 =>
      { cap := some (st.rest.take (st.rest.length - st2.rest.length)), rest := st2.rest })
  | .look r, st => if (r.ends st).isEmpty then [] else [st]
  | .eoi, st => if st.rest.isEmpty then [st] else []
  | .eol, st =>
    match st.rest with
    | [] => [st]
    | c :: _ => if isLineTerminator c then [st] else []

/-- The pattern `r+`. -/
def Re.plus (r : Re) : Re := .seq r (.star r)

/-- The match of a pattern at the start of a text. -/
def Re.matchHere (r : Re) (s : List Char) : Option MState :=
  (r.ends { cap := none, rest := s }).head?

/-- A successful `exec`: the text before the match, the capture, and the text after the
match. -/
structure Found where
  before : List Char
  cap : Option (List Char)
  after : List Char
deriving DecidableEq, Repr

/-- The search of `String.prototype.match` for a pattern without the `g` flag: the match at
the leftmost position that has one. -/
def Re.search (r : Re) : List Char → Option Found
  | [] => (r.matchHere []).map (fun m => { before := [], cap := m.cap, after := m.rest })
  | c :: cs =>
    match r.matchHere (c :: cs) with
    | some m => some { before := [], cap := m.cap, after := m.rest }
    | none => (r.search cs).map (fun f => { f with before := c :: f.before })

/-- The search for a pattern that starts with `^` under the `m` flag: only the start of
the text and the positions after a line terminator are tried. -/
def Re.searchLineStart (r : Re) : Bool → List Char → Option Found
  | atStart, [] =>
    if atStart then
      (r.matchHere []).map (fun m => { before := [], cap := m.cap, after := m.rest })
    else none
  | atStart, c :: cs =>
    match (if atStart then r.matchHere (c :: cs) else none) with
    | some m => some { before := [], cap := m.cap, after := m.rest }
    | none =>
      (r.searchLineStart (isLineTerminator c) cs).map (fun f => { f with before := c :: f.before })

/-- The texts `String.prototype.match` returns for a pattern with the `g` flag: the
matches from left to right, each search starting where the previous match ended (one
character further after an empty match). -/
def Re.matchAll (r : Re) : Nat → List Char → List (List Char)
  | 0, _ => []
  | fuel + 1, s =>
    match r.search s with
    | none => []
    | some f =>
      let whole := (s.drop f.before.length).take (s.length - f.before.length - f.after.length)
      whole :: (if whole.isEmpty then
                  match f.after with
                  | [] => []
                  | _ :: rest => r.matchAll fuel rest
                else r.matchAll fuel f.after)

/-- The effect of `text.replace(pattern, '')` for a pattern without the `g` flag. -/
def Re.removeFirst (r : Re) (s : List Char) : List Char :=
  match r.search s with
  | some f => f.before ++ f.after
  | none => s

/-! ## Session metadata -/

/-- The class `\s`. -/
def reSpace : Re := .chr Observer.isJsWhiteSpace

/-- The class `[\s\S]`. -/
def reAny : Re := .chr (fun _ => true)

/-- The class `.`. -/
def reDot : Re := .chr (fun c => !isLineTerminator c)

/-- The class `\d`. -/
def reDigit : Re := .chr isDigit

/-- The pattern of a section, `<heading>\s*\n([\s\S]*?)(?=###|\n\n|$)`; the function
writes it out for the headings `### Completed`, `### In Progress` and
`### Notes for Next Session`. -/
def sectionPattern (heading : String) : Re :=
  .seq (.lit heading.data) (.seq (.star reSpace) (.seq (.lit ['\n'])
    (.seq (.group (.lazyStar reAny))
      (.look (.alt (.lit "###".data) (.alt (.lit "\n\n".data) .eoi))))))

/-- The pattern of a checkbox item, `- \[x\]\s*(.+)` or `- \[ \]\s*(.+)`. -/
def itemPattern (mark : Char) : Re :=
  .seq (.lit ['-', ' ', '[', mark, ']']) (.seq (.star reSpace) (.group reDot.plus))

/-- The pattern removed from an item, `- \[x\]\s*` or `- \[ \]\s*`. -/
def itemPrefixPattern (mark : Char) : Re :=
  .seq (.lit ['-', ' ', '[', mark, ']']) (.star reSpace)

/-- The pattern `#\s+(.+)$` that follows `^` in the title pattern. -/
def titlePattern : Re :=
  .seq (.lit ['#']) (.seq reSpace.plus (.seq (.group reDot.plus) .eol))

/-- The pattern `\*\*Date:\*\*\s*(\d{4}-\d{2}-\d{2})`. -/
def datePattern : Re :=
  .seq (.lit "**Date:**".data) (.seq (.star reSpace) (.group
    (.seq reDigit (.seq reDigit (.seq reDigit (.seq reDigit (.seq (.lit ['-'])
      (.seq reDigit (.seq reDigit (.seq (.lit ['-']) (.seq reDigit reDigit)))))))))))

/-- The patterns `\*\*Started:\*\*\s*([\d:]+)` and `\*\*Last Updated:\*\*\s*([\d:]+)`. -/
def clockPattern (label : String) : Re :=
  .seq (.lit label.data) (.seq (.star reSpace)
    (.group (Re.plus (.chr (fun c => isDigit c || c == ':')))))

/-- The pattern of the context block: the heading `### Context to Load`, then `\s*\n`,
an opening fence line, the lazily captured text and a closing fence. -/
def contextPattern : Re :=
  .seq (.lit "### Context to Load".data) (.seq (.star reSpace) (.seq (.lit ['\n'])
    (.seq (.lit ['\x60', '\x60', '\x60', '\n']) (.seq (.group (.lazyStar reAny))
      (.lit ['\x60', '\x60', '\x60'])))))

/-- The items of a section text: the matches of the item pattern, each with the item
prefix removed and trimmed. -/
def checkboxItems (mark : Char) (text : List Char) : List String :=
  ((itemPattern mark).matchAll (text.length + 1) text).map (fun item =>
    String.mk (Observer.trimChars ((itemPrefixPattern mark).removeFirst item)))

/-- The record `parseSessionMetadata` returns; `none` is `null`. -/
structure SessionMetadata where
  title : Option String
  date : Option String
  started : Option String
  lastUpdated : Option String
  completed : List String
  inProgress : List String
  notes : String
  context : String
deriving DecidableEq, Repr

/-- The record the function starts from. -/
def emptyMetadata : SessionMetadata :=
  { title := none, date := none, started := none, lastUpdated := none,
    completed := [], inProgress := [], notes := "", context := "" }

/-- The capture of a successful search. -/
def captured (f : Option Found) : Option (List Char) :=
  match f with
  | some m => m.cap
  | none => none

/-- The content is `none` when the caller passes `null`. -/
def parseSessionMetadata (content : Option String) : SessionMetadata :=
  match content with
  | none => emptyMetadata
  | some text =>
    if text.data.isEmpty then emptyMetadata
    else
      { title := (captured (titlePattern.searchLineStart true text.data)).map
          (fun t => String.mk (Observer.trimChars t)),
        date := (captured (datePattern.search text.data)).map String.mk,
        started := (captured ((clockPattern "**Started:**").search text.data)).map String.mk,
        lastUpdated :=
          (captured ((clockPattern "**Last Updated:**").search text.data)).map String.mk,
        completed :=
          match captured ((sectionPattern "### Completed").search text.data) with
          | some body => checkboxItems 'x' body
          | none => [],
        inProgress :=
          match captured ((sectionPattern "### In Progress").search text.data) with
          | some body => checkboxItems ' ' body
          | none => [],
        notes :=
          match captured ((sectionPattern "### Notes for Next Session").search text.data) with
          | some body => String.mk (Observer.trimChars body)
          | none => "",
        context :=
          match captured (contextPattern.search text.data) with
          | some body => String.mk (Observer.trimChars body)
          | none => "" }

/-! ## The extent of a section, in words -/

/-- The places a greedy run of class characters can end, longest run first: the text left
after the whole run, then after one character less, down to the text itself. -/
def greedyTails (p : Char → Bool) : List Char → List (List Char)
  | [] => [[]]
  | c :: cs => if p c then greedyTails p cs ++ [c :: cs] else [c :: cs]

/-- The text after the last line feed of the white space a text starts with; `none` when
that white space has no line feed. -/
def afterLastLineFeed : List Char → Option (List Char)
  | [] => none
  | c :: cs =>
    if Observer.isJsWhiteSpace c then
      match afterLastLineFeed cs with
      | some t => some t
      | none => if c = '\n' then some cs else none
    else none

/-- A place where a section ends: a `###`, two line feeds in a row, or the end of the
text. -/
def atBoundary (t : List Char) : Bool :=
  "###".data.isPrefixOf t || "\n\n".data.isPrefixOf t || t.isEmpty

/-- The text up to the first place where a section ends. -/
def sectionBody : List Char → List Char
  | [] => []
  | c :: cs => if atBoundary (c :: cs) then [] else c :: sectionBody cs

/-- The text from the first place where a section ends. -/
def sectionRest : List Char → List Char
  | [] => []
  | c :: cs => if atBoundary (c :: cs) then c :: cs else sectionRest cs

/-- The section that starts at a place in the content: the heading text stands there,
followed by white space with a line feed in it; the section text runs from after the last
line feed of that white space to the first place where a section ends. -/
def sectionAt (heading : List Char) (t : List Char) : Option (List Char) :=
  if heading.isPrefixOf t then (afterLastLineFeed (t.drop heading.length)).map sectionBody
  else none

/-- The section text of a heading: the section at the first place of the content that has
one. -/
def sectionText (heading : String) (content : String) : Option (List Char) :=
  content.data.tails.findSome? (sectionAt heading.data)

/-- The text after a heading line: after the first line feed, when only white space stands
before it. -/
def afterHeadingLine : List Char → Option (List Char)
  | [] => none
  | c :: cs =>
    if c = '\n' then some cs
    else if Observer.isJsWhiteSpace c then afterHeadingLine cs
    else none

/-- The section text as the specification words it: the text after the heading line up to
the first following `###`, blank line, or end of text. -/
def statedSectionText (heading : String) (content : String) : Option (List Char) :=
  content.data.tails.findSome? (fun t =>
    if heading.data.isPrefixOf t then
      (afterHeadingLine (t.drop heading.data.length)).map sectionBody
    else none)

/-- A sample session file. -/
def exampleSession : String :=
  "# Session: parser work\n**Date:** 2025-01-15\n**Started:** 10:00\n**Last Updated:** 11:30\n\n### Completed\n- [x] tokenizer\n- [x] tests\n\n### In Progress\n- [ ] parser\n\n### Notes for Next Session\nstart with errors\n\n### Context to Load\n\x60\x60\x60\nsrc/parser.js\n\x60\x60\x60\n"

end SessionManager
/-! # Properties of the alias store -/

namespace SessionAliases

section
variable {β : Type}

theorem getOwn_eq_none_iff (o : List (String × β)) (k : String) :
    getOwn o k = none ↔ k ∉ objectKeys o := by
  induction o with
  | nil => simp [getOwn, objectKeys]
  | cons e rest ih =>
    obtain ⟨k2, v2⟩ := e
    by_cases h : k2 = k
    · simp [getOwn, objectKeys, h]
    · simp only [getOwn, h, if_false, ih, objectKeys, List.map_cons, List.mem_cons, not_or]
      constructor
      · intro h2; exact ⟨fun h3 => h h3.symm, h2⟩
      · intro h2; exact h2.2

theorem objectKeys_replaceOwn (o : List (String × β)) (k : String) (v : β) :
    objectKeys (replaceOwn o k v) = objectKeys o := by
  induction o with
  | nil => rfl
  | cons e rest ih =>
    obtain ⟨k2, v2⟩ := e
    by_cases h : k2 = k
    · simp [replaceOwn, objectKeys, h]
    · simp only [replaceOwn, h, if_false, objectKeys, List.map_cons] at ih ⊢
      rw [ih]

theorem getOwn_replaceOwn_self (o : List (String × β)) (k : String) (v : β)
    (h : (getOwn o k).isSome = true) : getOwn (replaceOwn o k v) k = some v := by
  induction o with
  | nil => simp [getOwn] at h
  | cons e rest ih =>
    obtain ⟨k2, v2⟩ := e
    by_cases hk : k2 = k
    · simp [replaceOwn, getOwn, hk]
    · simp only [getOwn, hk, if_false] at h
      simp [replaceOwn, getOwn, hk, ih h]

theorem getOwn_insertOwn_self (o : List (String × β)) (k : String) (v : β)
    (h : getOwn o k = none) : getOwn (insertOwn o k v) k = some v := by
  induction o with
  | nil => simp [insertOwn, getOwn]
  | cons e rest ih =>
    obtain ⟨k2, v2⟩ := e
    by_cases hk : k2 = k
    · simp [getOwn, hk] at h
    · simp only [getOwn, hk, if_false] at h
      by_cases hb : ownBefore k k2 = true
      · simp [insertOwn, hb, getOwn]
      · simp [insertOwn, hb, getOwn, hk, ih h]

theorem objectKeys_cons (k : String) (v : β) (o : List (String × β)) :
    objectKeys ((k, v) :: o) = k :: objectKeys o := rfl

theorem mem_objectKeys_insertOwn (o : List (String × β)) (k : String) (v : β) (x : String) :
    x ∈ objectKeys (insertOwn o k v) ↔ x = k ∨ x ∈ objectKeys o := by
  induction o with
  | nil => simp [insertOwn, objectKeys]
  | cons e rest ih =>
    obtain ⟨k2, v2⟩ := e
    by_cases hb : ownBefore k k2 = true
    · simp only [insertOwn, hb, if_true, objectKeys_cons, List.mem_cons]
    · simp only [insertOwn, hb, objectKeys_cons, List.mem_cons, ih]
      simp only [Bool.false_eq_true, if_false, objectKeys_cons, List.mem_cons, ih]
      tauto

theorem insertOwn_eq_append (o : List (String × β)) (k : String) (v : β)
    (h : ∀ a ∈ objectKeys o, ownBefore k a = false) : insertOwn o k v = o ++ [(k, v)] := by
  induction o with
  | nil => rfl
  | cons e rest ih =>
    obtain ⟨k2, v2⟩ := e
    have h1 : ownBefore k k2 = false := h k2 (by simp [objectKeys])
    have h2 : ∀ a ∈ objectKeys rest, ownBefore k a = false := fun a ha =>
      h a (by simp only [objectKeys, List.map_cons, List.mem_cons]; exact Or.inr ha)
    simp [insertOwn, h1, ih h2]

theorem ownBefore_asymm {k k2 : String} (h : ownBefore k k2 = true) : ownBefore k2 k = false := by
  unfold ownBefore at *
  cases hk : arrayIndex? k <;> cases hk2 : arrayIndex? k2 <;> simp_all
  omega

theorem ownBefore_trans_aux {k k2 b : String} (h : ownBefore k k2 = true)
    (h2 : ownBefore b k2 = false) : ownBefore b k = false := by
  unfold ownBefore at *
  cases hk : arrayIndex? k <;> cases hk2 : arrayIndex? k2 <;> cases hb : arrayIndex? b <;> simp_all
  omega

theorem canonicalKeys_insertOwn (o : List (String × β)) (k : String) (v : β)
    (hc : CanonicalKeys (objectKeys o)) (hk : getOwn o k = none) :
    CanonicalKeys (objectKeys (insertOwn o k v)) := by
  induction o with
  | nil => simp [insertOwn, objectKeys, CanonicalKeys]
  | cons e rest ih =>
    obtain ⟨k2, v2⟩ := e
    have hk' := (getOwn_eq_none_iff _ _).1 hk
    simp only [objectKeys, List.map_cons, List.mem_cons, not_or] at hk'
    simp only [CanonicalKeys, objectKeys, List.map_cons, List.pairwise_cons] at hc
    obtain ⟨hhead, htail⟩ := hc
    by_cases hb : ownBefore k k2 = true
    · simp only [insertOwn, hb, if_true, CanonicalKeys, objectKeys, List.map_cons,
        List.pairwise_cons, List.mem_cons]
      refine ⟨?_, hhead, htail⟩
      intro b hbm
      rcases hbm with rfl | hbm
      · exact ⟨hk'.1, ownBefore_asymm hb⟩
      · refine ⟨fun h => hk'.2 (h ▸ hbm), ?_⟩
        exact ownBefore_trans_aux hb (hhead b hbm).2
    · have hrest : getOwn rest k = none := (getOwn_eq_none_iff _ _).2 hk'.2
      have ih' := ih htail hrest
      have hins : insertOwn ((k2, v2) :: rest) k v = (k2, v2) :: insertOwn rest k v := by
        simp [insertOwn, hb]
      rw [hins, objectKeys_cons]
      unfold CanonicalKeys at ih' ⊢
      rw [List.pairwise_cons]
      refine ⟨?_, ih'⟩
      intro b hbm
      have := (mem_objectKeys_insertOwn rest k v b).1 hbm
      rcases this with rfl | hbm
      · exact ⟨fun h => hk'.1 h.symm, by simpa using hb⟩
      · exact hhead b hbm


theorem canonicalKeys_defineOwn (o : List (String × β)) (k : String) (v : β)
    (hc : CanonicalKeys (objectKeys o)) : CanonicalKeys (objectKeys (defineOwn o k v)) := by
  unfold defineOwn
  cases h : getOwn o k with
  | none => simpa using canonicalKeys_insertOwn o k v hc h
  | some w => simpa [objectKeys_replaceOwn] using hc

theorem canonicalKeys_filter (o : List (String × β)) (p : String × β → Bool)
    (hc : CanonicalKeys (objectKeys o)) : CanonicalKeys (objectKeys (o.filter p)) := by
  unfold CanonicalKeys objectKeys at *
  exact List.Pairwise.sublist ((List.filter_sublist o).map Prod.fst) hc

theorem mem_replaceOwn (o : List (String × β)) (k : String) (v : β) (e : String × β)
    (h : e ∈ replaceOwn o k v) : e ∈ o ∨ e.2 = v := by
  induction o with
  | nil => simp [replaceOwn] at h
  | cons e2 rest ih =>
    obtain ⟨k2, v2⟩ := e2
    by_cases hk : k2 = k
    · simp only [replaceOwn, hk, if_true, List.mem_cons] at h
      rcases h with rfl | h
      · exact Or.inr rfl
      · exact Or.inl (List.mem_cons_of_mem _ h)
    · simp only [replaceOwn, hk, if_false, List.mem_cons] at h
      rcases h with rfl | h
      · exact Or.inl (List.mem_cons_self _ _)
      · rcases ih h with h | h
        · exact Or.inl (List.mem_cons_of_mem _ h)
        · exact Or.inr h

theorem mem_insertOwn (o : List (String × β)) (k : String) (v : β) (e : String × β)
    (h : e ∈ insertOwn o k v) : e ∈ o ∨ e.2 = v := by
  induction o with
  | nil =>
    simp only [insertOwn, List.mem_singleton] at h
    exact Or.inr (by rw [h])
  | cons e2 rest ih =>
    obtain ⟨k2, v2⟩ := e2
    by_cases hb : ownBefore k k2 = true
    · simp only [insertOwn, hb, if_true, List.mem_cons] at h
      rcases h with rfl | h
      · exact Or.inr rfl
      · exact Or.inl (by simpa using h)
    · simp only [insertOwn, hb, List.mem_cons] at h
      simp only [Bool.false_eq_true, if_false, List.mem_cons] at h
      rcases h with rfl | h
      · exact Or.inl (List.mem_cons_self _ _)
      · rcases ih h with h | h
        · exact Or.inl (List.mem_cons_of_mem _ h)
        · exact Or.inr h

end

theorem allRecords_defineOwn (o : List (String × JsVal)) (k : String) (r : AliasInfo)
    (h : AllRecords o) : AllRecords (defineOwn o k (JsVal.record r)) := by
  intro e he
  unfold defineOwn at he
  split at he
  · rcases mem_replaceOwn _ _ _ _ he with h1 | h1
    · exact h e h1
    · exact ⟨r, h1⟩
  · rcases mem_insertOwn _ _ _ _ he with h1 | h1
    · exact h e h1
    · exact ⟨r, h1⟩

theorem allRecords_jsSet (o : List (String × JsVal)) (k : String) (r : AliasInfo)
    (h : AllRecords o) : AllRecords (jsSet o k (JsVal.record r)) := by
  intro e he
  unfold jsSet at he
  split at he
  · rcases mem_replaceOwn _ _ _ _ he with h1 | h1
    · exact h e h1
    · exact ⟨r, h1⟩
  · split at he
    · exact h e he
    · rcases mem_insertOwn _ _ _ _ he with h1 | h1
      · exact h e h1
      · exact ⟨r, h1⟩

theorem canonicalKeys_jsSet (o : List (String × JsVal)) (k : String) (v : JsVal)
    (hc : CanonicalKeys (objectKeys o)) : CanonicalKeys (objectKeys (jsSet o k v)) := by
  unfold jsSet
  cases h : getOwn o k with
  | some w => simpa [objectKeys_replaceOwn] using hc
  | none =>
    by_cases hp : k = "__proto__"
    · simpa [hp] using hc
    · simpa [hp] using canonicalKeys_insertOwn o k v hc h

theorem allRecords_filter (o : List (String × JsVal)) (p : String × JsVal → Bool)
    (h : AllRecords o) : AllRecords (o.filter p) :=
  fun e he => h e (List.mem_of_mem_filter he)

theorem noFunction_of_allRecords (o : List (String × JsVal)) (h : AllRecords o) :
    NoFunction o := by
  intro e he hf
  obtain ⟨r, hr⟩ := h e he
  rw [hr] at hf
  exact JsVal.noConfusion hf

theorem noNull_of_allRecords (o : List (String × JsVal)) (h : AllRecords o) : NoNull o := by
  intro e he hf
  obtain ⟨r, hr⟩ := h e he
  rw [hr] at hf
  exact JsVal.noConfusion hf

theorem noFunction_defineOwn (o : List (String × JsVal)) (k : String) (v : JsVal)
    (hv : v ≠ JsVal.func) (h : NoFunction o) : NoFunction (defineOwn o k v) := by
  intro e he
  unfold defineOwn at he
  split at he
  · rcases mem_replaceOwn _ _ _ _ he with h1 | h1
    · exact h e h1
    · rw [h1]; exact hv
  · rcases mem_insertOwn _ _ _ _ he with h1 | h1
    · exact h e h1
    · rw [h1]; exact hv

theorem noFunction_jsSet (o : List (String × JsVal)) (k : String) (v : JsVal)
    (hv : v ≠ JsVal.func) (h : NoFunction o) : NoFunction (jsSet o k v) := by
  intro e he
  unfold jsSet at he
  split at he
  · rcases mem_replaceOwn _ _ _ _ he with h1 | h1
    · exact h e h1
    · rw [h1]; exact hv
  · split at he
    · exact h e he
    · rcases mem_insertOwn _ _ _ _ he with h1 | h1
      · exact h e h1
      · rw [h1]; exact hv

theorem noFunction_filter (o : List (String × JsVal)) (p : String × JsVal → Bool)
    (h : NoFunction o) : NoFunction (o.filter p) :=
  fun e he => h e (List.mem_of_mem_filter he)

theorem toJs_ne_func (v : StoredVal) : v.toJs ≠ JsVal.func := by
  cases v <;> exact fun h => JsVal.noConfusion h

/-- The invariant of the fold in `parseObject`. -/
theorem parseObject_fold_wf (l : List (String × StoredVal)) (acc : List (String × JsVal))
    (hc : CanonicalKeys (objectKeys acc)) (hr : NoFunction acc) :
    CanonicalKeys (objectKeys (l.foldl (fun o e => defineOwn o e.1 e.2.toJs) acc)) ∧
      NoFunction (l.foldl (fun o e => defineOwn o e.1 e.2.toJs) acc) := by
  induction l generalizing acc with
  | nil => exact ⟨hc, hr⟩
  | cons e rest ih =>
    simp only [List.foldl_cons]
    exact ih _ (canonicalKeys_defineOwn acc e.1 _ hc)
      (noFunction_defineOwn acc e.1 _ (toJs_ne_func e.2) hr)

theorem parseObject_wf (l : List (String × StoredVal)) :
    CanonicalKeys (objectKeys (parseObject l)) ∧ NoFunction (parseObject l) :=
  parseObject_fold_wf l [] (by simp [CanonicalKeys, objectKeys]) (by intro e he; simp at he)

theorem objectKeys_embed (l : List (String × StoredVal)) : objectKeys (embed l) = objectKeys l := by
  simp [objectKeys, embed, List.map_map, Function.comp_def]

theorem embed_serialiseObject (o : List (String × JsVal)) (h : NoFunction o) :
    embed (serialiseObject o) = o := by
  induction o with
  | nil => rfl
  | cons e rest ih =>
    obtain ⟨k, v⟩ := e
    have hrest : NoFunction rest := fun x hx => h x (List.mem_cons_of_mem _ hx)
    have hv := h (k, v) (List.mem_cons_self _ _)
    have := ih hrest
    simp only [embed] at this
    cases v with
    | func => exact absurd rfl hv
    | record r =>
      show (k, JsVal.record r) :: List.map (fun e => (e.1, e.2.toJs)) (serialiseObject rest) = _
      rw [this]
    | null =>
      show (k, JsVal.null) :: List.map (fun e => (e.1, e.2.toJs)) (serialiseObject rest) = _
      rw [this]
    | other j t =>
      show (k, JsVal.other j t) :: List.map (fun e => (e.1, e.2.toJs)) (serialiseObject rest) = _
      rw [this]

theorem parseObject_fold_embed (l : List (String × StoredVal)) (acc : List (String × JsVal))
    (hc : CanonicalKeys (objectKeys (acc ++ embed l))) :
    l.foldl (fun o e => defineOwn o e.1 e.2.toJs) acc = acc ++ embed l := by
  induction l generalizing acc with
  | nil => simp [embed]
  | cons e rest ih =>
    have hsplit : acc ++ embed (e :: rest) = (acc ++ [(e.1, e.2.toJs)]) ++ embed rest := by
      simp [embed]
    rw [hsplit] at hc ⊢
    have hacc : CanonicalKeys (objectKeys (acc ++ [(e.1, e.2.toJs)])) := by
      unfold CanonicalKeys objectKeys at hc ⊢
      rw [List.map_append] at hc
      exact (List.pairwise_append.1 hc).1
    have hacc2 := hacc
    unfold CanonicalKeys objectKeys at hacc2
    rw [List.map_append, List.pairwise_append] at hacc2
    obtain ⟨_, _, hcross⟩ := hacc2
    have hnone : getOwn acc e.1 = none := by
      rw [getOwn_eq_none_iff]
      intro hmem
      exact (hcross e.1 hmem e.1 (by simp)).1 rfl
    have hdef : defineOwn acc e.1 e.2.toJs = acc ++ [(e.1, e.2.toJs)] := by
      unfold defineOwn
      rw [hnone]
      simp only [Option.isSome_none, Bool.false_eq_true, if_false]
      apply insertOwn_eq_append
      intro a ha
      exact (hcross a ha e.1 (by simp)).2
    simp only [List.foldl_cons]
    rw [hdef]
    exact ih _ hc

/-- Parsing what was serialised gives back the object, for an object without a function
among its values whose keys are in enumeration order. -/
theorem parseObject_serialiseObject (o : List (String × JsVal))
    (hc : CanonicalKeys (objectKeys o)) (hr : NoFunction o) :
    parseObject (serialiseObject o) = o := by
  have h := parseObject_fold_embed (serialiseObject o) []
    (by rw [List.nil_append, embed_serialiseObject o hr]; exact hc)
  unfold parseObject
  rw [h, List.nil_append, embed_serialiseObject o hr]

theorem saveRecover_ne_saved (faults : Faults) (fs : AliasFS) :
    (saveRecover faults fs).1 ≠ SaveOutcome.saved := by
  simp only [saveRecover]
  split_ifs <;> simp

/-- A save that returns `true` leaves the serialised document, with fresh metadata, at the
primary path. -/
theorem saveAliases_saved (fs : AliasFS) (faults : Faults) (now : String) (d : AliasData)
    (h : (saveAliases fs faults now d).1 = SaveOutcome.saved) :
    (saveAliases fs faults now d).2.primary = some (FileContent.json (serialise
      { d with metadata := some { totalCount := (d.aliases.length : Int), lastUpdated := now } })) := by
  unfold saveAliases at h ⊢
  simp only at h ⊢
  split_ifs at h ⊢ <;> first | rfl | exact absurd h (saveRecover_ne_saved _ _)

theorem saveAliases_of_saveOk (fs : AliasFS) (faults : Faults) (now : String) (d : AliasData)
    (h : faults.saveOk = true) : (saveAliases fs faults now d).1 = SaveOutcome.saved := by
  unfold Faults.saveOk at h
  simp only [Bool.and_eq_true, Bool.not_eq_true'] at h
  obtain ⟨⟨⟨⟨⟨h1, h2⟩, h3⟩, h4⟩, h5⟩, h6⟩ := h
  unfold saveAliases
  simp [h1, h2, h3, h4, h5, h6]

theorem loadAliases_aliases_json (fs : AliasFS) (now : String) (doc : AliasDoc)
    (h : fs.primary = some (FileContent.json doc)) :
    (loadAliases fs now).aliases = parseObject doc.aliases := by
  unfold loadAliases
  rw [h]

theorem loadAliases_aliases_now (fs : AliasFS) (now now2 : String) :
    (loadAliases fs now).aliases = (loadAliases fs now2).aliases := by
  unfold loadAliases
  cases fs.primary with
  | none => rfl
  | some c => cases c <;> rfl

theorem loadAliases_wf (fs : AliasFS) (now : String) :
    CanonicalKeys (objectKeys (loadAliases fs now).aliases) ∧ NoFunction (loadAliases fs now).aliases := by
  unfold loadAliases
  cases fs.primary with
  | none => exact ⟨by simp [getDefaultAliases, CanonicalKeys, objectKeys], by intro e he; simp [getDefaultAliases] at he⟩
  | some c =>
    cases c with
    | other t => exact ⟨by simp [getDefaultAliases, CanonicalKeys, objectKeys], by intro e he; simp [getDefaultAliases] at he⟩
    | json doc => exact parseObject_wf doc.aliases

/-- What a later load sees after a save that returned `true`. -/
theorem loadAliases_after_save (fs : AliasFS) (faults : Faults) (now now2 : String) (d : AliasData)
    (h : (saveAliases fs faults now d).1 = SaveOutcome.saved)
    (hc : CanonicalKeys (objectKeys d.aliases)) (hr : NoFunction d.aliases) :
    (loadAliases (saveAliases fs faults now d).2 now2).aliases = d.aliases := by
  rw [loadAliases_aliases_json _ _ _ (saveAliases_saved fs faults now d h)]
  exact parseObject_serialiseObject d.aliases hc hr

theorem jsGet_jsSet_self (o : List (String × JsVal)) (k : String) (v : JsVal)
    (hk : k ≠ "__proto__") : jsGet (jsSet o k v) k = some v := by
  unfold jsGet jsSet
  cases h : getOwn o k with
  | some w =>
    simp only [Option.isSome_some, if_true]
    rw [getOwn_replaceOwn_self o k v (by simp [h])]
  | none =>
    simp only [Option.isSome_none, Bool.false_eq_true, if_false, hk]
    rw [getOwn_insertOwn_self o k v h]

theorem jsTruthy_jsSet_self (o : List (String × JsVal)) (k : String) (v : JsVal)
    (hk : k ≠ "__proto__") (hv : v.truthy = true) : jsTruthy (jsSet o k v) k = some v := by
  unfold jsTruthy
  rw [jsGet_jsSet_self o k v hk]
  simp [hv]

theorem orNull_orNull (t : Option String) : orNull (orNull t) = orNull t := by
  cases t with
  | none => rfl
  | some s =>
    by_cases h : s = ""
    · simp [orNull, h]
    · simp [orNull, h]

/-- A successful `setAlias` leaves a store whose aliases are the previous ones with the new
record assigned under the name. -/
theorem setAlias_success_store (fs : AliasFS) (env : Env) (now : String)
    (aliasName sessionPath : String) (title : Option String)
    (hok : (setAlias fs env aliasName sessionPath title).1.isSuccess = true) :
    validAliasName aliasName = true ∧ toLowerCase aliasName ∉ reserved ∧
    ∃ info : AliasInfo, info.sessionPath = some sessionPath ∧ info.title = orNull title ∧
      (loadAliases (setAlias fs env aliasName sessionPath title).2 now).aliases
        = jsSet (loadAliases fs env.clock.loaded).aliases aliasName (JsVal.record info) := by
  unfold setAlias at hok ⊢
  by_cases h1 : aliasName.data.isEmpty = true
  · simp [h1, Outcome.isSuccess] at hok
  by_cases h2 : validAliasName aliasName = true
  swap
  · simp [h1, h2, Outcome.isSuccess] at hok
  by_cases h3 : reserved.contains (toLowerCase aliasName) = true
  · simp only [h1, h2, h3, Bool.false_eq_true, if_false, Bool.not_true, if_true,
      Outcome.isSuccess] at hok
  refine ⟨h2, fun hmem => h3 (by simpa using hmem), ?_⟩
  simp only [h1, h2, h3, Bool.false_eq_true, if_false, Bool.not_true] at hok ⊢
  have hwf := loadAliases_wf fs env.clock.loaded
  generalize hs : saveAliases fs env.faults env.clock.saved _ = res at hok ⊢
  obtain ⟨out, fs2⟩ := res
  cases out with
  | failed => simp [Outcome.isSuccess] at hok
  | raised => simp [Outcome.isSuccess] at hok
  | saved =>
    have hsaved := congrArg Prod.fst hs
    simp only at hsaved
    have hload := loadAliases_after_save fs env.faults env.clock.saved now _ hsaved
      (canonicalKeys_jsSet _ _ _ hwf.1)
      (noFunction_jsSet _ _ _ (fun h => JsVal.noConfusion h) hwf.2)
    rw [hs] at hload
    exact ⟨_, rfl, rfl, hload⟩

/-- Claim C1 (amended). For every alias name other than `__proto__`, every session path,
every title and every prior state of the store in which the alias file is absent, gives
the default document, or has a plain object as its `aliases` member, whatever the values
of that object: if `setAlias(name, path, title)` reports success (so the name matches
`[a-zA-Z0-9_-]+` and is not reserved), then `resolveAlias(name)` on the resulting store
returns a record whose `sessionPath` is `path` and whose `title` is `title || null`: the
title when it is a non-empty string, `null` otherwise. -/
theorem setAlias_then_resolveAlias (fs : AliasFS) (env : Env) (now : String)
    (aliasName sessionPath : String) (title : Option String)
    (hproto : aliasName ≠ "__proto__")
    (hok : (setAlias fs env aliasName sessionPath title).1.isSuccess = true) :
    ∃ r, resolveAlias (setAlias fs env aliasName sessionPath title).2 now aliasName = some r
      ∧ r.sessionPath = some sessionPath ∧ r.title = orNull title := by
  obtain ⟨hvalid, _, info, hpath, htitle, hstore⟩ :=
    setAlias_success_store fs env now aliasName sessionPath title hok
  unfold resolveAlias
  simp only [hvalid, Bool.not_true, Bool.false_eq_true, if_false, hstore,
    jsTruthy_jsSet_self _ _ (JsVal.record info) hproto rfl]
  refine ⟨_, rfl, hpath, ?_⟩
  simp only [JsVal.title, htitle, orNull_orNull]

theorem entry_eq_of_key_eq {β : Type} (o : List (String × β)) (hc : CanonicalKeys (objectKeys o))
    (x e : String × β) (hx : x ∈ o) (he : e ∈ o) (hk : x.1 = e.1) : x = e := by
  induction o with
  | nil => simp at hx
  | cons a rest ih =>
    unfold CanonicalKeys objectKeys at hc
    rw [List.map_cons, List.pairwise_cons] at hc
    obtain ⟨hhead, htail⟩ := hc
    rcases List.mem_cons.1 hx with rfl | hx'
    · rcases List.mem_cons.1 he with rfl | he'
      · rfl
      · exact absurd hk (hhead e.1 (List.mem_map_of_mem Prod.fst he')).1
    · rcases List.mem_cons.1 he with rfl | he'
      · exact absurd hk.symm (hhead x.1 (List.mem_map_of_mem Prod.fst hx')).1
      · exact ih htail hx' he'

/-- The loop of `cleanupAliases` run over a list of entries. -/
theorem cleanup_fold (p : Option String → Bool) (l : List (String × JsVal))
    (acc : List (String × Option String)) (o : List (String × JsVal)) :
    l.foldl (cleanupStep p) (acc, o)
      = (acc ++ (l.filter (fun e => !p e.2.sessionPath)).map (fun e => (e.1, e.2.sessionPath)),
         o.filter (fun e => l.all (fun x => p x.2.sessionPath || !decide (e.1 = x.1)))) := by
  induction l generalizing acc o with
  | nil => simp
  | cons x rest ih =>
    rw [List.foldl_cons]
    by_cases hp : p x.2.sessionPath = true
    · have hstep : cleanupStep p (acc, o) x = (acc, o) := by simp [cleanupStep, hp]
      rw [hstep, ih]
      simp [hp]
    · have hp' : p x.2.sessionPath = false := by simpa using hp
      have hstep : cleanupStep p (acc, o) x
          = (acc ++ [(x.1, x.2.sessionPath)], deleteOwn o x.1) := by simp [cleanupStep, hp']
      rw [hstep, ih]
      simp only [deleteOwn, List.filter_filter, hp', Bool.not_false, List.filter_cons_of_pos,
        List.map_cons, List.append_assoc, List.singleton_append, List.all_cons,
        Bool.false_or]
      congr 1
      apply List.filter_congr
      intro e _
      rw [Bool.and_comm]

theorem cleanup_loop (p : Option String → Bool) (o : List (String × JsVal))
    (hc : CanonicalKeys (objectKeys o)) :
    o.foldl (cleanupStep p) ([], o)
      = ((o.filter (fun e => !p e.2.sessionPath)).map (fun e => (e.1, e.2.sessionPath)),
         o.filter (fun e => p e.2.sessionPath)) := by
  rw [cleanup_fold, List.nil_append]
  congr 1
  apply List.filter_congr
  intro e he
  by_cases hp : p e.2.sessionPath = true
  · rw [hp, List.all_eq_true]
    intro x hx
    by_cases hpx : p x.2.sessionPath = true
    · simp [hpx]
    · have hne : e.1 ≠ x.1 := by
        intro hk
        have := entry_eq_of_key_eq o hc e x he hx hk
        rw [this] at hp
        exact hpx hp
      simp [hne]
  · have hp' : p e.2.sessionPath = false := by simpa using hp
    rw [hp']
    apply Bool.eq_false_iff.2
    intro hall
    have := List.all_eq_true.1 hall e he
    simp [hp'] at this

/-- Without a `null` among the values the loop of `cleanupAliases` runs to its end. -/
theorem cleanupLoop_eq_foldl (p : Option String → Bool) (l : List (String × JsVal))
    (acc : List (String × Option String) × List (String × JsVal)) (h : NoNull l) :
    cleanupLoop p l acc = some (l.foldl (cleanupStep p) acc) := by
  induction l generalizing acc with
  | nil => rfl
  | cons e rest ih =>
    have he : e.2 ≠ JsVal.null := h e (List.mem_cons_self _ _)
    simp only [cleanupLoop, if_neg he, List.foldl_cons]
    exact ih _ (fun x hx => h x (List.mem_cons_of_mem _ hx))

/-- With a `null` among the values the loop of `cleanupAliases` raises. -/
theorem cleanupLoop_null (p : Option String → Bool) (l : List (String × JsVal))
    (acc : List (String × Option String) × List (String × JsVal))
    (h : ∃ e ∈ l, e.2 = JsVal.null) : cleanupLoop p l acc = none := by
  induction l generalizing acc with
  | nil => obtain ⟨e, he, _⟩ := h; simp at he
  | cons x rest ih =>
    by_cases hx : x.2 = JsVal.null
    · simp [cleanupLoop, hx]
    · simp only [cleanupLoop, if_neg hx]
      obtain ⟨e, he, hnull⟩ := h
      rcases List.mem_cons.1 he with rfl | he'
      · exact absurd hnull hx
      · exact ih _ ⟨e, he', hnull⟩

theorem noNull_filter (o : List (String × JsVal)) (p : String × JsVal → Bool)
    (h : NoNull o) : NoNull (o.filter p) :=
  fun e he => h e (List.mem_of_mem_filter he)

/-- Witness for C1: a new alias added to the sample store. -/
theorem setAlias_then_resolveAlias_witness :
    (setAlias exampleStore exampleEnv "review" "/sessions/c.tmp" (some "Review")).1.isSuccess = true
    ∧ ∃ r, resolveAlias (setAlias exampleStore exampleEnv "review" "/sessions/c.tmp" (some "Review")).2
        "2025-01-15T11:00:00.000Z" "review" = some r
      ∧ r.sessionPath = some "/sessions/c.tmp" ∧ r.title = orNull (some "Review") :=
  ⟨by decide, setAlias_then_resolveAlias exampleStore exampleEnv _ "review" "/sessions/c.tmp"
    (some "Review") (by decide) (by decide)⟩

/-- Counterexample to C1 as stated. With the empty title `""` a successful `setAlias` is
followed by a `resolveAlias` whose title is `null`, not `""`; and with the name `__proto__`
a successful `setAlias` stores nothing, so `resolveAlias` returns a record without a
`sessionPath`. -/
theorem setAlias_resolveAlias_counterexample :
    ((setAlias exampleFS exampleEnv "work" "/sessions/a.tmp" (some "")).1.isSuccess = true
      ∧ (resolveAlias (setAlias exampleFS exampleEnv "work" "/sessions/a.tmp" (some "")).2
          "2025-01-15T11:00:00.000Z" "work").map (fun r => r.title) = some none)
    ∧ ((setAlias exampleFS exampleEnv "__proto__" "/sessions/a.tmp" (some "Sprint")).1.isSuccess = true
      ∧ (resolveAlias (setAlias exampleFS exampleEnv "__proto__" "/sessions/a.tmp" (some "Sprint")).2
          "2025-01-15T11:00:00.000Z" "__proto__").map (fun r => r.sessionPath) = some none) := by
  decide

/-- Claim C2, evaluated at the failing input. Every name of the sample store matches the
pattern and is not reserved; `renameAlias("work", "list")` succeeds and leaves the reserved
word `list` as a name of the store. -/
theorem renameAlias_admits_reserved_name :
    (∀ k ∈ objectKeys (storedAliases exampleStore), validAliasName k = true ∧ k ∉ reserved)
    ∧ (renameAlias exampleStore exampleEnv "work" "list").1.isSuccess = true
    ∧ objectKeys (storedAliases (renameAlias exampleStore exampleEnv "work" "list").2) = ["gone", "list"]
    ∧ "list" ∈ reserved := by
  decide

/-- Claim C3. For every document and every pre-existing alias file: when the backup copy
has been taken and writing the `.tmp` file, removing the primary file or renaming the
`.tmp` file into place throws, and the recovery's own copy and unlink go through, then
`saveAliases` returns `false`, the primary file has the content it had before the call,
and no `.tmp` file remains. -/
theorem saveAliases_interrupted_restores (fs : AliasFS) (faults : Faults) (now : String)
    (data : AliasData) (content : FileContent)
    (hpre : fs.primary = some content)
    (hdir : faults.ensureDir = false) (hbak : faults.backupCopy = false)
    (hfail : faults.tmpWrite = true ∨ faults.unlinkPrimary = true ∨ faults.renameTmp = true)
    (hrestore : faults.restoreCopy = false) (hunlink : faults.unlinkTmp = false) :
    (saveAliases fs faults now data).1 = SaveOutcome.failed
      ∧ (saveAliases fs faults now data).2.primary = some content
      ∧ (saveAliases fs faults now data).2.tmp = none := by
  unfold saveAliases saveRecover
  simp only [hpre, hdir, hbak, hrestore, hunlink, Option.isSome_some, Bool.false_eq_true,
    if_false, if_true, Bool.and_false, Bool.not_false, Bool.and_true, Bool.true_and]
  by_cases h3 : faults.tmpWrite = true
  · simp only [h3, if_true]
    cases fs.tmp <;> simp
  · by_cases h4 : faults.unlinkPrimary = true
    · simp [h3, h4]
    · have h5 : faults.renameTmp = true := by tauto
      simp [h3, h4, h5]

/-- Witness for C3: the rename of the `.tmp` file fails on the sample store. -/
theorem saveAliases_interrupted_restores_witness :
    exampleStore.primary = some (FileContent.json exampleDoc)
    ∧ (saveAliases exampleStore { Faults.none with renameTmp := true } "2025-01-15T10:00:00.003Z"
        (getDefaultAliases "2025-01-15T10:00:00.000Z")).1 = SaveOutcome.failed
    ∧ (saveAliases exampleStore { Faults.none with renameTmp := true } "2025-01-15T10:00:00.003Z"
        (getDefaultAliases "2025-01-15T10:00:00.000Z")).2.primary = some (FileContent.json exampleDoc)
    ∧ (saveAliases exampleStore { Faults.none with renameTmp := true } "2025-01-15T10:00:00.003Z"
        (getDefaultAliases "2025-01-15T10:00:00.000Z")).2.tmp = none :=
  ⟨rfl, saveAliases_interrupted_restores exampleStore { Faults.none with renameTmp := true } _ _ _
    rfl rfl rfl (Or.inr (Or.inr rfl)) rfl rfl⟩

/-- Claim C4 (amended). For every alias document passed to `saveAliases` whose `aliases`
member is a plain object with no function among its values, whatever
`metadata.totalCount` it carried: after a save that returned `true`, the document at the
primary path has `metadata.totalCount` equal to the number of keys of its `aliases` map.
The keys of an object are distinct and in enumeration order. -/
theorem saveAliases_totalCount (fs : AliasFS) (faults : Faults) (now : String) (d : AliasData)
    (hkeys : CanonicalKeys (objectKeys d.aliases)) (hfun : NoFunction d.aliases)
    (hok : (saveAliases fs faults now d).1 = SaveOutcome.saved) :
    ∃ doc, (saveAliases fs faults now d).2.primary = some (FileContent.json doc)
      ∧ doc.metadata.map (fun m => m.totalCount)
          = some ((objectKeys (parseObject doc.aliases)).length : Int) := by
  refine ⟨_, saveAliases_saved fs faults now d hok, ?_⟩
  simp only [serialise, Option.map_some']
  rw [parseObject_serialiseObject d.aliases hkeys hfun]
  simp [objectKeys]

/-- Witness for C4 (amended): a document carrying `totalCount = 40` with two aliases. -/
theorem saveAliases_totalCount_witness :
    (saveAliases exampleStore Faults.none "2025-01-15T10:00:00.003Z" exampleData).1
        = SaveOutcome.saved
    ∧ ∃ doc, (saveAliases exampleStore Faults.none "2025-01-15T10:00:00.003Z" exampleData).2.primary
          = some (FileContent.json doc)
      ∧ doc.metadata.map (fun m => m.totalCount)
          = some ((objectKeys (parseObject doc.aliases)).length : Int) :=
  ⟨by decide, saveAliases_totalCount exampleStore Faults.none _ exampleData (by decide)
    (by decide) (by decide)⟩

/-- Counterexample to C4 as stated. On the sample store, whose keys are `work` and `gone`,
`renameAlias("constructor", "review")` passes to `saveAliases` a document whose `aliases`
object has the three keys `work`, `gone` and `review`, the last holding the built-in
function inherited under `constructor`.  The save succeeds; `JSON.stringify` leaves the
function out, so the persisted document has `totalCount = 3` and two keys. -/
theorem saveAliases_totalCount_counterexample :
    (renameAlias exampleStore exampleEnv "constructor" "review").1.isSuccess = true
    ∧ ∃ doc, (renameAlias exampleStore exampleEnv "constructor" "review").2.primary
          = some (FileContent.json doc)
      ∧ doc.metadata.map (fun m => m.totalCount) = some 3
      ∧ objectKeys (parseObject doc.aliases) = ["work", "gone"] :=
  ⟨by decide, _, rfl, by decide, by decide⟩

/-- What `cleanupAliases` does on a store without `null` among its alias values when the
save it may attempt goes through. -/
theorem cleanupAliases_effect (fs : AliasFS) (env : Env)
    (sessionExists : Option String → Bool) (hnull : NoNull (storedAliases fs))
    (hsave : env.faults.saveOk = true) :
    storedAliases (cleanupAliases fs env sessionExists).2
        = (storedAliases fs).filter (fun e => sessionExists e.2.sessionPath)
    ∧ (cleanupAliases fs env sessionExists).1.map (fun r => r.removed)
        = some ((storedAliases fs).filter (fun e => !sessionExists e.2.sessionPath)).length
    ∧ (cleanupAliases fs env sessionExists).1.map (fun r => r.totalChecked)
        = some (storedAliases fs).length := by
  have hwf := loadAliases_wf fs env.clock.loaded
  have hst : storedAliases fs = (loadAliases fs env.clock.loaded).aliases :=
    loadAliases_aliases_now fs _ _
  rw [hst] at hnull
  have hlen := List.length_eq_length_filter_add (l := (loadAliases fs env.clock.loaded).aliases)
    (fun e => sessionExists e.2.sessionPath)
  unfold cleanupAliases
  simp only [cleanupLoop_eq_foldl sessionExists _ _ hnull, cleanup_loop sessionExists _ hwf.1,
    List.length_map, objectKeys, hst]
  by_cases hrm : 0 < ((loadAliases fs env.clock.loaded).aliases.filter
      (fun e => !sessionExists e.2.sessionPath)).length
  · simp only [hrm, if_true]
    generalize hs : saveAliases fs env.faults env.clock.saved _ = res
    have hsaved := saveAliases_of_saveOk fs env.faults env.clock.saved
      { loadAliases fs env.clock.loaded with
        aliases := (loadAliases fs env.clock.loaded).aliases.filter
          (fun e => sessionExists e.2.sessionPath) } hsave
    have hload := loadAliases_after_save fs env.faults env.clock.saved "" _ hsaved
      (canonicalKeys_filter _ _ hwf.1) (noFunction_filter _ _ hwf.2)
    rw [hs] at hsaved hload
    obtain ⟨out, fs2⟩ := res
    simp only at hsaved
    subst hsaved
    simp only [storedAliases, Option.map_some']
    exact ⟨hload, trivial, by rw [hlen]⟩
  · simp only [hrm, if_false, Option.map_some']
    refine ⟨?_, trivial, by rw [hlen]⟩
    have hnil : (loadAliases fs env.clock.loaded).aliases.filter
        (fun e => !sessionExists e.2.sessionPath) = [] := by
      apply List.eq_nil_of_length_eq_zero
      omega
    rw [hst]
    symm
    rw [List.filter_eq_self]
    intro a ha
    have := (List.filter_eq_nil_iff.1 hnil) a ha
    simpa using this

/-- Claim C5 (amended). For every store whose `aliases` member is a plain object with no
`null` among its values, and every predicate: after `cleanupAliases(sessionExists)`, with
the file operations of the save succeeding, the store holds exactly the aliases whose
`sessionPath` satisfies the predicate, in their order and with their records unchanged;
`removed` is the number of aliases whose predicate was false and `totalChecked` the number
of aliases before the call. -/
theorem cleanupAliases_removes_exactly (fs : AliasFS) (env : Env)
    (sessionExists : Option String → Bool) (hnull : NoNull (storedAliases fs))
    (hsave : env.faults.saveOk = true) :
    storedAliases (cleanupAliases fs env sessionExists).2
        = (storedAliases fs).filter (fun e => sessionExists e.2.sessionPath)
    ∧ (cleanupAliases fs env sessionExists).1.map (fun r => r.removed)
        = some ((storedAliases fs).filter (fun e => !sessionExists e.2.sessionPath)).length
    ∧ (cleanupAliases fs env sessionExists).1.map (fun r => r.totalChecked)
        = some (storedAliases fs).length :=
  cleanupAliases_effect fs env sessionExists hnull hsave

/-- Witness for C5 (amended): the sample store, where one of two session files is gone. -/
theorem cleanupAliases_removes_exactly_witness :
    NoNull (storedAliases exampleStore)
    ∧ exampleEnv.faults.saveOk = true
    ∧ storedAliases (cleanupAliases exampleStore exampleEnv exampleExists).2
        = (storedAliases exampleStore).filter (fun e => exampleExists e.2.sessionPath)
    ∧ (cleanupAliases exampleStore exampleEnv exampleExists).1.map (fun r => r.removed)
        = some ((storedAliases exampleStore).filter
            (fun e => !exampleExists e.2.sessionPath)).length
    ∧ (cleanupAliases exampleStore exampleEnv exampleExists).1.map (fun r => r.totalChecked)
        = some (storedAliases exampleStore).length :=
  ⟨by decide, by decide,
    cleanupAliases_removes_exactly exampleStore exampleEnv exampleExists (by decide)
      (by decide)⟩

/-- Counterexample to C5 as stated. A store whose file holds `null` under the alias
`broken` is loaded as it is; in the loop of `cleanupAliases` the read `info.sessionPath`
raises a `TypeError` on it, so the call returns no result and removes nothing, although
the session of `broken` fails every predicate. -/
theorem cleanupAliases_null_counterexample :
    objectKeys (storedAliases exampleNullStore) = ["work", "broken"]
    ∧ cleanupAliases exampleNullStore exampleEnv (fun _ => false) = (none, exampleNullStore)
    ∧ cleanupAliases exampleNullStore exampleEnv exampleExists = (none, exampleNullStore) := by
  decide

/-- Claim C6 (amended). For every store whose `aliases` member is a plain object with no
`null` among its values, and every fixed predicate: running `cleanupAliases` twice in a
row, the first run's save going through, the second run reports `removed = 0` and leaves
every file as the first run left it. -/
theorem cleanupAliases_idempotent (fs : AliasFS) (env env2 : Env)
    (sessionExists : Option String → Bool) (hnull : NoNull (storedAliases fs))
    (hsave : env.faults.saveOk = true) :
    (cleanupAliases (cleanupAliases fs env sessionExists).2 env2 sessionExists).1.map
        (fun r => r.removed) = some 0
    ∧ (cleanupAliases (cleanupAliases fs env sessionExists).2 env2 sessionExists).2
        = (cleanupAliases fs env sessionExists).2 := by
  have h1 := (cleanupAliases_effect fs env sessionExists hnull hsave).1
  generalize (cleanupAliases fs env sessionExists).2 = fs1 at h1 ⊢
  have hwf := loadAliases_wf fs1 env2.clock.loaded
  have hst : storedAliases fs1 = (loadAliases fs1 env2.clock.loaded).aliases :=
    loadAliases_aliases_now fs1 _ _
  have hnull1 : NoNull (loadAliases fs1 env2.clock.loaded).aliases := by
    rw [← hst, h1]
    exact noNull_filter _ _ hnull
  have hnil : (loadAliases fs1 env2.clock.loaded).aliases.filter
      (fun e => !sessionExists e.2.sessionPath) = [] := by
    rw [← hst, h1, List.filter_filter]
    rw [List.filter_eq_nil_iff]
    intro a _
    simp
  unfold cleanupAliases
  simp only [cleanupLoop_eq_foldl sessionExists _ _ hnull1, cleanup_loop sessionExists _ hwf.1,
    hnil, List.map_nil, List.length_nil, Nat.lt_irrefl, if_false, Option.map_some', and_self]

/-- Witness for C6 (amended): two runs on the sample store. -/
theorem cleanupAliases_idempotent_witness :
    NoNull (storedAliases exampleStore)
    ∧ exampleEnv.faults.saveOk = true
    ∧ (cleanupAliases (cleanupAliases exampleStore exampleEnv exampleExists).2 exampleEnv
        exampleExists).1.map (fun r => r.removed) = some 0
    ∧ (cleanupAliases (cleanupAliases exampleStore exampleEnv exampleExists).2 exampleEnv
        exampleExists).2 = (cleanupAliases exampleStore exampleEnv exampleExists).2 :=
  ⟨by decide, by decide,
    cleanupAliases_idempotent exampleStore exampleEnv exampleEnv exampleExists (by decide)
      (by decide)⟩

/-- Counterexample to C6 as stated. On a store whose file holds `null` under an alias,
the first run of `cleanupAliases` raises a `TypeError` and leaves the store as it was, and
so does the second: it does not report `removed = 0`.  And on the sample store, when the
write of the first run's save throws, `saveAliases` returns `false`, which
`cleanupAliases` ignores: the first run reports one alias removed, the file keeps both
aliases, and the second run reports one alias removed again. -/
theorem cleanupAliases_twice_counterexample :
    ((cleanupAliases exampleNullStore exampleEnv exampleExists).2 = exampleNullStore
      ∧ (cleanupAliases (cleanupAliases exampleNullStore exampleEnv exampleExists).2 exampleEnv
          exampleExists).1.map (fun r => r.removed) = none)
    ∧ ((cleanupAliases exampleStore exampleFullDiskEnv exampleExists).1.map
          (fun r => r.removed) = some 1
      ∧ objectKeys (storedAliases (cleanupAliases exampleStore exampleFullDiskEnv
          exampleExists).2) = ["work", "gone"]
      ∧ (cleanupAliases (cleanupAliases exampleStore exampleFullDiskEnv exampleExists).2
          exampleEnv exampleExists).1.map (fun r => r.removed) = some 1) := by
  decide

end SessionAliases

/-! # Properties of the analysis tick -/

namespace Observer

@[simp] theorem log_observations (fs : ObserverFS) (now msg : String) :
    (log fs now msg).observations = fs.observations := rfl

@[simp] theorem log_archive (fs : ObserverFS) (now msg : String) :
    (log fs now msg).archive = fs.archive := rfl

@[simp] theorem log_promptFile (fs : ObserverFS) (now msg : String) :
    (log fs now msg).promptFile = fs.promptFile := rfl

@[simp] theorem log_instincts (fs : ObserverFS) (now msg : String) :
    (log fs now msg).instincts = fs.instincts := rfl

theorem generateInstinctsMd_frame (env : TickEnv) (fs fs2 : ObserverFS)
    (h : generateInstinctsMd env fs = some fs2) :
    fs2.observations = fs.observations ∧ fs2.archive = fs.archive := by
  unfold generateInstinctsMd at h
  cases hi : fs.instincts with
  | none =>
    rw [hi] at h
    simp only [Option.some.injEq] at h
    subst h
    exact ⟨rfl, rfl⟩
  | some entries =>
    rw [hi] at h
    simp only at h
    by_cases hlen : (yamlFiles entries).length = 0
    · simp only [hlen, if_true, Option.some.injEq] at h
      subst h
      exact ⟨rfl, rfl⟩
    · simp only [hlen, if_false] at h
      cases hr : env.render (yamlFiles entries) with
      | none =>
        rw [hr] at h
        simp only [Option.some.injEq] at h
        subst h
        exact ⟨rfl, rfl⟩
      | some text =>
        rw [hr] at h
        simp only at h
        by_cases hw : env.faults.summaryWrite = true
        · simp [hw] at h
        · simp only [hw, Bool.false_eq_true, if_false, Option.some.injEq] at h
          subst h
          exact ⟨rfl, rfl⟩

/-- Claim C8. For every observation log with fewer than 20 records, `runAnalysis` returns
`false`, does not run the external tool, does not write the prompt file, and leaves the
observation log and the archive directory as they were. -/
theorem runAnalysis_below_threshold (env : TickEnv) (tool : ToolRun) (fs : ObserverFS)
    (h : getObservationCount fs < MIN_OBSERVATIONS) :
    (runAnalysis env tool fs).returned = some false
      ∧ (runAnalysis env tool fs).toolInvoked = false
      ∧ (runAnalysis env tool fs).fs.promptFile = fs.promptFile
      ∧ (runAnalysis env tool fs).fs.observations = fs.observations
      ∧ (runAnalysis env tool fs).fs.archive = fs.archive := by
  unfold runAnalysis
  simp only [h, if_true, log_promptFile, log_observations, log_archive, and_self]

/-- Witness for C8: a log of 19 newline-terminated lines. -/
theorem runAnalysis_below_threshold_witness :
    getObservationCount (exampleObserverFS 19) = 19
    ∧ (runAnalysis exampleTickEnv exampleToolIdle (exampleObserverFS 19)).returned = some false
    ∧ (runAnalysis exampleTickEnv exampleToolIdle (exampleObserverFS 19)).toolInvoked = false
    ∧ (runAnalysis exampleTickEnv exampleToolIdle (exampleObserverFS 19)).fs.promptFile
        = (exampleObserverFS 19).promptFile
    ∧ (runAnalysis exampleTickEnv exampleToolIdle (exampleObserverFS 19)).fs.observations
        = (exampleObserverFS 19).observations
    ∧ (runAnalysis exampleTickEnv exampleToolIdle (exampleObserverFS 19)).fs.archive
        = (exampleObserverFS 19).archive :=
  ⟨by decide, runAnalysis_below_threshold exampleTickEnv exampleToolIdle (exampleObserverFS 19)
    (by decide)⟩

theorem analysisSucceeded_toolInvoked (env : TickEnv) (stdout : String) (fs : ObserverFS) :
    (analysisSucceeded env stdout fs).toolInvoked = true := by
  unfold analysisSucceeded
  simp only
  split
  · rfl
  · split
    · split <;> rfl
    · rfl

/-- Past the threshold and the creation of the instincts directory, the tick is its
`try` block run on the files with the directory in place. -/
theorem runAnalysis_eq_attempt (env : TickEnv) (tool : ToolRun) (fs : ObserverFS)
    (h1 : ¬ getObservationCount fs < MIN_OBSERVATIONS)
    (h2 : ¬ (fs.instincts.isNone && env.faults.instinctsMkdir) = true) :
    runAnalysis env tool fs = analysisAttempt env tool
      { log fs env.now ("Analyzing " ++ toString (getObservationCount fs) ++ " observations...")
        with instincts := some (fs.instincts.getD []) } := by
  unfold runAnalysis
  simp only [h1, if_false, log_instincts, h2, Bool.false_eq_true]

theorem runAnalysis_toolInvoked (env : TickEnv) (tool : ToolRun) (fs : ObserverFS)
    (hinv : (runAnalysis env tool fs).toolInvoked = true) :
    ¬ getObservationCount fs < MIN_OBSERVATIONS
      ∧ ¬ (fs.instincts.isNone && env.faults.instinctsMkdir) = true
      ∧ env.faults.writePrompt = false := by
  by_cases h1 : getObservationCount fs < MIN_OBSERVATIONS
  · simp [runAnalysis, h1] at hinv
  by_cases h2 : (fs.instincts.isNone && env.faults.instinctsMkdir) = true
  · simp only [runAnalysis, h1, if_false, log_instincts, h2, if_true] at hinv
    exact absurd hinv (by simp)
  refine ⟨h1, h2, ?_⟩
  rw [runAnalysis_eq_attempt env tool fs h1 h2] at hinv
  by_cases h3 : env.faults.writePrompt = true
  · simp [analysisAttempt, writePromptFile, h3] at hinv
  · simpa using h3

theorem analysisAttempt_tool_failure (env : TickEnv) (tool : ToolRun) (fs2 : ObserverFS)
    (h3 : env.faults.writePrompt = false)
    (hfail : ∀ out err, tool.result ≠ SpawnResult.completed (some 0) out err) :
    (analysisAttempt env tool fs2).returned = some false
      ∧ (analysisAttempt env tool fs2).fs.observations = fs2.observations
      ∧ (analysisAttempt env tool fs2).fs.archive = fs2.archive := by
  unfold analysisAttempt writePromptFile
  simp only [h3, Bool.false_eq_true, if_false]
  cases hres : tool.result with
  | threw message => simp
  | completed status out err =>
    have hstatus : status ≠ some 0 := by
      intro hs
      exact hfail out err (by rw [hres, hs])
    simp [hstatus]

/-- Claim C9. For every tick that runs the external tool, when the tool ends with a nonzero
or absent exit status or the call throws, `runAnalysis` returns `false`, the observation
log keeps its content, and the archive directory is as it was. -/
theorem runAnalysis_tool_failure (env : TickEnv) (tool : ToolRun) (fs : ObserverFS)
    (hinv : (runAnalysis env tool fs).toolInvoked = true)
    (hfail : ∀ out err, tool.result ≠ SpawnResult.completed (some 0) out err) :
    (runAnalysis env tool fs).returned = some false
      ∧ (runAnalysis env tool fs).fs.observations = fs.observations
      ∧ (runAnalysis env tool fs).fs.archive = fs.archive := by
  obtain ⟨h1, h2, h3⟩ := runAnalysis_toolInvoked env tool fs hinv
  rw [runAnalysis_eq_attempt env tool fs h1 h2]
  exact analysisAttempt_tool_failure env tool _ h3 hfail

/-- Witness for C9: the tool is killed on timeout. -/
theorem runAnalysis_tool_failure_witness :
    (runAnalysis exampleTickEnv exampleToolTimeout (exampleObserverFS 20)).toolInvoked = true
    ∧ (runAnalysis exampleTickEnv exampleToolTimeout (exampleObserverFS 20)).returned = some false
    ∧ (runAnalysis exampleTickEnv exampleToolTimeout (exampleObserverFS 20)).fs.observations
        = (exampleObserverFS 20).observations
    ∧ (runAnalysis exampleTickEnv exampleToolTimeout (exampleObserverFS 20)).fs.archive
        = (exampleObserverFS 20).archive :=
  ⟨by decide, runAnalysis_tool_failure exampleTickEnv exampleToolTimeout (exampleObserverFS 20)
    (by decide) (by intro out err h; cases h)⟩

theorem getFile_putFile_self (entries : List (String × String)) (name content : String) :
    getFile (putFile entries name content) name = some content := by
  unfold getFile putFile
  rw [List.find?_append]
  have h : List.find? (fun e => decide (e.1 = name))
      (List.filter (fun e => !decide (e.1 = name)) entries) = none := by
    rw [List.find?_eq_none]
    intro x hx
    have := (List.mem_filter.1 hx).2
    simpa using this
  rw [h]
  simp

theorem getFile_putFile_other (entries : List (String × String)) (name content other : String)
    (hne : other ≠ name) :
    getFile (putFile entries name content) other = getFile entries other := by
  unfold getFile putFile
  rw [List.find?_append]
  have hlast : List.find? (fun e => decide (e.1 = other)) [(name, content)] = none := by
    simp [List.find?, Ne.symm hne]
  rw [hlast, Option.or_none]
  congr 1
  induction entries with
  | nil => rfl
  | cons e rest ih =>
    by_cases h1 : e.1 = name
    · have h2 : ¬ e.1 = other := fun h => hne (h ▸ h1)
      rw [List.filter_cons_of_neg (by simpa using h1), List.find?_cons_of_neg _ (by simpa using h2)]
      exact ih
    · rw [List.filter_cons_of_pos (by simpa using h1)]
      by_cases h2 : e.1 = other
      · rw [List.find?_cons_of_pos _ (by simpa using h2),
          List.find?_cons_of_pos _ (by simpa using h2)]
      · rw [List.find?_cons_of_neg _ (by simpa using h2),
          List.find?_cons_of_neg _ (by simpa using h2)]
        exact ih

theorem archiveObservations_moves (env : TickEnv) (fs : ObserverFS) (content : String)
    (hobs : fs.observations = some content)
    (hmk : env.faults.archiveMkdir = false) (hmv : env.faults.archiveRename = false) :
    (archiveObservations env fs).observations = none
      ∧ (archiveObservations env fs).archive
          = some (putFile (fs.archive.getD []) (archiveName env.now) content) := by
  unfold archiveObservations
  rw [hobs]
  simp [hmk, hmv]

theorem analysisSucceeded_archives (env : TickEnv) (stdout : String) (fs4 : ObserverFS)
    (content : String) (entries : List (String × String))
    (hobs : fs4.observations = some content)
    (hinst : fs4.instincts = some entries) (hyaml : 0 < (yamlFiles entries).length)
    (hmk : env.faults.archiveMkdir = false) (hmv : env.faults.archiveRename = false) :
    (analysisSucceeded env stdout fs4).fs.observations = none
      ∧ (analysisSucceeded env stdout fs4).fs.archive
          = some (putFile (fs4.archive.getD []) (archiveName env.now) content) := by
  unfold analysisSucceeded
  simp only
  generalize hfs6 : (if stdout = "" then log fs4 env.now "Analysis completed successfully"
    else log (log fs4 env.now "Analysis completed successfully") env.now
      ("Output: " ++ String.mk (stdout.data.take 500))) = fs6
  have h6 : fs6.observations = fs4.observations ∧ fs6.archive = fs4.archive
      ∧ fs6.instincts = fs4.instincts := by
    rw [← hfs6]
    split <;> exact ⟨rfl, rfl, rfl⟩
  obtain ⟨h6o, h6a, h6i⟩ := h6
  rw [h6i, hinst]
  simp only [hyaml, if_true]
  have harch := archiveObservations_moves env fs6 content (h6o.trans hobs) hmk hmv
  rw [h6a] at harch
  cases hg : generateInstinctsMd env (archiveObservations env fs6) with
  | none => simpa using harch
  | some fs8 =>
    have hframe := generateInstinctsMd_frame env _ fs8 hg
    simp only [log_observations, log_archive, hframe.1, hframe.2]
    exact harch

/-- Claim C10. For every observation log with at least 20 records, when the tool is run
and exits 0, a `.yaml` instinct file is present afterwards, and creating the archive
directory and renaming into it do not throw: after the tick the log path is absent and the
archive directory holds, under the name `processed-<ts>.jsonl`, a file whose content is
the log's content before the tick; every other archive entry is as before. -/
theorem runAnalysis_archives (env : TickEnv) (tool : ToolRun) (fs : ObserverFS)
    (content out err : String) (entries : List (String × String))
    (hobs : fs.observations = some content)
    (hcount : MIN_OBSERVATIONS ≤ (observationLines content).length)
    (hinv : (runAnalysis env tool fs).toolInvoked = true)
    (htool : tool.result = SpawnResult.completed (some 0) out err)
    (hinst : tool.instinctsAfter = some entries) (hyaml : 0 < (yamlFiles entries).length)
    (hmk : env.faults.archiveMkdir = false) (hmv : env.faults.archiveRename = false) :
    (runAnalysis env tool fs).fs.observations = none
      ∧ ∃ dir, (runAnalysis env tool fs).fs.archive = some dir
        ∧ getFile dir (archiveName env.now) = some content
        ∧ ∀ other, other ≠ archiveName env.now →
            getFile dir other = getFile (fs.archive.getD []) other := by
  have h1 : ¬ getObservationCount fs < MIN_OBSERVATIONS := by
    unfold getObservationCount
    rw [hobs]
    exact Nat.not_lt.2 hcount
  obtain ⟨_, h2, h3⟩ := runAnalysis_toolInvoked env tool fs hinv
  rw [runAnalysis_eq_attempt env tool fs h1 h2]
  unfold analysisAttempt writePromptFile
  simp only [h3, Bool.false_eq_true, if_false, htool, if_true]
  have h := analysisSucceeded_archives env out
    { observations := fs.observations,
      promptFile := some (promptContent env.observationsFile env.instinctsDir),
      instincts := tool.instinctsAfter, archive := fs.archive, summary := fs.summary,
      logLines := (log fs env.now ("Analyzing " ++ toString (getObservationCount fs)
        ++ " observations...")).logLines }
    content entries hobs hinst hyaml hmk hmv
  refine ⟨h.1, _, h.2, getFile_putFile_self _ _ _, ?_⟩
  intro other hne
  exact getFile_putFile_other _ _ _ _ hne

/-- Witness for C10: a log of 20 records and a run that creates an instinct file. -/
theorem runAnalysis_archives_witness :
    (exampleObserverFS 20).observations = some (exampleLog 20)
    ∧ (runAnalysis exampleTickEnv exampleToolLearns (exampleObserverFS 20)).fs.observations = none
    ∧ ∃ dir, (runAnalysis exampleTickEnv exampleToolLearns (exampleObserverFS 20)).fs.archive
          = some dir
        ∧ getFile dir (archiveName exampleTickEnv.now) = some (exampleLog 20)
        ∧ ∀ other, other ≠ archiveName exampleTickEnv.now →
            getFile dir other = getFile ((exampleObserverFS 20).archive.getD []) other :=
  ⟨rfl, runAnalysis_archives exampleTickEnv exampleToolLearns (exampleObserverFS 20)
    (exampleLog 20) "Created 1 instinct." "" _ rfl (by decide) (by decide) rfl rfl (by decide)
    rfl rfl⟩

/-- Claim C7, evaluated at the failing input. The log holds 20 records, the instincts
directory holds one instinct learned earlier, and the tool exits 0 without creating any
file: the tick still archives the log. -/
theorem runAnalysis_archives_without_new_instinct :
    getObservationCount (exampleObserverFS 20) = 20
    ∧ exampleToolIdle.result = SpawnResult.completed (some 0) "No clear patterns found." ""
    ∧ exampleToolIdle.instinctsAfter = (exampleObserverFS 20).instincts
    ∧ (runAnalysis exampleTickEnv exampleToolIdle (exampleObserverFS 20)).returned = some true
    ∧ (runAnalysis exampleTickEnv exampleToolIdle (exampleObserverFS 20)).fs.observations = none
    ∧ (runAnalysis exampleTickEnv exampleToolIdle (exampleObserverFS 20)).fs.archive
        = some [(archiveName exampleTickEnv.now, exampleLog 20)] := by
  decide

end Observer
/-! # Properties of session files -/

namespace SessionManager

theorem takeWhile_append_stop {α : Type} (p : α → Bool) (l r : List α) (c : α)
    (hl : ∀ x ∈ l, p x = true) (hc : p c = false) :
    (l ++ c :: r).takeWhile p = l ∧ (l ++ c :: r).dropWhile p = c :: r := by
  induction l with
  | nil => simp [List.takeWhile, List.dropWhile, hc]
  | cons a t ih =>
    have ha : p a = true := hl a (List.mem_cons_self _ _)
    have ht := ih (fun x hx => hl x (List.mem_cons_of_mem _ hx))
    simp [List.takeWhile, List.dropWhile, ha, ht.1, ht.2]

theorem matchDate_of_isDateString (d : String) (rest : List Char)
    (hd : isDateString d = true) : matchDate (d.data ++ rest) = some (d.data, rest) := by
  unfold isDateString at hd
  split at hd
  · rename_i y1 y2 y3 y4 s1 m1 m2 s2 d1 d2 heq
    rw [heq]
    simp only [List.cons_append, List.nil_append, matchDate, hd, if_true]
  · simp at hd

theorem matchDate_some (l date rest : List Char) (h : matchDate l = some (date, rest)) :
    l = date ++ rest ∧ isDateString (String.mk date) = true := by
  unfold matchDate at h
  split at h
  · rename_i y1 y2 y3 y4 s1 m1 m2 s2 d1 d2 rest2
    split at h
    · rename_i hc
      simp only [Option.some.injEq, Prod.mk.injEq] at h
      obtain ⟨h1, h2⟩ := h
      subst h1 h2
      exact ⟨rfl, by simpa [isDateString] using hc⟩
    · simp at h
  · simp at h

theorem sessionSuffix_head : isIdChar '-' = false := by decide

/-- A name `d-s-session.tmp` parses to the date `d` and the short id `s`. -/
theorem parseSessionFilename_with_id (d s : String) (hd : isDateString d = true)
    (hs : isShortId s = true) :
    parseSessionFilename (d ++ "-" ++ s ++ "-session.tmp")
      = some { filename := d ++ "-" ++ s ++ "-session.tmp", shortId := s, date := d } := by
  unfold isShortId at hs
  simp only [Bool.and_eq_true, decide_eq_true_eq, List.all_eq_true] at hs
  obtain ⟨hlen, hall⟩ := hs
  have hdata : (d ++ "-" ++ s ++ "-session.tmp").data
      = d.data ++ ('-' :: (s.data ++ '-' :: "session.tmp".data)) := by
    simp [String.data_append]
  have hsplit := takeWhile_append_stop isIdChar s.data "session.tmp".data '-' hall
    sessionSuffix_head
  unfold parseSessionFilename
  rw [hdata, matchDate_of_isDateString d _ hd]
  simp only [hsplit.1, hsplit.2, hlen, decide_True, Bool.true_and]
  have hsuf : ('-' :: "session.tmp".data) = sessionSuffix := by decide
  simp [hsuf]

/-- A name `d-session.tmp` parses to the date `d` and the short id `no-id`. -/
theorem parseSessionFilename_without_id (d : String) (hd : isDateString d = true) :
    parseSessionFilename (d ++ "-session.tmp")
      = some { filename := d ++ "-session.tmp", shortId := "no-id", date := d } := by
  have hdata : (d ++ "-session.tmp").data = d.data ++ ('-' :: "session.tmp".data) := by
    simp [String.data_append]
  unfold parseSessionFilename
  rw [hdata, matchDate_of_isDateString d _ hd]
  have h1 : ("session.tmp".data.takeWhile isIdChar).length = 7 := by decide
  have hsuf : ('-' :: "session.tmp".data) = sessionSuffix := by decide
  simp only [h1]
  rw [if_neg (by decide), if_pos hsuf]

/-- A name that parses has one of the two shapes, and the record holds its parts. -/
theorem parseSessionFilename_some (name : String) (r : ParsedFilename)
    (h : parseSessionFilename name = some r) :
    r.filename = name ∧ isDateString r.date = true ∧
      ((isShortId r.shortId = true ∧ name = r.date ++ "-" ++ r.shortId ++ "-session.tmp")
        ∨ (r.shortId = "no-id" ∧ name = r.date ++ "-session.tmp")) := by
  unfold parseSessionFilename at h
  cases hm : matchDate name.data with
  | none => rw [hm] at h; simp at h
  | some p =>
    obtain ⟨date, rest⟩ := p
    rw [hm] at h
    obtain ⟨hname, hdate⟩ := matchDate_some _ _ _ hm
    simp only at h
    split at h
    · rename_i tail
      split at h
      · rename_i hc
        simp only [Bool.and_eq_true, decide_eq_true_eq] at hc
        simp only [Option.some.injEq] at h
        subst h
        refine ⟨rfl, hdate, Or.inl ⟨?_, ?_⟩⟩
        · simp only [isShortId, Bool.and_eq_true, decide_eq_true_eq, List.all_eq_true]
          exact ⟨hc.1, fun x hx => List.mem_takeWhile_imp hx⟩
        · apply String.ext
          simp only [String.data_append]
          rw [hname]
          have := List.takeWhile_append_dropWhile isIdChar tail
          rw [hc.2] at this
          simp only [List.append_assoc]
          congr 1
          show '-' :: tail = '-' :: (List.takeWhile isIdChar tail ++ sessionSuffix)
          rw [this]
      · split at h
        · rename_i hr
          simp only [Option.some.injEq] at h
          subst h
          refine ⟨rfl, hdate, Or.inr ⟨rfl, ?_⟩⟩
          apply String.ext
          simp only [String.data_append]
          rw [hname, hr]
          rfl
        · simp at h
    · simp at h

/-- Claim C11. For every date string `d` of the form `DDDD-DD-DD` and every id `s` of 8 or
more characters from `[a-z0-9]`: `d-s-session.tmp` parses to a record with `date = d` and
`shortId = s`; `d-session.tmp` parses to `date = d` and `shortId = "no-id"`; and every
name that has neither shape (for any date and id) yields `null`. -/
theorem parseSessionFilename_shapes (d s : String) (hd : isDateString d = true)
    (hs : isShortId s = true) :
    parseSessionFilename (d ++ "-" ++ s ++ "-session.tmp")
        = some { filename := d ++ "-" ++ s ++ "-session.tmp", shortId := s, date := d }
    ∧ parseSessionFilename (d ++ "-session.tmp")
        = some { filename := d ++ "-session.tmp", shortId := "no-id", date := d }
    ∧ ∀ name : String,
        (¬ ∃ d2 s2 : String, isDateString d2 = true ∧ isShortId s2 = true
            ∧ name = d2 ++ "-" ++ s2 ++ "-session.tmp") →
        (¬ ∃ d2 : String, isDateString d2 = true ∧ name = d2 ++ "-session.tmp") →
        parseSessionFilename name = none := by
  refine ⟨parseSessionFilename_with_id d s hd hs, parseSessionFilename_without_id d hd, ?_⟩
  intro name h1 h2
  cases hp : parseSessionFilename name with
  | none => rfl
  | some r =>
    obtain ⟨_, hdate, hshape⟩ := parseSessionFilename_some name r hp
    rcases hshape with ⟨hid, hname⟩ | ⟨_, hname⟩
    · exact absurd ⟨r.date, r.shortId, hdate, hid, hname⟩ h1
    · exact absurd ⟨r.date, hdate, hname⟩ h2

/-- Witness for C11: the names of the specification, and two names of neither shape. -/
theorem parseSessionFilename_shapes_witness :
    (parseSessionFilename "2025-01-15-ab12cd34-session.tmp"
        = some { filename := "2025-01-15-ab12cd34-session.tmp", shortId := "ab12cd34",
                 date := "2025-01-15" }
      ∧ parseSessionFilename "2025-01-15-session.tmp"
        = some { filename := "2025-01-15-session.tmp", shortId := "no-id",
                 date := "2025-01-15" })
    ∧ parseSessionFilename "2025-01-15-ab12cd3-session.tmp" = none
    ∧ parseSessionFilename "2025-01-15-Ab12cd34-session.tmp" = none :=
  ⟨⟨(parseSessionFilename_shapes "2025-01-15" "ab12cd34" (by decide) (by decide)).1,
    (parseSessionFilename_shapes "2025-01-15" "ab12cd34" (by decide) (by decide)).2.1⟩,
   by decide, by decide⟩

theorem endsWithTmp_of_parse (name : String) (r : ParsedFilename)
    (h : parseSessionFilename name = some r) : endsWithTmp name = true := by
  obtain ⟨_, _, hshape⟩ := parseSessionFilename_some name r h
  unfold endsWithTmp
  rw [List.isSuffixOf_iff_suffix]
  rcases hshape with ⟨_, hname⟩ | ⟨_, hname⟩
  · rw [hname]
    exact ⟨(r.date ++ "-" ++ r.shortId).data ++ "-session".data, by
      simp [String.data_append]⟩
  · rw [hname]
    exact ⟨r.date.data ++ "-session".data, by simp [String.data_append]⟩

/-- The loop body of `getAllSessions` keeps exactly the entries that pass the filters, and
the element it pushes carries the entry's name and modification time. -/
theorem sessionOfEntry_spec (sessionsDir : String) (date search : Option String)
    (e : DirEntry) :
    (passesFilters date search e = true ∧
        ∃ s, sessionOfEntry sessionsDir date search e = some s ∧ s.filename = e.name
          ∧ s.modifiedTime = e.mtime)
    ∨ (passesFilters date search e = false ∧ sessionOfEntry sessionsDir date search e = none) := by
  unfold passesFilters sessionOfEntry
  cases hf : e.isFile
  · right; simp
  · cases hp : parseSessionFilename e.name with
    | none => right; simp
    | some m =>
      have htmp := endsWithTmp_of_parse e.name m hp
      have hfn := (parseSessionFilename_some e.name m hp).1
      simp only [htmp, Bool.not_true, Bool.or_self, Bool.false_eq_true, if_false, Bool.true_and]
      cases hd : truthy date with
      | none =>
        cases hs : truthy search with
        | none => left; simp [hfn]
        | some q =>
          cases hi : includes m.shortId q
          · right; simp [hi]
          · left; simp [hfn, hi]
      | some d =>
        by_cases hdate : m.date = d
        · cases hs : truthy search with
          | none => left; simp [hfn, hdate]
          | some q =>
            cases hi : includes m.shortId q
            · right; simp [hdate, hi]
            · left; simp [hfn, hdate, hi]
        · right; simp [hdate]

theorem filterMap_sessionOfEntry (sessionsDir : String) (date search : Option String)
    (entries : List DirEntry) :
    (entries.filterMap (sessionOfEntry sessionsDir date search)).map
        (fun s => (s.filename, s.modifiedTime))
      = (entries.filter (passesFilters date search)).map (fun e => (e.name, e.mtime)) := by
  induction entries with
  | nil => rfl
  | cons e rest ih =>
    rcases sessionOfEntry_spec sessionsDir date search e with ⟨hp, s, hs, h1, h2⟩ | ⟨hp, hs⟩
    · rw [List.filterMap_cons_some hs, List.filter_cons_of_pos hp]
      simp only [List.map_cons, ih, h1, h2]
    · rw [List.filterMap_cons_none hs, List.filter_cons_of_neg (by simp [hp])]
      exact ih

theorem newerFirst_total : ∀ a b : SessionInfo, newerFirst a b ∨ newerFirst b a :=
  fun a b => Int.le_total b.modifiedTime a.modifiedTime

theorem newerFirst_trans : ∀ a b c : SessionInfo, newerFirst a b → newerFirst b c →
    newerFirst a c :=
  fun _ _ _ hab hbc => Int.le_trans hbc hab

/-- Claim C18. For every session directory (absent or with any entries) and every limit,
offset, date and search: `total` is the number of files whose names parse as session
filenames and pass the date and short-id filters; the returned sessions are the slice
`[offset, offset + limit)` of those files ordered by modification time descending, so at
most `limit` entries; and `hasMore` is true exactly when `offset + limit < total`. -/
theorem getAllSessions_page (sessionsDir : String) (dir : Option (List DirEntry))
    (limit offset : Nat) (date search : Option String) :
    (getAllSessions sessionsDir dir limit offset date search).total
        = ((dir.getD []).filter (passesFilters date search)).length
    ∧ (∃ ordered : List SessionInfo,
        ordered.Sorted newerFirst
        ∧ (ordered.map (fun s => (s.filename, s.modifiedTime))).Perm
            (((dir.getD []).filter (passesFilters date search)).map (fun e => (e.name, e.mtime)))
        ∧ (getAllSessions sessionsDir dir limit offset date search).sessions
            = (ordered.drop offset).take limit)
    ∧ (getAllSessions sessionsDir dir limit offset date search).sessions.length ≤ limit
    ∧ ((getAllSessions sessionsDir dir limit offset date search).hasMore = true ↔
        offset + limit
          < (getAllSessions sessionsDir dir limit offset date search).total) := by
  cases dir with
  | none =>
    refine ⟨rfl, ⟨[], List.sorted_nil, by simp, by simp [getAllSessions]⟩, by simp [getAllSessions],
      by simp [getAllSessions]⟩
  | some entries =>
    haveI : IsTotal SessionInfo newerFirst := ⟨newerFirst_total⟩
    haveI : IsTrans SessionInfo newerFirst := ⟨newerFirst_trans⟩
    have hperm := List.perm_insertionSort newerFirst
      (entries.filterMap (sessionOfEntry sessionsDir date search))
    have hmap := filterMap_sessionOfEntry sessionsDir date search entries
    refine ⟨?_, ⟨_, List.sorted_insertionSort newerFirst _, ?_, rfl⟩, ?_, ?_⟩
    · simp only [getAllSessions, Option.getD_some]
      rw [hperm.length_eq]
      have := congrArg List.length hmap
      simpa using this
    · simp only [Option.getD_some]
      rw [← hmap]
      exact hperm.map _
    · simp only [getAllSessions, List.length_take]
      exact Nat.min_le_left _ _
    · simp [getAllSessions]

theorem find?_matchesId_cons (sessionId : String) (e : DirEntry) (rest : List DirEntry) :
    List.find? (matchesId sessionId) (e :: rest)
      = if matchesId sessionId e = true then some e
        else List.find? (matchesId sessionId) rest := by
  cases h : matchesId sessionId e <;> simp [List.find?, h]

theorem getSessionByIdLoop_eq (sessionsDir sessionId : String) (entries : List DirEntry) :
    getSessionByIdLoop sessionsDir sessionId entries
      = (entries.find? (matchesId sessionId)).bind (detailOfEntry sessionsDir) := by
  induction entries with
  | nil => rfl
  | cons e rest ih =>
    rw [find?_matchesId_cons]
    unfold getSessionByIdLoop
    cases hf : e.isFile
    · have hm : matchesId sessionId e = false := by simp [matchesId, hf]
      simp only [Bool.not_false, Bool.true_or, if_true, hm, Bool.false_eq_true, if_false]
      exact ih
    · cases hp : parseSessionFilename e.name with
      | none =>
        have hm : matchesId sessionId e = false := by simp [matchesId, hp]
        simp only [hm, Bool.false_eq_true, if_false]
        split <;> exact ih
      | some m =>
        have htmp := endsWithTmp_of_parse e.name m hp
        simp only [htmp, Bool.not_true, Bool.or_self, Bool.false_eq_true, if_false]
        by_cases hm : matchesId sessionId e = true
        · rw [if_pos hm]
          simp only [matchesId, hf, hp, Bool.true_and] at hm
          have hsel : (!(decide (m.shortId ≠ "no-id") && startsWith m.shortId sessionId)
              && !(decide (e.name = sessionId) || decide (e.name = sessionId ++ ".tmp"))
              && !(decide (m.shortId = "no-id")
                    && decide (e.name = sessionId ++ "-session.tmp"))) = false := by
            revert hm
            cases (decide (m.shortId ≠ "no-id") && startsWith m.shortId sessionId)
              <;> cases decide (e.name = sessionId)
              <;> cases decide (e.name = sessionId ++ ".tmp")
              <;> cases (decide (m.shortId = "no-id")
                    && decide (e.name = sessionId ++ "-session.tmp"))
              <;> simp
          simp only [hsel, Bool.false_eq_true, if_false, Option.some_bind, detailOfEntry, hp,
            Option.map_some']
        · have hm' : matchesId sessionId e = false := by simpa using hm
          rw [if_neg hm]
          simp only [matchesId, hf, hp, Bool.true_and] at hm'
          have hsel : (!(decide (m.shortId ≠ "no-id") && startsWith m.shortId sessionId)
              && !(decide (e.name = sessionId) || decide (e.name = sessionId ++ ".tmp"))
              && !(decide (m.shortId = "no-id")
                    && decide (e.name = sessionId ++ "-session.tmp"))) = true := by
            revert hm'
            cases (decide (m.shortId ≠ "no-id") && startsWith m.shortId sessionId)
              <;> cases decide (e.name = sessionId)
              <;> cases decide (e.name = sessionId ++ ".tmp")
              <;> cases (decide (m.shortId = "no-id")
                    && decide (e.name = sessionId ++ "-session.tmp"))
              <;> simp
          simp only [hsel, if_true]
          exact ih

/-- Claim C19. For every session directory and every id string, `getSessionById(id)`
returns the record of the first file entry with a valid session filename such that the
entry's short id (other than `no-id`) starts with the id, or the filename equals the id or
the id with `.tmp`, or the entry has no id and its filename is the id with `-session.tmp`;
the result is `null` exactly when no entry satisfies any of the three conditions. -/
theorem getSessionById_first_match (sessionsDir : String) (dir : Option (List DirEntry))
    (sessionId : String) :
    getSessionById sessionsDir dir sessionId
        = ((dir.getD []).find? (matchesId sessionId)).bind (detailOfEntry sessionsDir)
    ∧ (getSessionById sessionsDir dir sessionId = none ↔
        ∀ e ∈ dir.getD [], matchesId sessionId e = false) := by
  have h : getSessionById sessionsDir dir sessionId
        = ((dir.getD []).find? (matchesId sessionId)).bind (detailOfEntry sessionsDir) := by
    cases dir with
    | none => rfl
    | some entries => exact getSessionByIdLoop_eq sessionsDir sessionId entries
  refine ⟨h, ?_⟩
  rw [h]
  constructor
  · intro hnone e he
    cases hfind : (dir.getD []).find? (matchesId sessionId) with
    | none =>
      have := List.find?_eq_none.1 hfind e he
      simpa using this
    | some x =>
      rw [hfind] at hnone
      have hx := List.find?_some hfind
      simp only [matchesId, Bool.and_eq_true] at hx
      cases hp : parseSessionFilename x.name with
      | none => rw [hp] at hx; simp at hx
      | some m => simp [detailOfEntry, hp] at hnone
  · intro hall
    have : (dir.getD []).find? (matchesId sessionId) = none := by
      rw [List.find?_eq_none]
      intro x hx
      simp [hall x hx]
    rw [this]
    rfl

end SessionManager

/-! # Properties of package-manager selection -/

namespace PackageManager

/-- Claim C14. For every set of lock files present in the project directory,
`detectFromLockFile` returns the first of pnpm, bun, yarn, npm whose lock file
(`pnpm-lock.yaml`, `bun.lockb`, `yarn.lock`, `package-lock.json`) is present, and `null`
exactly when none of the four is present. -/
theorem detectFromLockFile_priority (lockFileExists : String → Bool) :
    detectFromLockFile lockFileExists
        = (if lockFileExists "pnpm-lock.yaml" then some "pnpm"
           else if lockFileExists "bun.lockb" then some "bun"
           else if lockFileExists "yarn.lock" then some "yarn"
           else if lockFileExists "package-lock.json" then some "npm"
           else none)
    ∧ (detectFromLockFile lockFileExists = none ↔
        lockFileExists "pnpm-lock.yaml" = false ∧ lockFileExists "bun.lockb" = false
          ∧ lockFileExists "yarn.lock" = false ∧ lockFileExists "package-lock.json" = false) := by
  have h : detectFromLockFile lockFileExists
        = (if lockFileExists "pnpm-lock.yaml" then some "pnpm"
           else if lockFileExists "bun.lockb" then some "bun"
           else if lockFileExists "yarn.lock" then some "yarn"
           else if lockFileExists "package-lock.json" then some "npm"
           else none) := by
    have e1 : SessionAliases.getOwn PACKAGE_MANAGERS "pnpm" = some pnpmProfile := by decide
    have e2 : SessionAliases.getOwn PACKAGE_MANAGERS "bun" = some bunProfile := by decide
    have e3 : SessionAliases.getOwn PACKAGE_MANAGERS "yarn" = some yarnProfile := by decide
    have e4 : SessionAliases.getOwn PACKAGE_MANAGERS "npm" = some npmProfile := by decide
    simp only [detectFromLockFile, DETECTION_PRIORITY, List.find?, e1, e2, e3, e4,
      pnpmProfile, bunProfile, yarnProfile, npmProfile]
    cases lockFileExists "pnpm-lock.yaml" <;> cases lockFileExists "bun.lockb"
      <;> cases lockFileExists "yarn.lock" <;> cases lockFileExists "package-lock.json"
      <;> rfl
  refine ⟨h, ?_⟩
  rw [h]
  cases lockFileExists "pnpm-lock.yaml" <;> cases lockFileExists "bun.lockb"
    <;> cases lockFileExists "yarn.lock" <;> cases lockFileExists "package-lock.json"
    <;> simp

/-- Claim C12. For every project state and every name `n` among npm, pnpm, yarn, bun:
when the environment override is `n`, `getPackageManager` returns the name `n`, the static
profile of `n`, and the source `environment`. -/
theorem getPackageManager_environment (env : PmEnv) (n : String)
    (hn : n ∈ ["npm", "pnpm", "yarn", "bun"]) (henv : env.envPm = some n) :
    ∃ p, SessionAliases.getOwn PACKAGE_MANAGERS n = some p ∧ p.name = n
      ∧ getPackageManager env = { name := n, config := TableValue.profile p,
                                  source := "environment" } := by
  simp only [List.mem_cons, List.mem_singleton, List.not_mem_nil, or_false] at hn
  rcases hn with rfl | rfl | rfl | rfl
  · exact ⟨npmProfile, by decide, rfl, by simp [getPackageManager, henv, namedTool, tableGet,
      show SessionAliases.getOwn PACKAGE_MANAGERS "npm" = some npmProfile by decide]⟩
  · exact ⟨pnpmProfile, by decide, rfl, by simp [getPackageManager, henv, namedTool, tableGet,
      show SessionAliases.getOwn PACKAGE_MANAGERS "pnpm" = some pnpmProfile by decide]⟩
  · exact ⟨yarnProfile, by decide, rfl, by simp [getPackageManager, henv, namedTool, tableGet,
      show SessionAliases.getOwn PACKAGE_MANAGERS "yarn" = some yarnProfile by decide]⟩
  · exact ⟨bunProfile, by decide, rfl, by simp [getPackageManager, henv, namedTool, tableGet,
      show SessionAliases.getOwn PACKAGE_MANAGERS "bun" = some bunProfile by decide]⟩

/-- Witness for C12: the override `pnpm` (and `bun`) in a project that holds a pnpm lock
file. -/
theorem getPackageManager_environment_witness :
    (examplePmEnv (some "bun")).lockFileExists "pnpm-lock.yaml" = true
    ∧ ∃ p, SessionAliases.getOwn PACKAGE_MANAGERS "bun" = some p ∧ p.name = "bun"
      ∧ getPackageManager (examplePmEnv (some "bun"))
          = { name := "bun", config := TableValue.profile p, source := "environment" } :=
  ⟨by decide, getPackageManager_environment (examplePmEnv (some "bun")) "bun" (by decide) rfl⟩

/-- Claim C13, evaluated at the failing input. The environment override names
`constructor`, which is no package manager, and the project holds a pnpm lock file: the
override is not skipped, the result is the name `constructor` with source `environment`
and a `config` without any command, where the lock file should have selected pnpm. -/
theorem getPackageManager_inherited_name :
    SessionAliases.getOwn PACKAGE_MANAGERS "constructor" = none
    ∧ detectFromLockFile (examplePmEnv (some "constructor")).lockFileExists = some "pnpm"
    ∧ getPackageManager (examplePmEnv (some "constructor"))
        = { name := "constructor", config := TableValue.inherited, source := "environment" }
    ∧ getRunCommand (examplePmEnv (some "constructor")) "install" = none := by
  decide

/-- Claim C15. For every resolved tool profile `p` and every script string `s`:
`getRunCommand(s)` is `p.installCmd`, `p.testCmd`, `p.buildCmd`, `p.devCmd` when `s` is
`install`, `test`, `build`, `dev`, and `p.runCmd`, a space and `s` otherwise;
`getExecCommand(b, a)` is `p.execCmd`, a space, `b`, and then a space and `a` only when
`a` is non-empty. -/
theorem getRunCommand_getExecCommand (env : PmEnv) (p : Profile) (s b a : String)
    (hp : (getPackageManager env).config = TableValue.profile p) :
    getRunCommand env s
        = some (if s = "install" then p.installCmd
                else if s = "test" then p.testCmd
                else if s = "build" then p.buildCmd
                else if s = "dev" then p.devCmd
                else p.runCmd ++ " " ++ s)
    ∧ getExecCommand env b a
        = p.execCmd ++ " " ++ b ++ (if a = "" then "" else " " ++ a) := by
  unfold getRunCommand getExecCommand
  simp only [hp, TableValue.field, interpolate, and_true]
  split_ifs <;> rfl

/-- Witness for C15: the yarn profile selected by the environment. -/
theorem getRunCommand_getExecCommand_witness :
    (getPackageManager (examplePmEnv (some "yarn"))).config = TableValue.profile yarnProfile
    ∧ getRunCommand (examplePmEnv (some "yarn")) "lint" = some "yarn lint"
    ∧ getExecCommand (examplePmEnv (some "yarn")) "eslint" "--fix" = "yarn dlx eslint --fix" :=
  ⟨by decide,
   (getRunCommand_getExecCommand (examplePmEnv (some "yarn")) yarnProfile "lint" "eslint"
      "--fix" (by decide)).1,
   (getRunCommand_getExecCommand (examplePmEnv (some "yarn")) yarnProfile "lint" "eslint"
      "--fix" (by decide)).2⟩

theorem namedTool_of_not_inherited (v : Option String)
    (h : v.any isInheritedName = false) :
    namedTool v = (knownTool v).map (fun n => (n, configOf n)) := by
  cases v with
  | none => rfl
  | some n =>
    simp only [Option.any, isInheritedName, Bool.and_eq_false_iff, Bool.not_eq_false_eq_eq_true,
      Bool.not_eq_true] at h
    simp only [namedTool, knownTool]
    by_cases hn : n = ""
    · subst hn; rfl
    · rw [if_neg hn]
      rcases h with h | h
      · rw [if_pos h]
        simp only [Option.map_some', configOf]
        simp only [isKnownTool, Option.isSome_iff_exists] at h
        obtain ⟨p, hp⟩ := h
        simp [tableGet, hp]
      · have hnone : tableGet n = none := by
          cases ht : tableGet n with
          | none => rfl
          | some t => rw [ht] at h; simp at h
        have : isKnownTool n = false := by
          simp only [isKnownTool]
          simp only [tableGet] at hnone
          cases hp : SessionAliases.getOwn PACKAGE_MANAGERS n with
          | none => rfl
          | some p => rw [hp] at hnone; simp at hnone
        rw [this, hnone]; rfl

theorem detectFromPackageJson_of_not_inherited (f : ConfigFile)
    (h : (f.packageManager.map beforeAt).any isInheritedName = false) :
    detectFromPackageJson f = knownTool (f.packageManager.map beforeAt) := by
  have := namedTool_of_not_inherited _ h
  simp only [detectFromPackageJson]
  cases hv : f.packageManager with
  | none => rfl
  | some v =>
    rw [hv] at this
    simp only [Option.map_some', namedTool, knownTool] at this ⊢
    by_cases hk : isKnownTool (beforeAt v) = true
    · rw [if_pos hk] at this ⊢
      split_ifs at this with h1
      · simp at this
      · cases ht : tableGet (beforeAt v) with
        | none => rw [ht] at this; simp at this
        | some t => simp
    · rw [if_neg hk] at this ⊢
      split_ifs at this with h1
      · rw [h1]; rfl
      · cases ht : tableGet (beforeAt v) with
        | none => simp
        | some t => rw [ht] at this; simp at this

/-- Apart from names inherited from `Object.prototype`, resolution is first match wins
over the ordered sources. -/
theorem getPackageManager_first_known (env : PmEnv) (h : noInheritedName env = true) :
    ((getPackageManager env).name, (getPackageManager env).source) = firstKnownSource env := by
  simp only [noInheritedName, Bool.and_eq_true, Bool.not_eq_true'] at h
  obtain ⟨⟨⟨h1, h2⟩, h3⟩, h4⟩ := h
  simp only [getPackageManager, firstKnownSource, orderedSources,
    namedTool_of_not_inherited _ h1, namedTool_of_not_inherited _ h2,
    namedTool_of_not_inherited _ h4, detectFromPackageJson_of_not_inherited _ h3]
  cases knownTool env.envPm with
  | some n => simp
  | none =>
  cases knownTool env.projectConfig.packageManager with
  | some n => simp
  | none =>
  cases knownTool (env.packageJson.packageManager.map beforeAt) with
  | some n => simp
  | none =>
  cases detectFromLockFile env.lockFileExists with
  | some n => simp
  | none =>
  cases knownTool env.globalConfig.packageManager with
  | some n => simp
  | none =>
  cases env.fallbackOrder.find?
      (fun pmName => (getAvailablePackageManagers env.which).contains pmName) with
  | some n => simp
  | none => simp

theorem getPackageManager_first_known_example :
    noInheritedName (examplePmEnv (some "cargo")) = true ∧
    ((getPackageManager (examplePmEnv (some "cargo"))).name,
      (getPackageManager (examplePmEnv (some "cargo"))).source) = ("pnpm", "lock-file") :=
  ⟨by decide, by decide⟩

end PackageManager

/-! # Properties of the observation hook -/

namespace ObserveHook

/-- What arrives on standard output is the start of the payload and its newline, and the
whole of it when standard output takes every write whole. -/
theorem echoed_start (env : HookEnv) (data : String) :
    (echoed env data).data <+: (data ++ "\n").data
      ∧ (env.stdoutRoom = none → echoed env data = data ++ "\n") := by
  unfold echoed
  cases env.stdoutRoom with
  | none => exact ⟨List.prefix_refl _, fun _ => rfl⟩
  | some n => exact ⟨List.take_prefix _ _, fun h => absurd h (by simp)⟩

/-- For every payload that is not parseable JSON (and every empty or whitespace-only
payload), and for every payload when the disabled flag file exists, the hook leaves the
observation log and the archive as they were and exits with status 0; the handler has no
path on which an exception escapes.  Standard output receives the payload with the newline
of `console.log` when it takes every write whole. -/
theorem observe_passes_through (jsonParse : String → Option Json) (env : HookEnv)
    (data : String) (fs : HookFS)
    (h : jsonParse data = none ∨ (Observer.trimChars data.data).isEmpty = true
      ∨ fs.disabledFlag = true) :
    (observe jsonParse env data fs).stdout = echoed env data
      ∧ (env.stdoutRoom = none → (observe jsonParse env data fs).stdout = data ++ "\n")
      ∧ (observe jsonParse env data fs).fs.observations = fs.observations
      ∧ (observe jsonParse env data fs).fs.archive = fs.archive
      ∧ (observe jsonParse env data fs).exitCode = 0 := by
  have hout : (observe jsonParse env data fs).stdout = echoed env data := by
    unfold observe
    simp only
    split_ifs <;> first | rfl | (split <;> rfl)
  refine ⟨hout, fun hroom => by rw [hout]; exact (echoed_start env data).2 hroom, ?_⟩
  unfold observe
  by_cases hd : fs.disabledFlag = true
  · simp [hd]
  · by_cases hm : (!fs.configDir && env.faults.configMkdir) = true
    · simp [hd, hm]
    · by_cases ht : (Observer.trimChars data.data).isEmpty = true
      · simp [hd, hm, ht]
      · rcases h with hp | hp | hp
        · simp [hd, hm, ht, hp]
        · exact absurd hp ht
        · exact absurd hp hd

/-- A payload that is no JSON, with the hook enabled and standard output a file. -/
theorem observe_passes_through_example :
    exampleParse "not json" = none
    ∧ (observe exampleParse exampleHookEnv "not json" exampleHookFS).stdout = "not json" ++ "\n"
    ∧ (observe exampleParse exampleHookEnv "not json" exampleHookFS).fs.observations
        = exampleHookFS.observations
    ∧ (observe exampleParse exampleHookEnv "not json" exampleHookFS).fs.archive
        = exampleHookFS.archive
    ∧ (observe exampleParse exampleHookEnv "not json" exampleHookFS).exitCode = 0 :=
  ⟨rfl, ((observe_passes_through exampleParse exampleHookEnv "not json" exampleHookFS
    (Or.inl rfl)).2.1 rfl), (observe_passes_through exampleParse exampleHookEnv "not json"
      exampleHookFS (Or.inl rfl)).2.2⟩

theorem trimChars_isEmpty_cons (c : Char) (cs : List Char)
    (h : Observer.isJsWhiteSpace c = false) :
    (Observer.trimChars (c :: cs)).isEmpty = false := by
  unfold Observer.trimChars
  have h1 : (c :: cs).dropWhile Observer.isJsWhiteSpace = c :: cs := by
    simp [List.dropWhile, h]
  rw [h1]
  have h2 : ((c :: cs).reverse.dropWhile Observer.isJsWhiteSpace) ≠ [] := by
    intro hnil
    have hall := List.dropWhile_eq_nil_iff.1 hnil c (by simp)
    rw [h] at hall
    exact absurd hall (by decide)
  cases hr : ((c :: cs).reverse.dropWhile Observer.isJsWhiteSpace).reverse with
  | nil => exact absurd (List.reverse_eq_nil_iff.1 hr) h2
  | cons a l => rfl

/-- Claim C20, evaluated at the failing input. A payload of 1048576 letters `x` is no JSON.
With standard output a pipe that takes 146176 characters at once, the hook exits with
status 0 and the log untouched, but only the first 146176 of the 1048577 characters of
the payload and its newline arrive: `process.exit(0)` follows `console.log(data)` on
every path and drops what the pipe has queued. -/
theorem observe_cuts_piped_output :
    exampleParse exampleLongPayload = none
    ∧ (exampleLongPayload ++ "\n").length = 1048577
    ∧ (observe exampleParse examplePipeEnv exampleLongPayload exampleHookFS).stdout
        = String.mk (List.replicate 146176 'x')
    ∧ (observe exampleParse examplePipeEnv exampleLongPayload exampleHookFS).exitCode = 0
    ∧ (observe exampleParse examplePipeEnv exampleLongPayload exampleHookFS).fs.observations
        = exampleHookFS.observations := by
  have hrep : exampleLongPayload.data = 'x' :: List.replicate 1048575 'x' := by
    show List.replicate (1048575 + 1) 'x' = _
    rw [List.replicate_succ]
  have hparse : exampleParse exampleLongPayload = none := by
    unfold exampleParse
    rw [if_neg]
    intro h
    have h2 := congrArg (fun s : String => s.data.head?) h
    simp only [hrep, List.head?_cons] at h2
    exact absurd h2 (by decide)
  have htrim : (Observer.trimChars exampleLongPayload.data).isEmpty = false := by
    rw [hrep]
    exact trimChars_isEmpty_cons _ _ (by decide)
  have hdata : (exampleLongPayload ++ "\n").data = List.replicate 1048576 'x' ++ ['\n'] := by
    rw [String.data_append]
    rfl
  have hlen : (exampleLongPayload ++ "\n").length = 1048577 := by
    show (exampleLongPayload ++ "\n").data.length = 1048577
    rw [hdata, List.length_append, List.length_replicate]
    rfl
  have hall := observe_passes_through exampleParse examplePipeEnv exampleLongPayload
    exampleHookFS (Or.inl hparse)
  refine ⟨hparse, hlen, ?_, hall.2.2.2.2, hall.2.2.1⟩
  rw [hall.1]
  show String.mk ((exampleLongPayload ++ "\n").data.take 146176) = _
  rw [hdata, List.take_append_of_le_length (by rw [List.length_replicate]; decide),
    List.take_replicate]
  have hmin : min 146176 1048576 = 146176 := by decide
  rw [hmin]

end ObserveHook

/-! # Properties of the summary document -/

namespace Observer

theorem Dec.le_total (a b : Dec) : Dec.le a b = true ∨ Dec.le b a = true := by
  cases a <;> cases b <;> simp [Dec.le]
  exact Int.le_total _ _

theorem Dec.le_trans (a b c : Dec) (hab : Dec.le a b = true) (hbc : Dec.le b c = true) :
    Dec.le a c = true := by
  cases a <;> cases b <;> cases c <;> simp_all [Dec.le]
  rename_i x j y k z l
  have hj : (0 : Int) < 10 ^ j := by positivity
  have hk : (0 : Int) < 10 ^ k := by positivity
  have hl : (0 : Int) < 10 ^ l := by positivity
  have h1 : x * 10 ^ k * 10 ^ l ≤ y * 10 ^ j * 10 ^ l :=
    mul_le_mul_of_nonneg_right hab (le_of_lt hl)
  have h2 : y * 10 ^ l * 10 ^ j ≤ z * 10 ^ k * 10 ^ j :=
    mul_le_mul_of_nonneg_right hbc (le_of_lt hj)
  have h3 : x * 10 ^ l * 10 ^ k ≤ z * 10 ^ j * 10 ^ k := by nlinarith
  exact le_of_mul_le_mul_right h3 hk

/-- The sections of the summary, for a comparison that is total and transitive. -/
theorem summary_sections_aux {F : Type} (ops : NumOps F) (files : List (String × String))
    (htotal : ∀ a b : F, ops.le a b = true ∨ ops.le b a = true)
    (htrans : ∀ a b c : F, ops.le a b = true → ops.le b c = true → ops.le a c = true) :
    (applyThese ops files ++ considerThese ops files).Perm (collectInstincts ops files)
    ∧ (applyThese ops files).Sorted (moreConfident ops)
    ∧ (considerThese ops files).Sorted (moreConfident ops) := by
  haveI : IsTotal (Instinct F) (moreConfident ops) :=
    ⟨fun a b => htotal b.confidence a.confidence⟩
  haveI : IsTrans (Instinct F) (moreConfident ops) :=
    ⟨fun a b c hab hbc => htrans c.confidence b.confidence a.confidence hbc hab⟩
  have hsorted := List.sorted_insertionSort (moreConfident ops) (collectInstincts ops files)
  have hperm := List.perm_insertionSort (moreConfident ops) (collectInstincts ops files)
  refine ⟨?_, ?_, ?_⟩
  · exact (List.filter_append_perm _ _).trans hperm
  · exact List.Pairwise.filter _ hsorted
  · exact List.Pairwise.filter _ hsorted

/-- Claim C16. For every set of instinct files, with numbers compared by a total and
transitive order: the instincts that have an id are split between the arrays rendered as
"Apply These" and "Consider These" so that each appears exactly once; "Apply These" holds
exactly those with confidence `>= 0.7` and "Consider These" exactly those with confidence
`< 0.7`; within each section the instincts are in non-increasing order of confidence; and
the document is the header followed by the two sections rendered from these arrays. -/
theorem summary_sections {F : Type} (ops : NumOps F) (now : String)
    (files : List (String × String))
    (htotal : ∀ a b : F, ops.le a b = true ∨ ops.le b a = true)
    (htrans : ∀ a b c : F, ops.le a b = true → ops.le b c = true → ops.le a c = true) :
    (applyThese ops files ++ considerThese ops files).Perm (collectInstincts ops files)
    ∧ (∀ i, i ∈ applyThese ops files ↔
        i ∈ collectInstincts ops files ∧ ops.le ops.threshold i.confidence = true)
    ∧ (∀ i, i ∈ considerThese ops files ↔
        i ∈ collectInstincts ops files ∧ ops.le ops.threshold i.confidence = false)
    ∧ (applyThese ops files).Sorted (moreConfident ops)
    ∧ (considerThese ops files).Sorted (moreConfident ops)
    ∧ (collectInstincts ops files ≠ [] →
        instinctsSummary ops now files = some (String.intercalate "\n"
          (summaryLines ops now (collectInstincts ops files).length (applyThese ops files)
            (considerThese ops files)))) := by
  obtain ⟨hperm, hs1, hs2⟩ := summary_sections_aux ops files htotal htrans
  have hmem : ∀ i, i ∈ sortedInstincts ops files ↔ i ∈ collectInstincts ops files :=
    fun i => (List.perm_insertionSort (moreConfident ops) (collectInstincts ops files)).mem_iff
  refine ⟨hperm, ?_, ?_, hs1, hs2, ?_⟩
  · intro i
    simp only [applyThese, List.mem_filter, hmem]
  · intro i
    simp only [considerThese, List.mem_filter, hmem, Bool.not_eq_true']
  · intro hne
    have hlen : ¬ (collectInstincts ops files).length = 0 := by
      intro h
      exact hne (List.eq_nil_of_length_eq_zero h)
    simp only [instinctsSummary, hlen, if_false]

/-- Witness for C16: the sample files read with exact decimals. -/
theorem summary_sections_witness :
    (applyThese decimalOps exampleInstinctFiles).map (fun i => i.id)
        = ["run-tests", "small-commits"]
    ∧ (considerThese decimalOps exampleInstinctFiles).map (fun i => i.id)
        = ["prefer-grep", "never-seen"]
    ∧ (applyThese decimalOps exampleInstinctFiles
        ++ considerThese decimalOps exampleInstinctFiles).Perm
          (collectInstincts decimalOps exampleInstinctFiles)
    ∧ (applyThese decimalOps exampleInstinctFiles).Sorted (moreConfident decimalOps)
    ∧ (considerThese decimalOps exampleInstinctFiles).Sorted (moreConfident decimalOps) :=
  ⟨by decide, by decide,
   (summary_sections decimalOps "2025-01-15T10:00:00.000Z" exampleInstinctFiles
      Dec.le_total Dec.le_trans).1,
   (summary_sections decimalOps "2025-01-15T10:00:00.000Z" exampleInstinctFiles
      Dec.le_total Dec.le_trans).2.2.2.1,
   (summary_sections decimalOps "2025-01-15T10:00:00.000Z" exampleInstinctFiles
      Dec.le_total Dec.le_trans).2.2.2.2.1⟩

/-- Claim C17 (amended). For every instinct file that yields an instinct, the confidence
used for sorting and rendering is the number `parseFloat` reads from the `confidence` field
of the front matter whenever that number is not zero, and is `0.5` when the field is
missing or `parseFloat` gives `NaN`, and also when the number read is zero. -/
theorem confidence_or_default {F : Type} (ops : NumOps F) (content : String)
    (inst : Instinct F) (h : parseInstinct ops content = some inst) :
    (∀ x, ops.parseFloat (SessionAliases.getOwn (readFront content).meta "confidence") = some x →
        ops.isZero x = false → inst.confidence = x)
    ∧ (ops.parseFloat (SessionAliases.getOwn (readFront content).meta "confidence") = none →
        inst.confidence = ops.half)
    ∧ (∀ x, ops.parseFloat (SessionAliases.getOwn (readFront content).meta "confidence") = some x →
        ops.isZero x = true → inst.confidence = ops.half) := by
  unfold parseInstinct at h
  simp only at h
  split at h
  · simp at h
  · split at h
    · simp at h
    · simp only [Option.some.injEq] at h
      subst h
      refine ⟨?_, ?_, ?_⟩
      · intro x hx hz
        simp [confidenceOf, hx, hz]
      · intro hx
        simp [confidenceOf, hx]
      · intro x hx hz
        simp [confidenceOf, hx, hz]

/-- Witness for C17: a file with `confidence: 0.85`, read with exact decimals. -/
theorem confidence_or_default_witness :
    parseInstinct decimalOps (exampleInstinctFile "prefer-grep" "0.85")
        = some { id := "prefer-grep", trigger := some "when editing",
                 confidence := Dec.fin 85 2,
                 body := "# Title\n\n## Action\nUse the tool.\n\n## Evidence\n- seen" }
    ∧ decimalOps.parseFloat (SessionAliases.getOwn
          (readFront (exampleInstinctFile "prefer-grep" "0.85")).meta "confidence")
        = some (Dec.fin 85 2)
    ∧ (Dec.fin 85 2 : Dec) = Dec.fin 85 2 :=
  ⟨by decide, by decide,
   (confidence_or_default decimalOps (exampleInstinctFile "prefer-grep" "0.85")
      { id := "prefer-grep", trigger := some "when editing", confidence := Dec.fin 85 2,
        body := "# Title\n\n## Action\nUse the tool.\n\n## Evidence\n- seen" }
      (by decide)).1 (Dec.fin 85 2) (by decide) (by decide)⟩

/-- Counterexample to C17 as stated. The field `confidence: 0` is a valid number, zero, yet
the confidence used is `0.5`; and the field `confidence: 0.8abc` is not a number, yet the
confidence used is `0.8`, not `0.5`. -/
theorem confidence_zero_counterexample :
    (parseFloatDec (some "0") = some (Dec.fin 0 0)
      ∧ (parseInstinct decimalOps (exampleInstinctFile "never-seen" "0")).map
          (fun i => i.confidence) = some (Dec.fin 5 1))
    ∧ (parseInstinct decimalOps (exampleInstinctFile "prefer-grep" "0.8abc")).map
          (fun i => i.confidence) = some (Dec.fin 8 1) := by
  decide

end Observer
/-! # Properties of alias validation, creation, renaming and listing -/

namespace SessionAliases

theorem toLower_of_lowerLetter (c d : Char) (hd : isLowerLetter d = true)
    (h : (c == d || c == d.toUpper) = true) : c.toLower = d := by
  have hd2 : d = Char.ofNat d.toNat := (Char.ofNat_toNat d).symm
  simp only [isLowerLetter, Bool.and_eq_true, decide_eq_true_eq] at hd
  obtain ⟨h1, h2⟩ := hd
  generalize d.toNat = n at hd2 h1 h2
  subst hd2
  simp only [Bool.or_eq_true, beq_iff_eq] at h
  interval_cases n <;> rcases h with h | h <;> subst h <;> decide

theorem map_toLower_of_inAnyLetterCase : ∀ (cs ds : List Char),
    (ds.all isLowerLetter = true) → inAnyLetterCase cs ds = true → cs.map Char.toLower = ds
  | [], [], _, _ => rfl
  | [], _ :: _, _, h => by simp [inAnyLetterCase] at h
  | _ :: _, [], _, h => by simp [inAnyLetterCase] at h
  | c :: cs, d :: ds, hall, h => by
    simp only [List.all_cons, Bool.and_eq_true] at hall
    simp only [inAnyLetterCase, Bool.and_eq_true] at h
    simp only [List.map_cons]
    rw [toLower_of_lowerLetter c d hall.1 h.1, map_toLower_of_inAnyLetterCase cs ds hall.2 h.2]

theorem reserved_lower : ∀ w ∈ reserved, w.data.all isLowerLetter = true := by decide

/-- Claim C21. For every name that is empty, contains a character outside `[a-zA-Z0-9_-]`,
or is a reserved word written in any letter case, and for every store, session path and
title: `setAlias` returns a `success: false` result with an error text, raises nothing, and
leaves every file of the store as it was. -/
theorem setAlias_rejects_invalid_name (fs : AliasFS) (env : Env) (aliasName sessionPath : String)
    (title : Option String)
    (h : aliasName.data = [] ∨ (∃ c ∈ aliasName.data, isAliasChar c = false)
      ∨ ∃ w ∈ reserved, inAnyLetterCase aliasName.data w.data = true) :
    ∃ error, setAlias fs env aliasName sessionPath title = (Outcome.failure error, fs) := by
  unfold setAlias
  by_cases h1 : aliasName.data.isEmpty = true
  · exact ⟨_, by rw [if_pos h1]⟩
  rw [if_neg h1]
  by_cases h2 : validAliasName aliasName = true
  swap
  · exact ⟨_, by rw [if_pos (by simpa using h2)]⟩
  rw [if_neg (by simpa using h2)]
  rcases h with h | h | h
  · exact absurd (by simp [h]) h1
  · obtain ⟨c, hc, hbad⟩ := h
    simp only [validAliasName, Bool.and_eq_true, List.all_eq_true] at h2
    have := h2.2 c hc
    rw [hbad] at this
    exact absurd this (by decide)
  · obtain ⟨w, hw, hcase⟩ := h
    have hlow := map_toLower_of_inAnyLetterCase _ _ (reserved_lower w hw) hcase
    have : toLowerCase aliasName = w := by
      unfold toLowerCase
      rw [hlow]
    exact ⟨_, by rw [if_pos (by rw [this]; simpa using hw)]⟩

/-- Witness for C21: the reserved word `help` written as `HeLp`. -/
theorem setAlias_rejects_invalid_name_witness :
    (∃ w ∈ reserved, inAnyLetterCase "HeLp".data w.data = true)
    ∧ ∃ error, setAlias exampleStore exampleEnv "HeLp" "/sessions/c.tmp" (some "Review")
        = (Outcome.failure error, exampleStore) :=
  ⟨⟨"help", by decide, by decide⟩,
   setAlias_rejects_invalid_name exampleStore exampleEnv "HeLp" "/sessions/c.tmp" (some "Review")
    (Or.inr (Or.inr ⟨"help", by decide, by decide⟩))⟩

theorem getOwn_replaceOwn_other {β : Type} (o : List (String × β)) (k k2 : String) (v : β)
    (h : k2 ≠ k) : getOwn (replaceOwn o k v) k2 = getOwn o k2 := by
  induction o with
  | nil => rfl
  | cons e rest ih =>
    obtain ⟨k3, v3⟩ := e
    unfold replaceOwn
    by_cases hk : k3 = k
    · subst hk
      simp only [if_true, getOwn, if_neg (Ne.symm h)]
    · simp only [if_neg hk, getOwn, ih]

theorem getOwn_insertOwn_other {β : Type} (o : List (String × β)) (k k2 : String) (v : β)
    (h : k2 ≠ k) : getOwn (insertOwn o k v) k2 = getOwn o k2 := by
  induction o with
  | nil => simp [insertOwn, getOwn, Ne.symm h]
  | cons e rest ih =>
    obtain ⟨k3, v3⟩ := e
    unfold insertOwn
    by_cases hb : ownBefore k k3 = true
    · simp only [if_pos hb, getOwn, if_neg (Ne.symm h)]
    · simp only [if_neg hb, getOwn, ih]

theorem getOwn_jsSet_other (o : List (String × JsVal)) (k k2 : String) (v : JsVal)
    (h : k2 ≠ k) : getOwn (jsSet o k v) k2 = getOwn o k2 := by
  unfold jsSet
  split_ifs
  · exact getOwn_replaceOwn_other o k k2 v h
  · rfl
  · exact getOwn_insertOwn_other o k k2 v h

/-- What a successful `setAlias` returns and stores. -/
theorem setAlias_success_detail (fs : AliasFS) (env : Env) (now : String)
    (aliasName sessionPath : String) (title : Option String)
    (hok : (setAlias fs env aliasName sessionPath title).1.isSuccess = true) :
    (setAlias fs env aliasName sessionPath title).1
        = Outcome.success { isNew := (jsTruthy (loadAliases fs env.clock.loaded).aliases aliasName).isNone,
                            aliasName := aliasName, sessionPath := sessionPath,
                            title := orNull title }
    ∧ (loadAliases (setAlias fs env aliasName sessionPath title).2 now).aliases
        = jsSet (loadAliases fs env.clock.loaded).aliases aliasName (JsVal.record
            { sessionPath := some sessionPath,
              createdAt := match jsTruthy (loadAliases fs env.clock.loaded).aliases aliasName with
                | some e => e.createdAt
                | none => some env.clock.created,
              updatedAt := some env.clock.updated,
              title := orNull title }) := by
  unfold setAlias at hok ⊢
  by_cases h1 : aliasName.data.isEmpty = true
  · simp [h1, Outcome.isSuccess] at hok
  by_cases h2 : validAliasName aliasName = true
  swap
  · simp [h1, h2, Outcome.isSuccess] at hok
  by_cases h3 : reserved.contains (toLowerCase aliasName) = true
  · simp only [h1, h2, h3, Bool.false_eq_true, if_false, Bool.not_true, if_true,
      Outcome.isSuccess] at hok
  simp only [h1, h2, h3, Bool.false_eq_true, if_false, Bool.not_true] at hok ⊢
  have hwf := loadAliases_wf fs env.clock.loaded
  generalize hs : saveAliases fs env.faults env.clock.saved _ = res at hok ⊢
  obtain ⟨out, fs2⟩ := res
  cases out with
  | failed => simp [Outcome.isSuccess] at hok
  | raised => simp [Outcome.isSuccess] at hok
  | saved =>
    have hsaved := congrArg Prod.fst hs
    simp only at hsaved
    have hload := loadAliases_after_save fs env.faults env.clock.saved now _ hsaved
      (canonicalKeys_jsSet _ _ _ hwf.1)
      (noFunction_jsSet _ _ _ (fun h => JsVal.noConfusion h) hwf.2)
    rw [hs] at hload
    exact ⟨rfl, hload⟩

theorem getOwn_jsSet_self (o : List (String × JsVal)) (k : String) (v : JsVal)
    (hk : k ≠ "__proto__") : getOwn (jsSet o k v) k = some v := by
  unfold jsSet
  cases h : getOwn o k with
  | some w =>
    simp only [Option.isSome_some, if_true]
    exact getOwn_replaceOwn_self o k v (by simp [h])
  | none =>
    simp only [Option.isSome_none, Bool.false_eq_true, if_false, hk]
    exact getOwn_insertOwn_self o k v h

theorem mem_of_getOwn {β : Type} (o : List (String × β)) (k : String) (v : β)
    (h : getOwn o k = some v) : (k, v) ∈ o := by
  induction o with
  | nil => simp [getOwn] at h
  | cons e rest ih =>
    obtain ⟨k3, v3⟩ := e
    unfold getOwn at h
    by_cases hk : k3 = k
    · simp only [if_pos hk, Option.some.injEq] at h
      subst hk; subst h
      exact List.mem_cons_self _ _
    · rw [if_neg hk] at h
      exact List.mem_cons_of_mem _ (ih h)

/-- In an object of records, a key that `Object.prototype` does not define is found
truthy exactly when it is an own key. -/
theorem jsTruthy_eq_getOwn (o : List (String × JsVal)) (k : String)
    (hplain : inherited k = none) (hrec : AllRecords o) : jsTruthy o k = getOwn o k := by
  unfold jsTruthy jsGet
  cases h : getOwn o k with
  | none => simp [hplain]
  | some v =>
    obtain ⟨r, hr⟩ := hrec (k, v) (mem_of_getOwn o k v h)
    simp only at hr
    subst hr
    rfl

/-- In an object of records every value a property read finds is truthy: own records,
the inherited built-ins, and the prototype itself. -/
theorem jsTruthy_eq_jsGet (o : List (String × JsVal)) (k : String)
    (hrec : AllRecords o) : jsTruthy o k = jsGet o k := by
  unfold jsTruthy
  cases hget : jsGet o k with
  | none => rfl
  | some v =>
    have hv : v.truthy = true := by
      unfold jsGet at hget
      cases h : getOwn o k with
      | some w =>
        rw [h] at hget
        obtain ⟨r, hr⟩ := hrec (k, w) (mem_of_getOwn o k w h)
        simp only at hr
        simp only [Option.some.injEq] at hget
        rw [← hget, hr]
        rfl
      | none =>
        rw [h] at hget
        simp only at hget
        unfold inherited at hget
        split_ifs at hget
        · simp only [Option.some.injEq] at hget
          rw [← hget]; rfl
        · simp only [Option.some.injEq] at hget
          rw [← hget]; rfl
    simp only [hv, if_true]

/-- For a store of alias records and a name that `Object.prototype` does not define, a
successful `setAlias` reports `isNew = true` exactly when the name was no key of the
store; an existing record keeps its `createdAt`; and every other key holds what it
held. -/
theorem setAlias_create_or_update (fs : AliasFS) (env : Env)
    (aliasName sessionPath : String) (title : Option String)
    (hplain : inherited aliasName = none) (hrec : AllRecords (storedAliases fs))
    (hok : (setAlias fs env aliasName sessionPath title).1.isSuccess = true) :
    (∃ r, (setAlias fs env aliasName sessionPath title).1 = Outcome.success r
        ∧ (r.isNew = true ↔ aliasName ∉ objectKeys (storedAliases fs)))
    ∧ (∀ old, getOwn (storedAliases fs) aliasName = some old →
        ∃ new, getOwn (storedAliases (setAlias fs env aliasName sessionPath title).2) aliasName
            = some new ∧ new.createdAt = old.createdAt)
    ∧ (∀ k, k ≠ aliasName →
        getOwn (storedAliases (setAlias fs env aliasName sessionPath title).2) k
          = getOwn (storedAliases fs) k) := by
  obtain ⟨hres, hstore⟩ := setAlias_success_detail fs env "" aliasName sessionPath title hok
  have hload : (loadAliases fs env.clock.loaded).aliases = storedAliases fs :=
    loadAliases_aliases_now fs _ _
  have hproto : aliasName ≠ "__proto__" := by
    intro h
    rw [h] at hplain
    simp [inherited] at hplain
  rw [hload] at hres hstore
  have hget : jsTruthy (storedAliases fs) aliasName = getOwn (storedAliases fs) aliasName :=
    jsTruthy_eq_getOwn _ _ hplain hrec
  refine ⟨⟨_, hres, ?_⟩, ?_, ?_⟩
  · simp only [hget, Option.isNone_iff_eq_none]
    exact getOwn_eq_none_iff _ _
  · intro old hold
    unfold storedAliases at hstore ⊢
    rw [hstore, getOwn_jsSet_self _ _ _ hproto]
    refine ⟨_, rfl, ?_⟩
    have : jsTruthy (loadAliases fs "").aliases aliasName = some old := by
      rw [← hold]; exact hget
    simp only [JsVal.createdAt, this]
  · intro k hk
    unfold storedAliases at hstore ⊢
    rw [hstore]
    exact getOwn_jsSet_other _ _ _ _ hk

/-- Claim C27, evaluated at the failing input. The name `constructor` matches the pattern,
is not reserved and is no key of the sample store, yet `setAlias("constructor", ...)`
succeeds with `isNew = false`: the lookup `data.aliases[alias]` finds the built-in
inherited from `Object.prototype`.  The record it stores has no `createdAt`. -/
theorem setAlias_inherited_name_not_new :
    validAliasName "constructor" = true
    ∧ "constructor" ∉ objectKeys (storedAliases exampleStore)
    ∧ (setAlias exampleStore exampleEnv "constructor" "/sessions/c.tmp" (some "Review")).1
        = Outcome.success { isNew := false, aliasName := "constructor",
                            sessionPath := "/sessions/c.tmp", title := some "Review" }
    ∧ getOwn (storedAliases
          (setAlias exampleStore exampleEnv "constructor" "/sessions/c.tmp" (some "Review")).2)
        "constructor"
        = some (JsVal.record { sessionPath := some "/sessions/c.tmp", createdAt := none,
                               updatedAt := some exampleClock.updated, title := some "Review" }) := by
  decide

/-- Two runs on the sample store: an update of `work` and a creation of `review`. -/
theorem setAlias_create_or_update_example :
    (setAlias exampleStore exampleEnv "work" "/sessions/c.tmp" none).1
        = Outcome.success { isNew := false, aliasName := "work",
                            sessionPath := "/sessions/c.tmp", title := none }
    ∧ (setAlias exampleStore exampleEnv "review" "/sessions/c.tmp" none).1
        = Outcome.success { isNew := true, aliasName := "review",
                            sessionPath := "/sessions/c.tmp", title := none } := by
  decide

theorem getOwn_deleteOwn_self {β : Type} (o : List (String × β)) (k : String) :
    getOwn (deleteOwn o k) k = none := by
  rw [getOwn_eq_none_iff]
  unfold deleteOwn objectKeys
  intro h
  obtain ⟨e, he, hk⟩ := List.mem_map.1 h
  have := (List.mem_filter.1 he).2
  simp [hk] at this

theorem getOwn_deleteOwn_other {β : Type} (o : List (String × β)) (k k2 : String)
    (h : k2 ≠ k) : getOwn (deleteOwn o k) k2 = getOwn o k2 := by
  induction o with
  | nil => rfl
  | cons e rest ih =>
    obtain ⟨k3, v3⟩ := e
    unfold deleteOwn at ih ⊢
    by_cases hk : k3 = k
    · subst hk
      simp only [List.filter_cons, decide_True, Bool.not_true, Bool.false_eq_true, if_false,
        getOwn, if_neg (Ne.symm h)]
      exact ih
    · simp only [List.filter_cons, hk, decide_False, Bool.not_false, if_true, getOwn]
      rw [ih]

theorem length_deleteOwn {β : Type} (o : List (String × β)) (k : String) (v : β)
    (hc : CanonicalKeys (objectKeys o)) (h : getOwn o k = some v) :
    (deleteOwn o k).length + 1 = o.length := by
  induction o with
  | nil => simp [getOwn] at h
  | cons e rest ih =>
    obtain ⟨k3, v3⟩ := e
    unfold CanonicalKeys objectKeys at hc
    simp only [List.map_cons, List.pairwise_cons] at hc
    unfold deleteOwn at ih ⊢
    by_cases hk : k3 = k
    · subst hk
      have hnot : ∀ e ∈ rest, (!decide (e.1 = k3)) = true := by
        intro e he
        have := (hc.1 e.1 (List.mem_map_of_mem _ he)).1
        simpa using fun h => this h.symm
      simp only [List.filter_cons, decide_True, Bool.not_true, Bool.false_eq_true, if_false,
        List.length_cons, add_left_inj]
      rw [List.filter_eq_self.2 hnot]
    · unfold getOwn at h
      rw [if_neg hk] at h
      simp only [List.filter_cons, hk, decide_False, Bool.not_false, if_true, List.length_cons,
        add_left_inj]
      exact ih hc.2 h

theorem length_insertOwn {β : Type} (o : List (String × β)) (k : String) (v : β) :
    (insertOwn o k v).length = o.length + 1 := by
  induction o with
  | nil => rfl
  | cons e rest ih =>
    obtain ⟨k3, v3⟩ := e
    unfold insertOwn
    split_ifs
    · rfl
    · simp [ih]

/-- What a successful `renameAlias` stores when the old name is a name that
`Object.prototype` does not define: the old name was a key holding a record, the new name
was no key, and the stored object is the previous one with the old key deleted and the
record, with a fresh `updatedAt`, created under the new name. -/
theorem renameAlias_success_store (fs : AliasFS) (env : Env) (oldAlias newAlias : String)
    (hplain : inherited oldAlias = none) (hrec : AllRecords (storedAliases fs))
    (hok : (renameAlias fs env oldAlias newAlias).1.isSuccess = true) :
    ∃ r : AliasInfo, getOwn (storedAliases fs) oldAlias = some (JsVal.record r)
      ∧ getOwn (storedAliases fs) newAlias = none
      ∧ storedAliases (renameAlias fs env oldAlias newAlias).2
          = insertOwn (deleteOwn (storedAliases fs) oldAlias) newAlias
              (JsVal.record { r with updatedAt := some env.clock.updated }) := by
  have hload : (loadAliases fs env.clock.loaded).aliases = storedAliases fs :=
    loadAliases_aliases_now fs _ _
  have hwf := loadAliases_wf fs ""
  unfold renameAlias at hok ⊢
  simp only [hload, jsTruthy_eq_jsGet _ _ hrec] at hok ⊢
  cases hget : jsGet (storedAliases fs) oldAlias with
  | none => simp [hget, Outcome.isSuccess] at hok
  | some aliasData =>
    simp only [hget] at hok ⊢
    have hown : getOwn (storedAliases fs) oldAlias = some aliasData := by
      unfold jsGet at hget
      cases h : getOwn (storedAliases fs) oldAlias with
      | some v => rw [h] at hget; exact hget
      | none => rw [h] at hget; simp only at hget; rw [hplain] at hget; exact absurd hget (by simp)
    obtain ⟨r, hr⟩ := hrec _ (mem_of_getOwn _ _ _ hown)
    simp only at hr
    subst hr
    by_cases hnew : (jsGet (storedAliases fs) newAlias).isSome = true
    · simp [hnew, Outcome.isSuccess] at hok
    by_cases hvalid : validAliasName newAlias = true
    swap
    · simp [hnew, hvalid, Outcome.isSuccess] at hok
    simp only [hnew, hvalid, Bool.false_eq_true, if_false, Bool.not_true] at hok ⊢
    have hnone : jsGet (storedAliases fs) newAlias = none := by
      cases h : jsGet (storedAliases fs) newAlias with
      | none => rfl
      | some v => rw [h] at hnew; simp at hnew
    have hnewOwn : getOwn (storedAliases fs) newAlias = none := by
      unfold jsGet at hnone
      cases h : getOwn (storedAliases fs) newAlias with
      | none => rfl
      | some v => rw [h] at hnone; simp at hnone
    have hproto : newAlias ≠ "__proto__" := by
      intro h
      rw [h] at hnone
      unfold jsGet at hnone
      cases h2 : getOwn (storedAliases fs) "__proto__" with
      | none => rw [h2] at hnone; simp [inherited] at hnone
      | some v => rw [h2] at hnone; simp at hnone
    have hne : newAlias ≠ oldAlias := by
      intro h
      rw [h, hown] at hnewOwn
      simp at hnewOwn
    have hdel : getOwn (deleteOwn (storedAliases fs) oldAlias) newAlias = none := by
      rw [getOwn_deleteOwn_other _ _ _ hne]; exact hnewOwn
    have hset : jsSet (deleteOwn (storedAliases fs) oldAlias) newAlias
          (JsVal.record { r with updatedAt := some env.clock.updated })
        = insertOwn (deleteOwn (storedAliases fs) oldAlias) newAlias
          (JsVal.record { r with updatedAt := some env.clock.updated }) := by
      unfold jsSet
      simp [hdel, hproto]
    refine ⟨r, hown, hnewOwn, ?_⟩
    simp only [JsVal.withUpdatedAt] at hok ⊢
    generalize hs : saveAliases fs env.faults env.clock.saved _ = res at hok ⊢
    obtain ⟨out, fs2⟩ := res
    cases out with
    | failed => simp [Outcome.isSuccess] at hok
    | raised => simp [Outcome.isSuccess] at hok
    | saved =>
      have hsaved := congrArg Prod.fst hs
      simp only at hsaved
      have hload2 := loadAliases_after_save fs env.faults env.clock.saved "" _ hsaved
        (canonicalKeys_jsSet _ newAlias (JsVal.record { r with updatedAt := some env.clock.updated })
          (canonicalKeys_filter _ _ hwf.1))
        (noFunction_jsSet _ newAlias (JsVal.record { r with updatedAt := some env.clock.updated })
          (by simp) (noFunction_filter _ _ hwf.2))
      rw [hs] at hload2
      simp only [storedAliases]
      simp only [storedAliases, deleteOwn] at hset
      simp only [deleteOwn]
      rw [← hset]
      exact hload2

/-- For an old name that `Object.prototype` does not define, `renameAlias` fails and
leaves the store as it was when the old name is no key or the new name is a key. -/
theorem renameAlias_refuses (fs : AliasFS) (env : Env) (oldAlias newAlias : String)
    (hplain : inherited oldAlias = none) (hrec : AllRecords (storedAliases fs))
    (h : oldAlias ∉ objectKeys (storedAliases fs) ∨ newAlias ∈ objectKeys (storedAliases fs)) :
    ∃ error, renameAlias fs env oldAlias newAlias = (Outcome.failure error, fs) := by
  have hload : (loadAliases fs env.clock.loaded).aliases = storedAliases fs :=
    loadAliases_aliases_now fs _ _
  unfold renameAlias
  simp only [hload, jsTruthy_eq_jsGet _ _ hrec]
  cases hget : jsGet (storedAliases fs) oldAlias with
  | none => exact ⟨_, rfl⟩
  | some aliasData =>
    simp only
    rcases h with h | h
    · rw [← getOwn_eq_none_iff] at h
      unfold jsGet at hget
      rw [h] at hget
      simp only at hget
      rw [hplain] at hget
      exact absurd hget (by simp)
    · have hnew : (jsGet (storedAliases fs) newAlias).isSome = true := by
        unfold jsGet
        cases h2 : getOwn (storedAliases fs) newAlias with
        | some v => rfl
        | none => exact absurd ((getOwn_eq_none_iff _ _).1 h2) (not_not.2 h)
      exact ⟨_, by rw [if_pos hnew]⟩

/-- For an old name that `Object.prototype` does not define, a successful `renameAlias`
leaves the record of the old name, with its `sessionPath`, `createdAt` and `title`, under
the new name, removes the old key, keeps every other key, and keeps the number of keys. -/
theorem renameAlias_effect (fs : AliasFS) (env : Env) (oldAlias newAlias : String)
    (hplain : inherited oldAlias = none) (hrec : AllRecords (storedAliases fs))
    (hok : (renameAlias fs env oldAlias newAlias).1.isSuccess = true) :
    (∃ r r2 : AliasInfo, getOwn (storedAliases fs) oldAlias = some (JsVal.record r)
      ∧ getOwn (storedAliases (renameAlias fs env oldAlias newAlias).2) newAlias
          = some (JsVal.record r2)
      ∧ r2.sessionPath = r.sessionPath ∧ r2.createdAt = r.createdAt ∧ r2.title = r.title)
    ∧ oldAlias ∉ objectKeys (storedAliases (renameAlias fs env oldAlias newAlias).2)
    ∧ (∀ k, k ≠ oldAlias → k ≠ newAlias →
        getOwn (storedAliases (renameAlias fs env oldAlias newAlias).2) k
          = getOwn (storedAliases fs) k)
    ∧ (objectKeys (storedAliases (renameAlias fs env oldAlias newAlias).2)).length
        = (objectKeys (storedAliases fs)).length := by
  obtain ⟨r, hold, hnew, hstore⟩ := renameAlias_success_store fs env oldAlias newAlias hplain hrec hok
  have hwf := loadAliases_wf fs ""
  have hne : oldAlias ≠ newAlias := by
    intro h
    rw [h, hnew] at hold
    simp at hold
  have hdel : getOwn (deleteOwn (storedAliases fs) oldAlias) newAlias = none := by
    rw [getOwn_deleteOwn_other _ _ _ (Ne.symm hne)]; exact hnew
  rw [hstore]
  refine ⟨⟨r, _, hold, getOwn_insertOwn_self _ _ _ hdel, rfl, rfl, rfl⟩, ?_, ?_, ?_⟩
  · rw [← getOwn_eq_none_iff, getOwn_insertOwn_other _ _ _ _ hne]
    exact getOwn_deleteOwn_self _ _
  · intro k h1 h2
    rw [getOwn_insertOwn_other _ _ _ _ h2, getOwn_deleteOwn_other _ _ _ h1]
  · unfold objectKeys
    rw [List.length_map, List.length_map, length_insertOwn]
    exact length_deleteOwn _ _ _ hwf.1 hold

/-- Claim C28, evaluated at the failing input. Neither `constructor` nor `__proto__` is a
key of the sample store, whose keys are `work` and `gone`.  `renameAlias("constructor",
"review")` finds the inherited built-in and reports success; nothing is stored, since a
function is left out of the JSON text.  `renameAlias("__proto__", "review")` finds
`Object.prototype`, reports success, and stores a third alias `review` whose record has
only `updatedAt`. -/
theorem renameAlias_absent_old_name_succeeds :
    objectKeys (storedAliases exampleStore) = ["work", "gone"]
    ∧ (renameAlias exampleStore exampleEnv "constructor" "review").1
        = Outcome.success { oldAlias := "constructor", newAlias := "review",
                            sessionPath := none }
    ∧ storedAliases (renameAlias exampleStore exampleEnv "constructor" "review").2
        = storedAliases exampleStore
    ∧ (renameAlias exampleStore exampleEnv "__proto__" "review").1
        = Outcome.success { oldAlias := "__proto__", newAlias := "review",
                            sessionPath := none }
    ∧ storedAliases (renameAlias exampleStore exampleEnv "__proto__" "review").2
        = storedAliases exampleStore ++
            [("review", JsVal.record { sessionPath := none, createdAt := none,
                                       updatedAt := some exampleClock.updated,
                                       title := none })] := by
  decide

/-- Both aliases of the sample store are records. -/
theorem allRecords_exampleStore : AllRecords (storedAliases exampleStore) := by
  have h : storedAliases exampleStore = embed exampleDoc.aliases := by decide
  intro e he
  rw [h] at he
  simp only [embed, exampleDoc, List.map_cons, List.map_nil, List.mem_cons,
    List.mem_singleton, List.not_mem_nil, or_false] at he
  rcases he with rfl | rfl <;> exact ⟨_, rfl⟩

/-- Runs on the sample store: a rename of `work`, and a rename of `work` to itself. -/
theorem renameAlias_effect_example :
    (renameAlias exampleStore exampleEnv "work" "review").1.isSuccess = true
    ∧ objectKeys (storedAliases (renameAlias exampleStore exampleEnv "work" "review").2)
        = ["gone", "review"]
    ∧ (∃ error, renameAlias exampleStore exampleEnv "work" "work"
        = (Outcome.failure error, exampleStore)) :=
  ⟨by decide, by decide,
    renameAlias_refuses exampleStore exampleEnv "work" "work" (by decide)
      allRecords_exampleStore (Or.inr (by decide))⟩

theorem orderedInsert_congr {α : Type} (r r2 : α → α → Prop) [DecidableRel r] [DecidableRel r2]
    (a : α) (l : List α) (h : ∀ b ∈ l, (r a b ↔ r2 a b)) :
    l.orderedInsert r a = l.orderedInsert r2 a := by
  induction l with
  | nil => rfl
  | cons b rest ih =>
    have hb := h b (List.mem_cons_self _ _)
    simp only [List.orderedInsert]
    by_cases hr : r a b
    · rw [if_pos hr, if_pos (hb.1 hr)]
    · rw [if_neg hr, if_neg (fun h2 => hr (hb.2 h2)),
        ih (fun c hc => h c (List.mem_cons_of_mem _ hc))]

theorem insertionSort_congr {α : Type} (r r2 : α → α → Prop) [DecidableRel r] [DecidableRel r2]
    (l : List α) (h : ∀ a ∈ l, ∀ b ∈ l, (r a b ↔ r2 a b)) :
    l.insertionSort r = l.insertionSort r2 := by
  induction l with
  | nil => rfl
  | cons a rest ih =>
    simp only [List.insertionSort]
    rw [ih (fun x hx y hy => h x (List.mem_cons_of_mem _ hx) y (List.mem_cons_of_mem _ hy))]
    apply orderedInsert_congr
    intro b hb
    have hb2 : b ∈ rest := (List.perm_insertionSort r2 rest).subset hb
    exact h a (List.mem_cons_self _ _) b (List.mem_cons_of_mem _ hb2)

/-- The time value used as a sort key, with zero for an invalid date. -/
theorem moreRecent_iff_key (dateValue : String → Option Int) (a b : AliasEntry)
    (ha : (a.time dateValue).isSome = true) (hb : (b.time dateValue).isSome = true) :
    moreRecent dateValue a b ↔ (b.time dateValue).getD 0 ≤ (a.time dateValue).getD 0 := by
  unfold moreRecent
  obtain ⟨ta, hta⟩ := Option.isSome_iff_exists.1 ha
  obtain ⟨tb, htb⟩ := Option.isSome_iff_exists.1 hb
  rw [hta, htb]
  rfl

theorem atLeastAsRecent_iff_key (dateValue : String → Option Int) (a b : AliasEntry)
    (ha : (a.time dateValue).isSome = true) (hb : (b.time dateValue).isSome = true) :
    atLeastAsRecent dateValue a b ↔ (b.time dateValue).getD 0 ≤ (a.time dateValue).getD 0 := by
  unfold atLeastAsRecent
  obtain ⟨ta, hta⟩ := Option.isSome_iff_exists.1 ha
  obtain ⟨tb, htb⟩ := Option.isSome_iff_exists.1 hb
  rw [hta, htb]
  simp

theorem includes_empty_left (sub : String) :
    SessionManager.includes "" sub = true → ∀ s, SessionManager.includes s sub = true := by
  intro h s
  simp only [SessionManager.includes, List.any_eq_true] at h ⊢
  obtain ⟨t, ht, hp⟩ := h
  simp only [List.tails, List.mem_singleton] at ht
  subst ht
  have : sub.data = [] := by
    cases hs : sub.data with
    | nil => rfl
    | cons c cs => rw [hs] at hp; simp [List.isPrefixOf] at hp
  refine ⟨s.data, ?_, ?_⟩
  · cases s.data <;> simp [List.tails]
  · rw [this]; cases s.data <;> rfl

theorem searchHit_eq_passesSearch (lower : String → String) (s : String) (hs : s ≠ "")
    (hlower : lower "" = "") (a : AliasEntry) :
    searchHit lower (lower s) a = passesSearch lower (some s) a := by
  unfold searchHit passesSearch
  simp only [if_neg hs]
  cases ht : a.title with
  | none => rfl
  | some t =>
    simp only
    by_cases hempty : t.data.isEmpty = true
    · have ht2 : t = "" := by
        apply String.ext
        cases h : t.data with
        | nil => rfl
        | cons c cs => rw [h] at hempty; simp at hempty
      subst ht2
      rw [hlower]
      simp only [hempty, Bool.not_true, Bool.false_and, Bool.or_false]
      cases hinc : SessionManager.includes "" (lower s) with
      | false => simp
      | true => simp [includes_empty_left _ hinc]
    · simp [hempty]

theorem found_eq_filter (lower : String → String) (search : Option String)
    (hlower : lower "" = "") (sorted : List AliasEntry) :
    (match search with
      | some s => if s = "" then sorted else sorted.filter (searchHit lower (lower s))
      | none => sorted) = sorted.filter (passesSearch lower search) := by
  cases search with
  | none =>
    symm
    exact List.filter_eq_self.2 (fun a _ => rfl)
  | some s =>
    by_cases hs : s = ""
    · subst hs
      symm
      exact List.filter_eq_self.2 (fun a _ => rfl)
    · simp only [if_neg hs]
      apply List.filter_congr
      intro a _
      exact searchHit_eq_passesSearch lower s hs hlower a

theorem entryFields_null_time (dateValue : String → Option Int) (e : String × JsVal)
    (h : e.2 = JsVal.null) : (entryFields e).time dateValue = none := by
  obtain ⟨k, v⟩ := e
  simp only at h
  subst h
  rfl

/-- Without a `null` among the values the callback of `map` never raises, and the array is
the list of the entries. -/
theorem aliasEntries_of_noNull (o : List (String × JsVal)) (h : NoNull o) :
    aliasEntries o = some (o.map entryFields) := by
  induction o with
  | nil => rfl
  | cons e rest ih =>
    have he : e.2 ≠ JsVal.null := h e (List.mem_cons_self _ _)
    have hrest : NoNull rest := fun x hx => h x (List.mem_cons_of_mem _ hx)
    unfold aliasEntries entryOf
    rw [if_neg he, ih hrest]
    rfl

/-- A store in which every entry has a valid date holds no `null`. -/
theorem noNull_of_dated (fs : AliasFS) (dateValue : String → Option Int)
    (hdates : ∀ a ∈ storedEntries fs, (a.time dateValue).isSome = true) :
    NoNull (storedAliases fs) := by
  intro e he hnull
  have hmem : entryFields e ∈ storedEntries fs := List.mem_map_of_mem _ he
  have := hdates _ hmem
  rw [entryFields_null_time dateValue e hnull] at this
  simp at this

/-- Claim C26 (amended). For every store whose alias values are not `null` and each carry a
valid date (`updatedAt`, or `createdAt` when `updatedAt` is absent), and every search
string and limit: `listAliases` returns an array, its entries in non-increasing order of
recency; every entry returned passes the search filter, that is, its name or its title
contains the search string with letter case ignored; the entries returned together with
some others, none of which is more recent than an entry returned, are exactly the entries
of the store that pass the filter; and with a positive limit `n` the number returned is
`n`, or the number of passing entries when that is smaller, while without one all passing
entries are returned.  Here `dateValue` is the time value of `new Date(s)` and `lower` is
`toLowerCase`, which maps the empty string to itself. -/
theorem listAliases_recent_first (fs : AliasFS) (now : String) (dateValue : String → Option Int)
    (lower : String → String) (search : Option String) (limit : Option Int)
    (hdates : ∀ a ∈ storedEntries fs, (a.time dateValue).isSome = true)
    (hlower : lower "" = "") :
    ∃ result, listAliases fs now dateValue lower search limit = some result
      ∧ result.Pairwise (atLeastAsRecent dateValue)
      ∧ (∀ a ∈ result, passesSearch lower search a = true)
      ∧ (∃ rest, (result ++ rest).Perm (passingEntries fs lower search)
          ∧ ∀ a ∈ result, ∀ b ∈ rest, atLeastAsRecent dateValue a b)
      ∧ result.length
          = (match limit with
             | some n => if 0 < n then min n.toNat (passingEntries fs lower search).length
                         else (passingEntries fs lower search).length
             | none => (passingEntries fs lower search).length) := by
  have hload : (loadAliases fs now).aliases = storedAliases fs := loadAliases_aliases_now fs _ _
  have hentries : aliasEntries (storedAliases fs) = some (storedEntries fs) :=
    aliasEntries_of_noNull _ (noNull_of_dated fs dateValue hdates)
  let key : AliasEntry → Int := fun a => (a.time dateValue).getD 0
  let byKey : AliasEntry → AliasEntry → Prop := fun a b => key b ≤ key a
  haveI : DecidableRel byKey := fun a b => by show Decidable (key b ≤ key a); infer_instance
  haveI : IsTotal AliasEntry byKey := ⟨fun a b => Int.le_total (key b) (key a)⟩
  haveI : IsTrans AliasEntry byKey := ⟨fun _ _ _ hab hbc => Int.le_trans hbc hab⟩
  have hsortEq : (storedEntries fs).insertionSort (moreRecent dateValue)
      = (storedEntries fs).insertionSort byKey :=
    insertionSort_congr _ _ _ (fun a ha b hb =>
      moreRecent_iff_key dateValue a b (hdates a ha) (hdates b hb))
  have hperm := List.perm_insertionSort byKey (storedEntries fs)
  have hsorted := List.sorted_insertionSort byKey (storedEntries fs)
  set sorted := (storedEntries fs).insertionSort byKey with hsorted_def
  have hfoundPerm : (sorted.filter (passesSearch lower search)).Perm
      (passingEntries fs lower search) := hperm.filter _
  have hfoundSorted : (sorted.filter (passesSearch lower search)).Pairwise byKey :=
    List.Pairwise.filter _ hsorted
  have hvalid : ∀ a ∈ sorted.filter (passesSearch lower search),
      (a.time dateValue).isSome = true := fun a ha =>
    hdates a (hperm.subset (List.mem_of_mem_filter ha))
  have hrecent : (sorted.filter (passesSearch lower search)).Pairwise
      (atLeastAsRecent dateValue) := by
    refine List.Pairwise.imp_of_mem ?_ hfoundSorted
    intro a b ha hb hab
    exact (atLeastAsRecent_iff_key dateValue a b (hvalid a ha) (hvalid b hb)).2 hab
  have hresult : listAliases fs now dateValue lower search limit
      = (match limit with
         | some n => if 0 < n then some ((sorted.filter (passesSearch lower search)).take n.toNat)
                     else some (sorted.filter (passesSearch lower search))
         | none => some (sorted.filter (passesSearch lower search))) := by
    unfold listAliases
    simp only [hload, hentries, hsortEq]
    rw [found_eq_filter lower search hlower]
  have hlen := hfoundPerm.length_eq
  rw [hresult]
  generalize sorted.filter (passesSearch lower search) = found at *
  have hwhole : found.Pairwise (atLeastAsRecent dateValue)
      ∧ (∀ a ∈ found, passesSearch lower search a = true)
      ∧ (∃ rest, (found ++ rest).Perm (passingEntries fs lower search)
          ∧ ∀ a ∈ found, ∀ b ∈ rest, atLeastAsRecent dateValue a b)
      ∧ found.length = (passingEntries fs lower search).length :=
    ⟨hrecent, fun a ha => (List.mem_filter.1 (hfoundPerm.subset ha)).2,
      ⟨[], by simpa using hfoundPerm, by simp⟩, hlen⟩
  cases limit with
  | none => exact ⟨found, rfl, hwhole⟩
  | some n =>
    by_cases hn : 0 < n
    · simp only [if_pos hn]
      refine ⟨found.take n.toNat, rfl, hrecent.sublist (List.take_sublist _ _),
        fun a ha => hwhole.2.1 a (List.mem_of_mem_take ha),
        ⟨found.drop n.toNat, by rw [List.take_append_drop]; exact hfoundPerm, ?_⟩, ?_⟩
      · have := hrecent
        rw [← List.take_append_drop n.toNat found, List.pairwise_append] at this
        exact this.2.2
      · rw [List.length_take, hlen]
    · simp only [if_neg hn]
      exact ⟨found, rfl, hwhole⟩

/-- Witness for C26: the sample store searched for `SPRINT` with limit 1.  Two entries
pass the filter and the more recent one is returned. -/
theorem listAliases_recent_first_witness :
    (∀ a ∈ storedEntries exampleListStore, (a.time exampleDateValue).isSome = true)
    ∧ (passingEntries exampleListStore toLowerCase (some "SPRINT")).map (fun a => a.name)
        = ["alpha", "sprint-two"]
    ∧ (listAliases exampleListStore "" exampleDateValue toLowerCase (some "SPRINT")
          (some 1)).map (fun l => l.map (fun a => a.name)) = some ["sprint-two"]
    ∧ (∃ result, listAliases exampleListStore "" exampleDateValue toLowerCase (some "SPRINT")
          (some 1) = some result
        ∧ result.length
          = min (1 : Int).toNat
              (passingEntries exampleListStore toLowerCase (some "SPRINT")).length) := by
  refine ⟨by decide, by decide, by decide, ?_⟩
  obtain ⟨result, h, _, _, _, hl⟩ :=
    listAliases_recent_first exampleListStore "" exampleDateValue toLowerCase (some "SPRINT")
      (some 1) (by decide) (by decide)
  exact ⟨result, h, hl⟩

/-- Counterexample to C26 as stated. The sample store holds an alias dated 13 January, an
alias without any date, and an alias dated 15 January, written in that order.  The
comparator yields `NaN` against the undated alias, the sort leaves the three where they
are, and `listAliases` returns the older alias before the newer one.  On the sample store
whose alias `broken` is `null`, `listAliases` returns nothing: reading `info.sessionPath`
raises a `TypeError`. -/
theorem listAliases_undated_counterexample :
    (listAliases exampleUndatedStore "" exampleDateValue toLowerCase none none).map
        (fun l => l.map (fun a => (a.name, a.time exampleDateValue)))
      = some [("old", some 1736758800000), ("undated", none), ("new", some 1736931600000)]
    ∧ listAliases exampleNullStore "" exampleDateValue toLowerCase none none = none := by
  decide

end SessionAliases

/-! # Properties of the observation record -/

namespace ObserveHook

/-- Claim C24. For every tool input or output value `v`, with `s` the JSON serialisation of
`v` when `v` is an object or array and the string form of `v` otherwise, and `n` the length
of `s` in UTF-16 code units, the unit of JavaScript string length: the stored field is the
first `min(n, 5000)` units of `s`; it never has more than 5000 units; and it is `s` itself
whenever `n ≤ 5000`. -/
theorem truncate_first_5000 (v : Json) :
    truncate v = (utf16 (fieldText v)).take (min (utf16 (fieldText v)).length 5000)
    ∧ (truncate v).length ≤ 5000
    ∧ ((utf16 (fieldText v)).length ≤ 5000 → truncate v = utf16 (fieldText v)) := by
  have hs : (if isObjectType v then stringify v else jsString v) = fieldText v := by
    cases v <;> rfl
  unfold truncate
  simp only [hs]
  generalize utf16 (fieldText v) = s
  by_cases h : s.length > 5000
  · simp only [if_pos h]
    refine ⟨by rw [Nat.min_eq_right (Nat.le_of_lt h)], ?_, fun h2 => absurd h2 (by omega)⟩
    rw [List.length_take]
    exact Nat.min_le_left _ _
  · simp only [if_neg h]
    have h2 : s.length ≤ 5000 := by omega
    exact ⟨by rw [Nat.min_eq_left h2, List.take_length], h2, by simp⟩

theorem utf16_replicate (n : Nat) : utf16 (List.replicate n 'a') = List.replicate n 97 := by
  induction n with
  | zero => rfl
  | succ n ih =>
    rw [List.replicate_succ, List.replicate_succ]
    unfold utf16 at ih ⊢
    rw [List.flatMap_cons, ih]
    rfl

/-- Witness for C24: the sample tool input is stored whole, and a string of 5001 letters is
stored as its first 5000. -/
theorem truncate_first_5000_witness :
    (utf16 (fieldText exampleInput)).length ≤ 5000
    ∧ truncate exampleInput = utf16 (fieldText exampleInput)
    ∧ truncate (Json.str (String.mk (List.replicate 5001 'a'))) = List.replicate 5000 97 :=
  ⟨by decide, (truncate_first_5000 exampleInput).2.2 (by decide), by
    have h := (truncate_first_5000 (Json.str (String.mk (List.replicate 5001 'a')))).1
    have hs : fieldText (Json.str (String.mk (List.replicate 5001 'a')))
        = List.replicate 5001 'a' := rfl
    rw [h, hs, utf16_replicate, List.length_replicate, List.take_replicate]
    rfl⟩

theorem ofNat_ne_lf (u : Nat) (h : u ≠ 10) : Char.ofNat u ≠ '\n' := by
  intro hc
  have h1 : (Char.ofNat u).toNat = 10 := by rw [hc]; rfl
  by_cases hv : u.isValidChar
  · have : (Char.ofNat u).toNat = u := by
      simp only [Char.ofNat, hv, dite_true, Char.toNat, Char.ofNatAux]
      rfl
    omega
  · have : Char.ofNat u = '\x00' := by
      simp only [Char.ofNat, hv, dite_false]
      rfl
    rw [this] at h1
    exact absurd h1 (by decide)

theorem hexDigit_ne_lf (n : Nat) (h : n < 16) : hexDigit n ≠ '\n' := by
  interval_cases n <;> decide

theorem unicodeEscape_noLF (u : Nat) : '\n' ∉ unicodeEscape u := by
  unfold unicodeEscape
  have h := fun n => hexDigit_ne_lf (n % 16) (Nat.mod_lt _ (by decide))
  simp only [List.mem_cons, List.mem_singleton, List.not_mem_nil, or_false, not_or]
  exact ⟨by decide, by decide, Ne.symm (h _), Ne.symm (h _), Ne.symm (h _), Ne.symm (h _)⟩

theorem escapeUnit_noLF (u : Nat) :
    '\n' ∉ (if u = 34 then ['\\', '"'] else if u = 92 then ['\\', '\\']
      else if u = 8 then ['\\', 'b'] else if u = 12 then ['\\', 'f']
      else if u = 10 then ['\\', 'n'] else if u = 13 then ['\\', 'r']
      else if u = 9 then ['\\', 't']
      else if u < 32 ∨ (55296 ≤ u ∧ u ≤ 57343) then unicodeEscape u
      else [Char.ofNat u]) := by
  split_ifs with h1 h2 h3 h4 h5 h6 h7 h8
  all_goals first
    | decide
    | exact unicodeEscape_noLF u
    | (simp only [List.mem_singleton]; exact Ne.symm (ofNat_ne_lf u h5))

theorem quoteUnits_noLF : ∀ (units : List Nat), '\n' ∉ quoteUnits units
  | [] => by simp [quoteUnits]
  | [u] => by
    unfold quoteUnits
    exact escapeUnit_noLF u
  | u :: v :: rest => by
    unfold quoteUnits
    by_cases hp : 55296 ≤ u ∧ u ≤ 56319 ∧ 56320 ≤ v ∧ v ≤ 57343
    · rw [if_pos hp]
      simp only [List.mem_cons, not_or]
      exact ⟨Ne.symm (ofNat_ne_lf _ (by omega)), quoteUnits_noLF rest⟩
    · rw [if_neg hp]
      simp only [List.mem_append, not_or]
      exact ⟨escapeUnit_noLF u, quoteUnits_noLF (v :: rest)⟩

theorem quote_noLF (units : List Nat) : '\n' ∉ quote units := by
  unfold quote
  exact List.not_mem_cons_of_ne_of_not_mem (by decide)
    (List.not_mem_append (quoteUnits_noLF units) (by decide))

theorem numberText_noLF (t : String) (h : isNumberText t = true) : '\n' ∉ t.data := by
  intro hmem
  unfold isNumberText at h
  have := List.all_eq_true.1 h _ hmem
  exact absurd this (by decide)

mutual
theorem stringify_noLF : ∀ (j : Json), j.numbersWritten = true → '\n' ∉ stringify j
  | .null, _ => by decide
  | .bool b, _ => by cases b <;> decide
  | .num t, h => by
    unfold stringify
    split_ifs
    · decide
    · exact numberText_noLF t (by simpa [Json.numbersWritten] using h)
  | .str s, _ => by unfold stringify; exact quote_noLF _
  | .arr items, h => by
    unfold stringify
    exact List.not_mem_cons_of_ne_of_not_mem (by decide)
      (List.not_mem_append
        (stringifyItems_noLF items (by simpa [Json.numbersWritten] using h)) (by decide))
  | .obj members, h => by
    unfold stringify
    exact List.not_mem_cons_of_ne_of_not_mem (by decide)
      (List.not_mem_append
        (stringifyMembers_noLF members (by simpa [Json.numbersWritten] using h)) (by decide))
theorem stringifyItems_noLF : ∀ (l : List Json), numbersWrittenItems l = true →
    '\n' ∉ stringifyItems l
  | [], _ => by simp [stringifyItems]
  | [j], h => by
    unfold stringifyItems
    exact stringify_noLF j (by simpa [numbersWrittenItems] using h)
  | j :: k :: rest, h => by
    unfold stringifyItems
    simp only [numbersWrittenItems, Bool.and_eq_true] at h
    exact List.not_mem_append (stringify_noLF j h.1)
      (List.not_mem_cons_of_ne_of_not_mem (by decide)
        (stringifyItems_noLF (k :: rest) (by simp [numbersWrittenItems, h.2])))
theorem stringifyMembers_noLF : ∀ (l : List (String × Json)), numbersWrittenMembers l = true →
    '\n' ∉ stringifyMembers l
  | [], _ => by simp [stringifyMembers]
  | [(k, j)], h => by
    unfold stringifyMembers
    exact List.not_mem_append (quote_noLF _)
      (List.not_mem_cons_of_ne_of_not_mem (by decide)
        (stringify_noLF j (by simpa [numbersWrittenMembers] using h)))
  | (k, j) :: e :: rest, h => by
    unfold stringifyMembers
    simp only [numbersWrittenMembers, Bool.and_eq_true] at h
    exact List.not_mem_append
      (List.not_mem_append (quote_noLF _)
        (List.not_mem_cons_of_ne_of_not_mem (by decide) (stringify_noLF j h.1)))
      (List.not_mem_cons_of_ne_of_not_mem (by decide)
        (stringifyMembers_noLF (e :: rest) (by
          obtain ⟨k2, j2⟩ := e
          simp only [numbersWrittenMembers, Bool.and_eq_true] at h ⊢
          exact h.2)))
end

theorem numbersWritten_getOwn (members : List (String × Json)) (k : String) (v : Json)
    (h : numbersWrittenMembers members = true)
    (hv : SessionAliases.getOwn members k = some v) : v.numbersWritten = true := by
  induction members with
  | nil => simp [SessionAliases.getOwn] at hv
  | cons e rest ih =>
    obtain ⟨k2, j⟩ := e
    simp only [numbersWrittenMembers, Bool.and_eq_true] at h
    unfold SessionAliases.getOwn at hv
    by_cases hk : k2 = k
    · rw [if_pos hk] at hv
      simp only [Option.some.injEq] at hv
      rw [← hv]; exact h.1
    · rw [if_neg hk] at hv
      exact ih h.2 hv

theorem numbersWritten_member (input : Json) (k : String) (v : Json)
    (h : input.numbersWritten = true) (hv : input.member k = some v) :
    v.numbersWritten = true := by
  cases input with
  | obj members =>
    exact numbersWritten_getOwn members k v (by simpa [Json.numbersWritten] using h) hv
  | _ => simp [Json.member] at hv

theorem numbersWritten_firstTruthy (input : Json) (k1 k2 : String) (fallback : Json)
    (h : input.numbersWritten = true) (hf : fallback.numbersWritten = true) :
    (firstTruthy input k1 k2 fallback).numbersWritten = true := by
  unfold firstTruthy
  cases h1 : input.member k1 with
  | none =>
    cases h2 : input.member k2 with
    | none => exact hf
    | some w =>
      simp only
      split_ifs
      · exact numbersWritten_member input k2 w h h2
      · exact hf
  | some v =>
    simp only
    split_ifs
    · exact numbersWritten_member input k1 v h h1
    · cases h2 : input.member k2 with
      | none => exact hf
      | some w =>
        simp only
        split_ifs
        · exact numbersWritten_member input k2 w h h2
        · exact hf

/-- The line written for a payload is one line: it ends with a line feed and has no other. -/
theorem observationLine_one_line (env : HookEnv) (input : Json)
    (h : input.numbersWritten = true) :
    ∃ body, (observationLine env input).data = body ++ ['\n'] ∧ '\n' ∉ body := by
  have hsession : ∀ e : Option String, (Json.str (match e with
      | some e => if e = "" then "unknown" else e
      | none => "unknown")).numbersWritten = true := fun _ => rfl
  have htool := stringify_noLF _
    (numbersWritten_firstTruthy input "tool_name" "tool" (Json.str "unknown") h rfl)
  have hsid : '\n' ∉ stringify (match input.member "session_id" with
      | some v => if v.truthy then v else
        Json.str (match env.sessionEnv with
                  | some e => if e = "" then "unknown" else e
                  | none => "unknown")
      | none =>
        Json.str (match env.sessionEnv with
                  | some e => if e = "" then "unknown" else e
                  | none => "unknown")) := by
    apply stringify_noLF
    cases hm : input.member "session_id" with
    | none => exact hsession _
    | some v =>
      simp only
      split_ifs
      · exact numbersWritten_member input _ v h hm
      · exact hsession _
  have hclose : ∀ A : List Char, '\n' ∉ A →
      ∃ body, A ++ ['\x7d', '\n'] = body ++ ['\n'] ∧ '\n' ∉ body := fun A hA =>
    ⟨A ++ ['\x7d'], by simp, List.not_mem_append hA (by decide)⟩
  unfold observationLine
  simp only
  apply hclose
  exact List.not_mem_append (List.not_mem_append (List.not_mem_append (List.not_mem_append
    (List.not_mem_append (List.not_mem_append (List.not_mem_append (List.not_mem_append
      (by decide) (quote_noLF _)) (by decide)) (quote_noLF _)) (by decide)) htool)
        (by decide)) hsid)
    (by
      split_ifs <;> exact List.not_mem_append (by decide) (quote_noLF _))

theorem utf8ByteSize_replicate (n : Nat) :
    (String.mk (List.replicate n 'a')).utf8ByteSize = n := by
  have hgo : ∀ m, String.utf8ByteSize.go (List.replicate m 'a') = m := by
    intro m
    induction m with
    | zero => rfl
    | succ m ih =>
      rw [List.replicate_succ, String.utf8ByteSize.go, ih]
      rfl
  exact hgo n

/-- Claim C25. For every payload that parses to a value other than `null`, recorded with the
hook enabled and no file-system call failing: the appended text is one JSON line, that is,
it ends with a line feed and has no other; when the live log is absent or smaller than
10 MB, the log afterwards is its previous content followed by that line, and the archive is
as it was; when the live log is larger than 10 MB, the log afterwards holds that line only,
and the archive directory holds the previous content, unchanged, under the name
`observations-<timestamp>.jsonl`, next to the files it held under other names.  Numbers in
the payload are texts as `String` writes them. -/
theorem observe_appends_or_rotates (jsonParse : String → Option Json) (env : HookEnv)
    (data : String) (fs : HookFS) (input : Json)
    (hflag : fs.disabledFlag = false) (hfaults : env.faults = HookFaults.none)
    (hdata : (Observer.trimChars data.data).isEmpty = false)
    (hparse : jsonParse data = some input) (hnull : input ≠ Json.null)
    (hnum : input.numbersWritten = true) :
    (∃ body, (observationLine env input).data = body ++ ['\n'] ∧ '\n' ∉ body)
    ∧ ((∀ content, fs.observations = some content →
          content.utf8ByteSize < MAX_FILE_SIZE_MB * (1024 * 1024)) →
        (observe jsonParse env data fs).fs.observations
            = some (fs.observations.getD "" ++ observationLine env input)
          ∧ (observe jsonParse env data fs).fs.archive = fs.archive)
    ∧ (∀ content, fs.observations = some content →
          MAX_FILE_SIZE_MB * (1024 * 1024) < content.utf8ByteSize →
        (observe jsonParse env data fs).fs.observations = some (observationLine env input)
          ∧ ∃ files, (observe jsonParse env data fs).fs.archive = some files
              ∧ Observer.getFile files (rotatedName env.archiveNow) = some content
              ∧ ∀ other, other ≠ rotatedName env.archiveNow →
                  Observer.getFile files other = Observer.getFile (fs.archive.getD []) other) := by
  have hobs : observe jsonParse env data fs
      = { stdout := echoed env data, exitCode := 0,
          fs := { rotateIfLarge env { fs with configDir := true } with
                  observations := some
                    (((rotateIfLarge env { fs with configDir := true }).observations.getD "")
                      ++ observationLine env input) } } := by
    unfold observe
    simp only [hflag, hfaults, HookFaults.none, hdata, hparse, Bool.false_eq_true, if_false,
      Bool.and_false]
  refine ⟨observationLine_one_line env input hnum, ?_, ?_⟩
  · intro hsmall
    have hrot : rotateIfLarge env { fs with configDir := true } = { fs with configDir := true } := by
      unfold rotateIfLarge
      cases hc : fs.observations with
      | none => rfl
      | some content =>
        have := hsmall content hc
        simp only [hfaults, HookFaults.none, Bool.false_eq_true, if_false, ge_iff_le,
          if_neg (Nat.not_le.2 this)]
    rw [hobs, hrot]
    exact ⟨rfl, rfl⟩
  · intro content hc hlarge
    have hrot : rotateIfLarge env { fs with configDir := true }
        = { fs with configDir := true, observations := none,
                    archive := some (Observer.putFile (fs.archive.getD [])
                      (rotatedName env.archiveNow) content) } := by
      unfold rotateIfLarge
      simp only [hc, hfaults, HookFaults.none, Bool.false_eq_true, if_false, ge_iff_le,
        if_pos (Nat.le_of_lt hlarge), Bool.and_false]
    rw [hobs, hrot]
    exact ⟨by simp, _, rfl, Observer.getFile_putFile_self _ _ _, fun other hne =>
      Observer.getFile_putFile_other _ _ _ _ hne⟩

/-- Witness for C25: the sample payload recorded over a short log, and over a log of
10485761 bytes. -/
theorem observe_appends_or_rotates_witness :
    exampleParse examplePayload = some exampleInput
    ∧ (observe exampleParse exampleHookEnv examplePayload exampleHookFS).fs.observations
        = some ("earlier\n" ++ observationLine exampleHookEnv exampleInput)
    ∧ (observe exampleParse exampleHookEnv examplePayload exampleLargeFS).fs.observations
        = some (observationLine exampleHookEnv exampleInput) :=
  ⟨rfl,
    ((observe_appends_or_rotates exampleParse exampleHookEnv examplePayload exampleHookFS
      exampleInput rfl rfl (by decide) rfl (fun h => Json.noConfusion h) (by decide)).2.1
      (fun content h => by
        have : content = "earlier\n" := by
          simp only [exampleHookFS, Option.some.injEq] at h
          exact h.symm
        subst this
        decide)).1,
    ((observe_appends_or_rotates exampleParse exampleHookEnv examplePayload exampleLargeFS
      exampleInput rfl rfl (by decide) rfl (fun h => Json.noConfusion h) (by decide)).2.2
      _ rfl (by rw [utf8ByteSize_replicate]; decide)).1⟩

end ObserveHook

/-! # Properties of session metadata -/

namespace SessionManager

/-- More fuel than there are characters left does not change the iterations of `*`. -/
theorem starLoop_fuel (step : MState → List MState) :
    ∀ (f1 f2 : Nat) (st : MState), st.rest.length ≤ f1 → st.rest.length ≤ f2 →
      starLoop step f1 st = starLoop step f2 st
  | 0, 0, _, _, _ => rfl
  | 0, f2 + 1, st, h1, _ => by
    have h0 : st.rest.length = 0 := Nat.le_zero.1 h1
    simp [starLoop, h0]
  | f1 + 1, 0, st, _, h2 => by
    have h0 : st.rest.length = 0 := Nat.le_zero.1 h2
    simp [starLoop, h0]
  | f1 + 1, f2 + 1, st, h1, h2 => by
    simp only [starLoop]
    congr 1
    apply List.flatMap_congr
    intro st2 hst2
    have hlt : st2.rest.length < st.rest.length := by
      simpa using (List.mem_filter.1 hst2).2
    exact starLoop_fuel step f1 f2 st2 (by omega) (by omega)

/-- More fuel than there are characters left does not change the iterations of `*?`. -/
theorem lazyLoop_fuel (step : MState → List MState) :
    ∀ (f1 f2 : Nat) (st : MState), st.rest.length ≤ f1 → st.rest.length ≤ f2 →
      lazyLoop step f1 st = lazyLoop step f2 st
  | 0, 0, _, _, _ => rfl
  | 0, f2 + 1, st, h1, _ => by
    have h0 : st.rest.length = 0 := Nat.le_zero.1 h1
    simp [lazyLoop, h0]
  | f1 + 1, 0, st, _, h2 => by
    have h0 : st.rest.length = 0 := Nat.le_zero.1 h2
    simp [lazyLoop, h0]
  | f1 + 1, f2 + 1, st, h1, h2 => by
    simp only [lazyLoop]
    congr 1
    apply List.flatMap_congr
    intro st2 hst2
    have hlt : st2.rest.length < st.rest.length := by
      simpa using (List.mem_filter.1 hst2).2
    exact lazyLoop_fuel step f1 f2 st2 (by omega) (by omega)

theorem starLoop_length (step : MState → List MState) :
    ∀ (fuel : Nat) (st st2 : MState), st2 ∈ starLoop step fuel st →
      st2.rest.length ≤ st.rest.length
  | 0, st, st2, h => by
    simp only [starLoop, List.mem_singleton] at h
    rw [h]
  | fuel + 1, st, st2, h => by
    simp only [starLoop, List.mem_append, List.mem_flatMap, List.mem_singleton] at h
    rcases h with ⟨st1, h1, h2⟩ | h
    · have hlt : st1.rest.length < st.rest.length := by
        simpa using (List.mem_filter.1 h1).2
      have := starLoop_length step fuel st1 st2 h2
      omega
    · rw [h]

theorem lazyLoop_length (step : MState → List MState) :
    ∀ (fuel : Nat) (st st2 : MState), st2 ∈ lazyLoop step fuel st →
      st2.rest.length ≤ st.rest.length
  | 0, st, st2, h => by
    simp only [lazyLoop, List.mem_singleton] at h
    rw [h]
  | fuel + 1, st, st2, h => by
    simp only [lazyLoop, List.mem_cons, List.mem_flatMap] at h
    rcases h with h | ⟨st1, h1, h2⟩
    · rw [h]
    · have hlt : st1.rest.length < st.rest.length := by
        simpa using (List.mem_filter.1 h1).2
      have := lazyLoop_length step fuel st1 st2 h2
      omega

/-- A match never leaves more text than it started with. -/
theorem ends_length : ∀ (r : Re) (st st2 : MState), st2 ∈ r.ends st →
    st2.rest.length ≤ st.rest.length
  | .chr p, st, st2, h => by
    simp only [Re.ends] at h
    cases hr : st.rest with
    | nil => rw [hr] at h; simp at h
    | cons c cs =>
      rw [hr] at h
      simp only at h
      split_ifs at h
      · simp only [List.mem_singleton] at h
        rw [h]; simp
      · simp at h
  | .lit text, st, st2, h => by
    simp only [Re.ends] at h
    split_ifs at h
    · simp only [List.mem_singleton] at h
      rw [h]; simp
    · simp at h
  | .seq a b, st, st2, h => by
    simp only [Re.ends, List.mem_flatMap] at h
    obtain ⟨st1, h1, h2⟩ := h
    have := ends_length a st st1 h1
    have := ends_length b st1 st2 h2
    omega
  | .alt a b, st, st2, h => by
    simp only [Re.ends, List.mem_append] at h
    rcases h with h | h
    · exact ends_length a st st2 h
    · exact ends_length b st st2 h
  | .star r, st, st2, h => starLoop_length _ _ st st2 h
  | .lazyStar r, st, st2, h => lazyLoop_length _ _ st st2 h
  | .group r, st, st2, h => by
    simp only [Re.ends, List.mem_map] at h
    obtain ⟨st1, h1, h2⟩ := h
    have := ends_length r st st1 h1
    rw [← h2]
    exact this
  | .look r, st, st2, h => by
    simp only [Re.ends] at h
    split_ifs at h
    · simp at h
    · simp only [List.mem_singleton] at h
      rw [h]
  | .eoi, st, st2, h => by
    simp only [Re.ends] at h
    split_ifs at h
    · simp only [List.mem_singleton] at h
      rw [h]
    · simp at h
  | .eol, st, st2, h => by
    simp only [Re.ends] at h
    cases hr : st.rest with
    | nil =>
      rw [hr] at h
      simp only [List.mem_singleton] at h
      rw [h, hr]
    | cons c cs =>
      rw [hr] at h
      simp only at h
      split_ifs at h
      · simp only [List.mem_singleton] at h
        rw [h, hr]
      · simp at h

theorem search_length (r : Re) : ∀ (s : List Char) (f : Found), r.search s = some f →
    f.before.length + f.after.length ≤ s.length
  | [], f, h => by
    simp only [Re.search, Option.map_eq_some'] at h
    obtain ⟨m, hm, hf⟩ := h
    have := ends_length r _ m (List.mem_of_mem_head? hm)
    rw [← hf]
    simpa using this
  | c :: cs, f, h => by
    simp only [Re.search] at h
    cases hm : r.matchHere (c :: cs) with
    | some m =>
      rw [hm] at h
      simp only [Option.some.injEq] at h
      have := ends_length r _ m (List.mem_of_mem_head? hm)
      rw [← h]
      simpa using this
    | none =>
      rw [hm] at h
      simp only [Option.map_eq_some'] at h
      obtain ⟨f2, hf2, hf⟩ := h
      have := search_length r cs f2 hf2
      rw [← hf]
      simp only [List.length_cons]
      omega

/-- More fuel than the text has characters does not change the matches of a pattern with
the `g` flag. -/
theorem matchAll_fuel (r : Re) : ∀ (f1 f2 : Nat) (s : List Char), s.length < f1 → s.length < f2 →
    r.matchAll f1 s = r.matchAll f2 s
  | 0, _, _, h1, _ => absurd h1 (Nat.not_lt_zero _)
  | _ + 1, 0, _, _, h2 => absurd h2 (Nat.not_lt_zero _)
  | f1 + 1, f2 + 1, s, h1, h2 => by
    simp only [Re.matchAll]
    cases hs : r.search s with
    | none => rfl
    | some f =>
      simp only
      have hlen := search_length r s f hs
      congr 1
      by_cases hw : ((s.drop f.before.length).take
          (s.length - f.before.length - f.after.length)).isEmpty = true
      · simp only [hw, if_true]
        cases ha : f.after with
        | nil => rfl
        | cons c rest =>
          simp only
          rw [ha] at hlen
          simp only [List.length_cons] at hlen
          exact matchAll_fuel r f1 f2 rest (by omega) (by omega)
      · simp only [hw, Bool.false_eq_true, if_false]
        have hpos : 0 < s.length - f.before.length - f.after.length := by
          by_contra hz
          have hz2 : s.length - f.before.length - f.after.length = 0 := by omega
          rw [hz2] at hw
          simp at hw
        exact matchAll_fuel r f1 f2 f.after (by omega) (by omega)

theorem chr_ends_cons (p : Char → Bool) (cap : Option (List Char)) (c : Char) (cs : List Char) :
    (Re.chr p).ends { cap := cap, rest := c :: cs }
      = if p c then [{ cap := cap, rest := cs }] else [] := rfl

theorem chr_ends_nil (p : Char → Bool) (cap : Option (List Char)) :
    (Re.chr p).ends { cap := cap, rest := [] } = [] := rfl

theorem starLoop_step (step : MState → List MState) (p : Char → Bool)
    (hcons : ∀ cap c cs, step { cap := cap, rest := c :: cs }
      = if p c then [{ cap := cap, rest := cs }] else [])
    (hnil : ∀ cap, step { cap := cap, rest := [] } = []) :
    ∀ (fuel : Nat) (cap : Option (List Char)) (s : List Char), s.length ≤ fuel →
    starLoop step fuel { cap := cap, rest := s }
      = (greedyTails p s).map (fun t => { cap := cap, rest := t })
  | 0, cap, s, h => by
    have : s = [] := List.length_eq_zero.1 (Nat.le_zero.1 h)
    subst this
    rfl
  | fuel + 1, cap, [], _ => by
    simp [starLoop, hnil, greedyTails]
  | fuel + 1, cap, c :: cs, h => by
    have ih := starLoop_step step p hcons hnil fuel cap cs (by simpa using h)
    by_cases hp : p c = true
    · simp [starLoop, hcons, greedyTails, hp, ih]
    · simp [starLoop, hcons, greedyTails, hp]

theorem star_chr_ends (p : Char → Bool) (cap : Option (List Char)) (s : List Char) :
    (Re.star (Re.chr p)).ends { cap := cap, rest := s }
      = (greedyTails p s).map (fun t => { cap := cap, rest := t }) := by
  show starLoop (Re.chr p).ends s.length { cap := cap, rest := s } = _
  exact starLoop_step _ p (chr_ends_cons p) (chr_ends_nil p) _ _ _ (Nat.le_refl _)

theorem lazyLoop_step (step : MState → List MState)
    (hcons : ∀ cap c cs, step { cap := cap, rest := c :: cs } = [{ cap := cap, rest := cs }])
    (hnil : ∀ cap, step { cap := cap, rest := [] } = []) :
    ∀ (fuel : Nat) (cap : Option (List Char)) (s : List Char), s.length ≤ fuel →
    lazyLoop step fuel { cap := cap, rest := s }
      = s.tails.map (fun t => { cap := cap, rest := t })
  | 0, cap, s, h => by
    have : s = [] := List.length_eq_zero.1 (Nat.le_zero.1 h)
    subst this
    rfl
  | fuel + 1, cap, [], _ => by
    simp [lazyLoop, hnil]
  | fuel + 1, cap, c :: cs, h => by
    have ih := lazyLoop_step step hcons hnil fuel cap cs (by simpa using h)
    simp [lazyLoop, hcons, ih]

theorem lazyStar_any_ends (cap : Option (List Char)) (s : List Char) :
    (Re.lazyStar reAny).ends { cap := cap, rest := s }
      = s.tails.map (fun t => { cap := cap, rest := t }) := by
  show lazyLoop reAny.ends s.length { cap := cap, rest := s } = _
  exact lazyLoop_step _ (fun _ _ _ => rfl) (fun _ => rfl) _ _ _ (Nat.le_refl _)

/-- The lookahead `(?=###|\n\n|$)`. -/
theorem look_boundary_ends (st : MState) :
    (Re.look (.alt (.lit "###".data) (.alt (.lit "\n\n".data) .eoi))).ends st
      = if atBoundary st.rest then [st] else [] := by
  simp only [Re.ends, atBoundary]
  by_cases h1 : "###".data.isPrefixOf st.rest = true
  · simp [h1]
  · by_cases h2 : "\n\n".data.isPrefixOf st.rest = true
    · simp [h1, h2]
    · by_cases h3 : st.rest.isEmpty = true
      · simp [h1, h2, h3]
      · simp [h1, h2, h3]

theorem head?_flatMap {α β : Type} (f : α → List β) :
    ∀ l : List α, (l.flatMap f).head? = l.findSome? (fun x => (f x).head?)
  | [] => rfl
  | x :: rest => by
    rw [List.flatMap_cons, List.findSome?_cons]
    cases hx : f x with
    | nil => simp [head?_flatMap f rest]
    | cons y ys => simp

theorem section_tail_aux : ∀ (t0 pre : List Char),
    ((t0.tails.map (fun t =>
        ({ cap := some ((pre ++ t0).take ((pre ++ t0).length - t.length)), rest := t } : MState))).flatMap
      (fun st => if atBoundary st.rest then [st] else [])).head?
      = some { cap := some (pre ++ sectionBody t0), rest := sectionRest t0 }
  | [], pre => by
    simp [atBoundary, sectionBody, sectionRest]
  | c :: cs, pre => by
    have ih := section_tail_aux cs (pre ++ [c])
    simp only [List.append_assoc, List.singleton_append] at ih
    simp only [List.tails, List.map_cons, List.flatMap_cons]
    by_cases hb : atBoundary (c :: cs) = true
    · simp [hb, sectionBody, sectionRest]
    · simp only [hb, Bool.false_eq_true, if_false, List.nil_append, sectionBody, sectionRest]
      exact ih

theorem section_tail_head (cap : Option (List Char)) (s : List Char) :
    ((Re.seq (.group (.lazyStar reAny))
        (.look (.alt (.lit "###".data) (.alt (.lit "\n\n".data) .eoi)))).ends
      { cap := cap, rest := s }).head?
      = some { cap := some (sectionBody s), rest := sectionRest s } := by
  have h := section_tail_aux s []
  simp only [List.nil_append] at h
  rw [← h]
  congr 1
  show ((Re.group (.lazyStar reAny)).ends { cap := cap, rest := s }).flatMap
      (Re.look (.alt (.lit "###".data) (.alt (.lit "\n\n".data) .eoi))).ends = _
  have hg : (Re.group (.lazyStar reAny)).ends { cap := cap, rest := s }
      = s.tails.map (fun t =>
          ({ cap := some (s.take (s.length - t.length)), rest := t } : MState)) := by
    show ((Re.lazyStar reAny).ends { cap := cap, rest := s }).map _ = _
    rw [lazyStar_any_ends, List.map_map]
    rfl
  rw [hg]
  congr 1
  funext st
  exact look_boundary_ends st

theorem findSome?_greedyTails {β : Type} (g : List Char → β) :
    ∀ r : List Char,
    (greedyTails Observer.isJsWhiteSpace r).findSome?
        (fun d => if ['\n'].isPrefixOf d then some (g (d.drop 1)) else none)
      = (afterLastLineFeed r).map g
  | [] => by simp [greedyTails, afterLastLineFeed, List.isPrefixOf]
  | c :: cs => by
    have ih := findSome?_greedyTails g cs
    by_cases hw : Observer.isJsWhiteSpace c = true
    · simp only [greedyTails, hw, if_true, List.findSome?_append, ih, afterLastLineFeed]
      cases hl : afterLastLineFeed cs with
      | some t => rfl
      | none =>
        by_cases hc : c = '\n'
        · subst hc
          simp [List.isPrefixOf]
        · simp [List.isPrefixOf, hc, Ne.symm hc]
    · have hc : c ≠ '\n' := by
        intro h
        subst h
        exact hw (by decide)
      simp [greedyTails, hw, afterLastLineFeed, List.isPrefixOf, Ne.symm hc]

/-- The match of a section pattern at a position. -/
theorem sectionPattern_matchHere (heading : String) (t : List Char) :
    (sectionPattern heading).matchHere t
      = if heading.data.isPrefixOf t then
          (afterLastLineFeed (t.drop heading.data.length)).map (fun d =>
            ({ cap := some (sectionBody d), rest := sectionRest d } : MState))
        else none := by
  unfold Re.matchHere sectionPattern
  by_cases hp : heading.data.isPrefixOf t = true
  swap
  · simp [Re.ends, hp]
  rw [if_pos hp]
  have h1 : (Re.seq (.lit heading.data) (.seq (.star reSpace) (.seq (.lit ['\n'])
      (.seq (.group (.lazyStar reAny))
        (.look (.alt (.lit "###".data) (.alt (.lit "\n\n".data) .eoi))))))).ends
        { cap := none, rest := t }
      = ((greedyTails Observer.isJsWhiteSpace (t.drop heading.data.length)).map
          (fun d => ({ cap := none, rest := d } : MState))).flatMap
        (fun st => if ['\n'].isPrefixOf st.rest then
            (Re.seq (.group (.lazyStar reAny))
              (.look (.alt (.lit "###".data) (.alt (.lit "\n\n".data) .eoi)))).ends
              { st with rest := st.rest.drop 1 }
          else []) := by
    show ((Re.lit heading.data).ends { cap := none, rest := t }).flatMap
      (fun st => ((Re.star reSpace).ends st).flatMap
        (fun st2 => ((Re.lit ['\n']).ends st2).flatMap _)) = _
    have hl : (Re.lit heading.data).ends { cap := none, rest := t }
        = [{ cap := none, rest := t.drop heading.data.length }] := by
      simp [Re.ends, hp]
    rw [hl, List.flatMap_singleton]
    have hs := star_chr_ends Observer.isJsWhiteSpace none (t.drop heading.data.length)
    unfold reSpace
    rw [hs]
    congr 1
    funext st
    by_cases hn : ['\n'].isPrefixOf st.rest = true
    · simp [Re.ends, hn]
    · simp [Re.ends, hn]
  rw [h1, head?_flatMap, List.findSome?_map]
  rw [← findSome?_greedyTails]
  congr 1
  funext d
  by_cases hn : ['\n'].isPrefixOf d = true
  · simp only [Function.comp, hn, if_true]
    exact section_tail_head none (d.drop 1)
  · simp [Function.comp, hn]

theorem captured_map_before (o : Option Found) (c : Char) :
    captured (o.map (fun f => { f with before := c :: f.before })) = captured o := by
  cases o <;> rfl

/-- The capture of a search is the capture at the first place where the pattern matches. -/
theorem captured_search (r : Re) (g : List Char → Option (List Char))
    (h : ∀ t, (r.matchHere t).map (fun m => m.cap) = (g t).map some) :
    ∀ s : List Char, captured (r.search s) = s.tails.findSome? g
  | [] => by
    have h0 := h []
    simp only [Re.search, List.tails, List.findSome?_cons, List.findSome?_nil]
    cases hm : r.matchHere [] with
    | none =>
      rw [hm] at h0
      cases hg : g [] with
      | none => rfl
      | some b => rw [hg] at h0; simp at h0
    | some m =>
      rw [hm] at h0
      cases hg : g [] with
      | none => rw [hg] at h0; simp at h0
      | some b =>
        rw [hg] at h0
        simp only [Option.map_some', Option.some.injEq] at h0
        simp [captured, h0]
  | c :: cs => by
    have h0 := h (c :: cs)
    have ih := captured_search r g h cs
    simp only [Re.search, List.tails, List.findSome?_cons]
    cases hm : r.matchHere (c :: cs) with
    | none =>
      rw [hm] at h0
      cases hg : g (c :: cs) with
      | none =>
        simp only
        rw [captured_map_before, ih]
      | some b => rw [hg] at h0; simp at h0
    | some m =>
      rw [hm] at h0
      cases hg : g (c :: cs) with
      | none => rw [hg] at h0; simp at h0
      | some b =>
        rw [hg] at h0
        simp only [Option.map_some', Option.some.injEq] at h0
        simp [captured, h0]

/-- The capture of a section pattern is the section text. -/
theorem captured_sectionPattern (heading content : String) :
    captured ((sectionPattern heading).search content.data) = sectionText heading content := by
  unfold sectionText
  apply captured_search
  intro t
  rw [sectionPattern_matchHere]
  unfold sectionAt
  by_cases hp : heading.data.isPrefixOf t = true
  · simp only [hp, if_true, Option.map_map]
    rfl
  · simp [hp]

theorem matchHere_lit_none (text : List Char) (r : Re) (t : List Char)
    (hp : text.isPrefixOf t = false) : (Re.seq (.lit text) r).matchHere t = none := by
  simp [Re.matchHere, Re.ends, hp]

theorem search_lit_none_aux (text : List Char) (r : Re) :
    ∀ s : List Char, s.tails.any (fun t => text.isPrefixOf t) = false →
      (Re.seq (.lit text) r).search s = none
  | [], h => by
    simp only [List.tails, List.any_cons, List.any_nil, Bool.or_false] at h
    simp [Re.search, matchHere_lit_none text r [] h]
  | c :: cs, h => by
    simp only [List.tails, List.any_cons, Bool.or_eq_false_iff] at h
    simp [Re.search, matchHere_lit_none text r (c :: cs) h.1, search_lit_none_aux text r cs h.2]

/-- A pattern that starts with a literal text matches nowhere in a content in which the
text does not occur. -/
theorem search_lit_none (text : String) (r : Re) (content : String)
    (h : includes content text = false) :
    captured ((Re.seq (.lit text.data) r).search content.data) = none := by
  rw [search_lit_none_aux text.data r content.data h]
  rfl

theorem sectionPattern_absent (heading content : String)
    (h : includes content heading = false) :
    captured ((sectionPattern heading).search content.data) = none := by
  unfold sectionPattern
  exact search_lit_none _ _ _ h

theorem contextPattern_absent (content : String)
    (h : includes content "### Context to Load" = false) :
    captured (contextPattern.search content.data) = none := by
  unfold contextPattern
  exact search_lit_none "### Context to Load" _ _ h

/-- Claim C22. `parseSessionMetadata` returns a record for every content: for `null` and for
the empty string it is the record of defaults, and for every content string each of the
fields `completed`, `inProgress`, `notes` and `context` whose heading (`### Completed`,
`### In Progress`, `### Notes for Next Session`, `### Context to Load`) does not occur in
the content has its empty default, `[]` for the lists and `""` for the texts.  The function
is a total function of the content; none of its steps can raise on a string. -/
theorem parseSessionMetadata_defaults (content : String) :
    parseSessionMetadata none = emptyMetadata
    ∧ parseSessionMetadata (some "") = emptyMetadata
    ∧ (includes content "### Completed" = false →
        (parseSessionMetadata (some content)).completed = [])
    ∧ (includes content "### In Progress" = false →
        (parseSessionMetadata (some content)).inProgress = [])
    ∧ (includes content "### Notes for Next Session" = false →
        (parseSessionMetadata (some content)).notes = "")
    ∧ (includes content "### Context to Load" = false →
        (parseSessionMetadata (some content)).context = "") := by
  refine ⟨rfl, rfl, ?_, ?_, ?_, ?_⟩
  all_goals
    intro h
    unfold parseSessionMetadata
    by_cases he : content.data.isEmpty = true
    · simp only [he, if_true]
      rfl
    · simp only [he, Bool.false_eq_true, if_false]
      first
        | rw [sectionPattern_absent _ content h]
        | rw [contextPattern_absent content h]

/-- Witness for C22: a content with a title and no section heading. -/
theorem parseSessionMetadata_defaults_witness :
    includes "# Plan\nwrite the parser" "### Completed" = false
    ∧ (parseSessionMetadata (some "# Plan\nwrite the parser")).completed = []
    ∧ (parseSessionMetadata (some "# Plan\nwrite the parser")).title = some "Plan" :=
  ⟨by decide, (parseSessionMetadata_defaults "# Plan\nwrite the parser").2.2.1 (by decide),
    by decide⟩

/-- Claim C23 (amended). For every content, the section of a heading is taken at the first
place where the heading text is followed by white space with a line feed in it; the
section text starts after the last line feed of that white space, so blank lines directly
below the heading are skipped, and it ends before the first following `###`, the first two
line feeds in a row, or the end of the text.  The `completed` list is the list of `- [x]`
items of the section text of `### Completed`, the `inProgress` list is the list of `- [ ]`
items of the section text of `### In Progress`, and `notes` is the trimmed section text of
`### Notes for Next Session`; nothing after the end of a section text is included, and a
heading without a section gives the empty default. -/
theorem parseSessionMetadata_sections (content : String) :
    (parseSessionMetadata (some content)).completed
        = ((sectionText "### Completed" content).map (checkboxItems 'x')).getD []
    ∧ (parseSessionMetadata (some content)).inProgress
        = ((sectionText "### In Progress" content).map (checkboxItems ' ')).getD []
    ∧ (parseSessionMetadata (some content)).notes
        = ((sectionText "### Notes for Next Session" content).map
            (fun body => String.mk (Observer.trimChars body))).getD "" := by
  by_cases he : content.data.isEmpty = true
  · have hc : content = "" := by
      apply String.ext
      cases h : content.data with
      | nil => rfl
      | cons c cs => rw [h] at he; simp at he
    subst hc
    exact ⟨rfl, rfl, rfl⟩
  · unfold parseSessionMetadata
    simp only [he, Bool.false_eq_true, if_false, captured_sectionPattern]
    refine ⟨?_, ?_, ?_⟩
    · cases sectionText "### Completed" content <;> rfl
    · cases sectionText "### In Progress" content <;> rfl
    · cases sectionText "### Notes for Next Session" content <;> rfl

/-- Witness for C23 (amended): the sections of the sample session file. -/
theorem parseSessionMetadata_sections_witness :
    (parseSessionMetadata (some exampleSession)).completed = ["tokenizer", "tests"]
    ∧ (parseSessionMetadata (some exampleSession)).inProgress = ["parser"]
    ∧ (parseSessionMetadata (some exampleSession)).notes = "start with errors" :=
  ⟨(parseSessionMetadata_sections exampleSession).1.trans (by decide),
    (parseSessionMetadata_sections exampleSession).2.1.trans (by decide),
    (parseSessionMetadata_sections exampleSession).2.2.trans (by decide)⟩

/-- Counterexample to C23 as stated. In a content whose heading line is followed by two
blank lines and then an item, the text after the heading line up to the first blank line
is empty, so the stated list has no item; the function skips the blank lines and returns
the item.  The same holds for the notes text. -/
theorem parseSessionMetadata_section_counterexample :
    (parseSessionMetadata (some "### Completed\n\n\n- [x] a\n")).completed = ["a"]
    ∧ (statedSectionText "### Completed" "### Completed\n\n\n- [x] a\n").map
        (checkboxItems 'x') = some []
    ∧ (parseSessionMetadata (some "### Notes for Next Session\n\n\nkeep going\n")).notes
        = "keep going"
    ∧ (statedSectionText "### Notes for Next Session"
          "### Notes for Next Session\n\n\nkeep going\n").map
        (fun body => String.mk (Observer.trimChars body)) = some "" := by
  decide

end SessionManager
